import Mathlib

/-!
# A verification development for the `renderer` ray tracer

Shallow embedding of `src/include/k_vector.h` and `src/src/main.c`.

The C program computes in `float`.  Every function of `k_vector.h`, of the
intersector and of the integrator is written over an arbitrary type `K` with the
operations the C code applies to a `float` (`+`, `-`, `*`, `/`, unary minus, `<`
and the numerals), and the libm calls the program makes (`sqrt`, `powf`, `tan`)
are explicit function parameters.  The definitions are read in two ways:

* at `F32`, a model of IEEE 754 binary32 (rounding to nearest, overflow to
  infinity, signed zeros, NaN) with its correctly rounded `F32.sqrt`: this is what
  the program computes;
* at an ordered field, in particular at the real numbers with `Real.sqrt` and the
  real power: this is the "exact reals" reading of the arithmetic.

A theorem stated over an ordered field or over the reals is about the exact
reading.  The theorems on the scans and on the control flow of `cast_ray` hold in
both readings.  Where the two readings part on numbers the program can receive,
the last sections evaluate the program in `F32`.

A C function `int hit(..., float *distance)` that returns a flag and writes
the distance through a pointer is embedded as a function into `Option K`:
`some d` is "returns 1 with `*distance = d`", `none` is "returns 0".
-/

namespace Renderer

/-! ## k_vector.h -/

/-- The struct `Vec3f` of `k_vector.h`. -/
structure Vec3f (K : Type) where
  x : K
  y : K
  z : K
  deriving DecidableEq

section Arithmetic

variable {K : Type} [Zero K] [One K] [NatCast K] [Add K] [Sub K] [Mul K] [Div K] [Neg K]
  [LT K] [DecidableRel (fun (a b : K) => a < b)]

/-- The libm function `fabs`, written with the comparison and the negation of `K`. -/
def fabs (x : K) : K := if x < 0 then -x else x


/-- The function `vec3f_add` of `k_vector.h`. -/
def vec3f_add (a b : Vec3f K) : Vec3f K :=
  ⟨a.x + b.x, a.y + b.y, a.z + b.z⟩

/-- The function `vec3f_sub` of `k_vector.h`. -/
def vec3f_sub (a b : Vec3f K) : Vec3f K :=
  ⟨a.x - b.x, a.y - b.y, a.z - b.z⟩

/-- The function `vec3f_mul_scalar` of `k_vector.h`. -/
def vec3f_mul_scalar (a : Vec3f K) (b : K) : Vec3f K :=
  ⟨a.x * b, a.y * b, a.z * b⟩

/-- The function `vec3f_dot` of `k_vector.h`. -/
def vec3f_dot (a b : Vec3f K) : K :=
  a.x * b.x + a.y * b.y + a.z * b.z

/-- The function `vec3f_cross` of `k_vector.h`. -/
def vec3f_cross (a b : Vec3f K) : Vec3f K :=
  ⟨a.y * b.z - a.z * b.y, a.z * b.x - a.x * b.z, a.x * b.y - a.y * b.x⟩

/-- The function `vec3f_size` of `k_vector.h`; `sqrt` is the libm square root. -/
def vec3f_size (sqrt : K → K) (a : Vec3f K) : K :=
  sqrt (a.x * a.x + a.y * a.y + a.z * a.z)

/-- The function `vec3f_normalise` of `k_vector.h`. -/
def vec3f_normalise (sqrt : K → K) (a : Vec3f K) : Vec3f K :=
  let invSize := 1 / vec3f_size sqrt a
  ⟨a.x * invSize, a.y * invSize, a.z * invSize⟩

/-! ## main.c : data model -/

/-- Modelled from the spec: the struct `Color` is declared in `k_image.h`, which
is not part of the sources; the spec (section 3) gives it as an `(r, g, b)` float
triple. -/
structure Color (K : Type) where
  r : K
  g : K
  b : K
  deriving DecidableEq

/-- Modelled from the spec: `color_add` of the absent `k_image.h`; colours are
"additive, not clamped" (section 3), so the sum is taken channel by channel. -/
def color_add (a b : Color K) : Color K :=
  ⟨a.r + b.r, a.g + b.g, a.b + b.b⟩

/-- Modelled from the spec: `color_add_scalar` of the absent `k_image.h`; adds the
scalar to every channel, without clamping. -/
def color_add_scalar (a : Color K) (s : K) : Color K :=
  ⟨a.r + s, a.g + s, a.b + s⟩

/-- Modelled from the spec: `color_mul_scalar` of the absent `k_image.h`;
multiplies every channel by the scalar, without clamping. -/
def color_mul_scalar (a : Color K) (s : K) : Color K :=
  ⟨a.r * s, a.g * s, a.b * s⟩

/-- The constant `MAX_DEPTH` of `main.c`. -/
def MAX_DEPTH : Int := 10

/-- The constant `EPSILON` of `main.c` (`0.001`). -/
def EPSILON : K := 1 / 1000

/-- The struct `Material` of `main.c`. -/
structure Material (K : Type) where
  diffuse : Color K
  ambient : K
  specular : K
  specularExp : K
  reflective : K
  deriving DecidableEq

/-- The struct `Sphere` of `main.c`. -/
structure Sphere (K : Type) where
  center : Vec3f K
  radius : K
  material : Material K
  deriving DecidableEq

/-- The struct `Triangle` of `main.c`. -/
structure Triangle (K : Type) where
  a : Vec3f K
  b : Vec3f K
  c : Vec3f K
  material : Material K
  deriving DecidableEq

/-- The struct `Ray` of `main.c`. -/
structure Ray (K : Type) where
  origin : Vec3f K
  direction : Vec3f K
  deriving DecidableEq

/-- The struct `Light` of `main.c`. -/
structure Light (K : Type) where
  pos : Vec3f K
  strength : K
  deriving DecidableEq

/-- The struct `Scene` of `main.c`; each counted C array is a list. -/
structure Scene (K : Type) where
  bgColor : Color K
  lights : List (Light K)
  spheres : List (Sphere K)
  triangles : List (Triangle K)

/-! ## main.c : the intersector -/

/-- The function `hit_sphere` of `main.c`. -/
def hit_sphere (sqrt : K → K) (ray : Ray K) (sphere : Sphere K) : Option K :=
  let oc := vec3f_sub ray.origin sphere.center
  let a := vec3f_dot ray.direction ray.direction
  let b := 2 * vec3f_dot oc ray.direction
  let c := vec3f_dot oc oc - sphere.radius * sphere.radius
  let discriminant := b * b - 4 * a * c
  if discriminant < 0 then none
  else
    let sqrtDiscriminant := sqrt discriminant
    let t1 := (-b - sqrtDiscriminant) / (2 * a)
    let t2 := (-b + sqrtDiscriminant) / (2 * a)
    if t1 < 0 ∧ t2 < 0 then none
    else
      -- the swap `if(t1 > t2)`
      let s1 := if t1 > t2 then t2 else t1
      let s2 := if t1 > t2 then t1 else t2
      if s1 < 0 then some s2 else some s1

/-- The function `hit_triangle` of `main.c`. -/
def hit_triangle (ray : Ray K) (triangle : Triangle K) : Option K :=
  let ab := vec3f_sub triangle.b triangle.a
  let ac := vec3f_sub triangle.c triangle.a
  let p := vec3f_cross ac ray.direction
  let det := vec3f_dot ab p
  if fabs det < EPSILON then none
  else
    let t := vec3f_sub ray.origin triangle.a
    let u := vec3f_dot t p / det
    if u < 0 ∨ u > 1 then none
    else
      let q := vec3f_cross ab t
      let v := vec3f_dot ray.direction q / det
      if v < 0 ∨ u + v > 1 then none
      else
        let distance := vec3f_dot ac q / det
        if distance < 0 then none else some distance

/-- The function `reflection_dir` of `main.c`. -/
def reflection_dir (sqrt : K → K) (ray normal : Vec3f K) : Vec3f K :=
  vec3f_mul_scalar
    (vec3f_normalise sqrt
      (vec3f_sub (vec3f_mul_scalar normal (2 * vec3f_dot ray normal)) ray))
    (-1)

/-! ## main.c : the integrator `cast_ray`

The body of `cast_ray` is split at its loops: each C loop is one recursive
function (or fold) over the list it scans, and `cast_ray` composes them in the
order of the source.
-/

/-- The locals `flag`, `distance`, `sphere`, `triangle` of `cast_ray`, the state of
its two nearest-hit loops.  A C pointer that has not been assigned is `none`. -/
structure Nearest (K : Type) where
  flag : Int
  distance : K
  sphere : Option (Sphere K)
  triangle : Option (Triangle K)
  deriving DecidableEq

/-- One iteration of the sphere loop of `cast_ray` (lines 230-239). -/
def nearest_sphere_step (sqrt : K → K) (ray : Ray K) (st : Nearest K) (s : Sphere K) :
    Nearest K :=
  match hit_sphere sqrt ray s with
  | some currentDistance =>
    if st.flag = -1 ∨ currentDistance < st.distance then
      { st with distance := currentDistance, sphere := some s, flag := 1 }
    else st
  | none => st

/-- One iteration of the triangle loop of `cast_ray` (lines 241-250). -/
def nearest_triangle_step (ray : Ray K) (st : Nearest K) (t : Triangle K) : Nearest K :=
  match hit_triangle ray t with
  | some currentDistance =>
    if st.flag = -1 ∨ currentDistance < st.distance then
      { st with distance := currentDistance, triangle := some t, flag := 2 }
    else st
  | none => st

/-- Lines 224-250 of `cast_ray`: `flag = -1`, `distance = -1`, then the sphere loop,
then the triangle loop. -/
def nearest_hit (sqrt : K → K) (scene : Scene K) (ray : Ray K) : Nearest K :=
  scene.triangles.foldl (nearest_triangle_step ray)
    (scene.spheres.foldl (nearest_sphere_step sqrt ray) ⟨-1, -1, none, none⟩)

/-- The locals `hitPoint`, `normal`, `material` of `cast_ray`. -/
structure Surface (K : Type) where
  hitPoint : Vec3f K
  normal : Vec3f K
  material : Material K
  deriving DecidableEq

/-- The branch `flag == 1` of `cast_ray` (lines 257-266): hit point, normal and
material on the sphere `*sphere` at the distance `distance`. -/
def sphere_surface (sqrt : K → K) (ray : Ray K) (sphere : Sphere K) (distance : K) :
    Surface K :=
  let hitPoint := vec3f_add ray.origin (vec3f_mul_scalar ray.direction distance)
  let normal := vec3f_normalise sqrt (vec3f_sub hitPoint sphere.center)
  ⟨hitPoint, normal, sphere.material⟩

/-- The branch `flag == 2` of `cast_ray` (lines 268-284): hit point, normal and
material on the triangle `*triangle` at the distance `distance`. -/
def triangle_surface (sqrt : K → K) (ray : Ray K) (triangle : Triangle K) (distance : K) :
    Surface K :=
  let hitPoint := vec3f_add ray.origin (vec3f_mul_scalar ray.direction distance)
  let normal := vec3f_normalise sqrt
    (vec3f_cross (vec3f_sub triangle.b triangle.a) (vec3f_sub triangle.c triangle.a))
  let normal := if vec3f_dot normal ray.direction > 0 then vec3f_mul_scalar normal (-1)
    else normal
  ⟨hitPoint, normal, triangle.material⟩

/-- Lines 253-284 of `cast_ray`: the hit point, normal and material of the nearest
primitive.  The result is `none` exactly where the C code would read an
unassigned local (a flag other than 1 or 2, or an unassigned pointer);
`nearest_hit_cases` shows that this never happens after `nearest_hit`. -/
def surface_of (sqrt : K → K) (ray : Ray K) (st : Nearest K) : Option (Surface K) :=
  if st.flag = 1 then
    match st.sphere with
    | some sphere => some (sphere_surface sqrt ray sphere st.distance)
    | none => none
  else if st.flag = 2 then
    match st.triangle with
    | some triangle => some (triangle_surface sqrt ray triangle st.distance)
    | none => none
  else none

/-- The sphere loop of the occlusion test (lines 305-313), with its `break`:
the value of `intersect` after the loop. -/
def shadow_spheres (sqrt : K → K) (lightRay : Ray K) : List (Sphere K) → Bool
  | [] => false
  | s :: rest =>
    match hit_sphere sqrt lightRay s with
    | some d => if d > 0 then true else shadow_spheres sqrt lightRay rest
    | none => shadow_spheres sqrt lightRay rest

/-- The triangle loop of the occlusion test (lines 316-324), with its `break`. -/
def shadow_triangles (lightRay : Ray K) : List (Triangle K) → Bool
  | [] => false
  | t :: rest =>
    match hit_triangle lightRay t with
    | some d => if d > 0 then true else shadow_triangles lightRay rest
    | none => shadow_triangles lightRay rest

/-- The shadow ray `lightRay` of `cast_ray` (lines 298-301). -/
def light_ray (sqrt : K → K) (hitPoint normal : Vec3f K) (light : Light K) : Ray K :=
  ⟨vec3f_add hitPoint (vec3f_mul_scalar normal EPSILON),
   vec3f_normalise sqrt (vec3f_sub light.pos hitPoint)⟩

/-- Lines 303-325 of `cast_ray`: the value of `intersect` for one light. -/
def occluded (sqrt : K → K) (scene : Scene K) (lightRay : Ray K) : Bool :=
  let intersect := shadow_spheres sqrt lightRay scene.spheres
  if !intersect then shadow_triangles lightRay scene.triangles else intersect

/-- One iteration of the light loop of `cast_ray` (lines 296-350).  The pair is
`(diffuseLightStrength, specularLightStrength)`; `powf` is the libm power. -/
def light_step (sqrt : K → K) (powf : K → K → K) (scene : Scene K) (ray : Ray K)
    (sf : Surface K) (acc : K × K) (light : Light K) : K × K :=
  let lightRay := light_ray sqrt sf.hitPoint sf.normal light
  let intersect := occluded sqrt scene lightRay
  if !intersect then
    let lightDirection := vec3f_normalise sqrt (vec3f_sub light.pos sf.hitPoint)
    let diffuseDot := vec3f_dot sf.normal lightDirection
    if diffuseDot > 0 then
      let lightReflectionDir := reflection_dir sqrt lightDirection sf.normal
      let specularDot := vec3f_dot lightReflectionDir ray.direction
      (acc.1 + light.strength * diffuseDot,
       acc.2 + light.strength * powf specularDot sf.material.specularExp)
    else acc
  else acc

/-- Lines 293-350 of `cast_ray`: both sums start at 0 and the light loop runs over
the lights in order. -/
def light_sums (sqrt : K → K) (powf : K → K → K) (scene : Scene K) (ray : Ray K)
    (sf : Surface K) : K × K :=
  scene.lights.foldl (light_step sqrt powf scene ray sf) (0, 0)

/-- The reflection ray of `cast_ray` (lines 286-289). -/
def reflection_ray (sqrt : K → K) (ray : Ray K) (sf : Surface K) : Ray K :=
  ⟨vec3f_add sf.hitPoint (vec3f_mul_scalar sf.normal EPSILON),
   reflection_dir sqrt ray.direction sf.normal⟩

/-- Lines 352-364 of `cast_ray`: the colour assembled from the material, the two
sums and the reflected colour. -/
def final_color (material : Material K) (diffuseLightStrength specularLightStrength : K)
    (reflectionColor : Color K) : Color K :=
  color_add
    (color_add_scalar
      (color_mul_scalar
        (color_mul_scalar material.diffuse (1 - material.ambient))
        diffuseLightStrength)
      (material.specular * specularLightStrength))
    (color_mul_scalar reflectionColor material.reflective)

/-- The function `cast_ray` of `main.c`, with one ghost component: next to the
colour it returns the list of the `depth` arguments of the recursive
invocations it gave rise to, outermost first.  The recursion is the one of the
source; it is accepted on the measure `MAX_DEPTH - depth`. -/
def cast_ray_traced (sqrt : K → K) (powf : K → K → K) (scene : Scene K) (ray : Ray K)
    (depth : Int) : Color K × List Int :=
  let color := scene.bgColor
  if _h : depth < MAX_DEPTH then
    let st := nearest_hit sqrt scene ray
    if st.flag ≠ -1 then
      match surface_of sqrt ray st with
      | some sf =>
        let reflection := reflection_ray sqrt ray sf
        let sub := cast_ray_traced sqrt powf scene reflection (depth + 1)
        let reflectionColor := sub.1
        let sums := light_sums sqrt powf scene ray sf
        (final_color sf.material sums.1 sums.2 reflectionColor, (depth + 1) :: sub.2)
      | none => (color, [])
    else (color, [])
  else (color, [])
termination_by (MAX_DEPTH - depth).toNat
decreasing_by
  simp only [MAX_DEPTH] at *
  omega

/-- The function `cast_ray` of `main.c`: the colour it returns. -/
def cast_ray (sqrt : K → K) (powf : K → K → K) (scene : Scene K) (ray : Ray K)
    (depth : Int) : Color K :=
  (cast_ray_traced sqrt powf scene ray depth).1

/-- The ghost trace of `cast_ray`: the `depth` arguments of the nested recursive
invocations, outermost first. -/
def cast_ray_calls (sqrt : K → K) (powf : K → K → K) (scene : Scene K) (ray : Ray K)
    (depth : Int) : List Int :=
  (cast_ray_traced sqrt powf scene ray depth).2

/-! ## main.c : the scene store -/

/-- The struct `Square` of `main.c`. -/
structure Square (K : Type) where
  a : Vec3f K
  b : Vec3f K
  c : Vec3f K
  d : Vec3f K
  material : Material K

/-- The function `add_light` of `main.c`: the count grows by one and the light is stored
in the last cell. -/
def add_light (scene : Scene K) (light : Light K) : Scene K :=
  { scene with lights := scene.lights ++ [light] }

/-- The function `add_sphere` of `main.c`. -/
def add_sphere (scene : Scene K) (sphere : Sphere K) : Scene K :=
  { scene with spheres := scene.spheres ++ [sphere] }

/-- The function `add_triangle` of `main.c`. -/
def add_triangle (scene : Scene K) (triangle : Triangle K) : Scene K :=
  { scene with triangles := scene.triangles ++ [triangle] }

/-- The function `add_square` of `main.c`. -/
def add_square (scene : Scene K) (square : Square K) : Scene K :=
  add_triangle
    (add_triangle scene ⟨square.a, square.b, square.c, square.material⟩)
    ⟨square.a, square.c, square.d, square.material⟩

/-! ## main.c : locals of `hit_triangle` -/

/-- The local `u` of `hit_triangle`. -/
def hit_triangle_u (ray : Ray K) (triangle : Triangle K) : K :=
  vec3f_dot (vec3f_sub ray.origin triangle.a)
      (vec3f_cross (vec3f_sub triangle.c triangle.a) ray.direction)
    / vec3f_dot (vec3f_sub triangle.b triangle.a)
        (vec3f_cross (vec3f_sub triangle.c triangle.a) ray.direction)

/-- The local `v` of `hit_triangle`. -/
def hit_triangle_v (ray : Ray K) (triangle : Triangle K) : K :=
  vec3f_dot ray.direction
      (vec3f_cross (vec3f_sub triangle.b triangle.a) (vec3f_sub ray.origin triangle.a))
    / vec3f_dot (vec3f_sub triangle.b triangle.a)
        (vec3f_cross (vec3f_sub triangle.c triangle.a) ray.direction)

/-! ## main.c : what the scans of `cast_ray` report -/

/-- Some sphere or triangle of the scene is reported as hit by the ray. -/
def SomeHit (sqrt : K → K) (scene : Scene K) (ray : Ray K) : Prop :=
  (∃ s ∈ scene.spheres, (hit_sphere sqrt ray s).isSome) ∨
  (∃ t ∈ scene.triangles, (hit_triangle ray t).isSome)

/-- The surface `sf` is the one `cast_ray` computes for a primitive of the scene that
the ray is reported to hit at the distance `dist`. -/
def SurfaceOfHit (sqrt : K → K) (scene : Scene K) (ray : Ray K) (sf : Surface K) (dist : K) :
    Prop :=
  (∃ s ∈ scene.spheres, hit_sphere sqrt ray s = some dist
      ∧ sf = sphere_surface sqrt ray s dist) ∨
  (∃ t ∈ scene.triangles, hit_triangle ray t = some dist
      ∧ sf = triangle_surface sqrt ray t dist)

/-- No hit distance that `hit_sphere` and `hit_triangle` report for the ray among the
spheres and triangles of the scene is smaller than `dist` in the comparison `<` of
the program. -/
def NoNearerHit (sqrt : K → K) (scene : Scene K) (ray : Ray K) (dist : K) : Prop :=
  (∀ s ∈ scene.spheres, ∀ d, hit_sphere sqrt ray s = some d → ¬ d < dist) ∧
  (∀ t ∈ scene.triangles, ∀ d, hit_triangle ray t = some d → ¬ d < dist)

/-- The distance `dist` is at most every hit distance that `hit_sphere` and `hit_triangle`
report for the ray among the spheres and triangles of the scene, NaN apart: a value
`d` of the program is a number, not NaN, exactly when `d <= d`. -/
def NearestDist [LE K] (sqrt : K → K) (scene : Scene K) (ray : Ray K) (dist : K) : Prop :=
  (∀ s ∈ scene.spheres, ∀ d, hit_sphere sqrt ray s = some d → d ≤ d → dist ≤ d) ∧
  (∀ t ∈ scene.triangles, ∀ d, hit_triangle ray t = some d → d ≤ d → dist ≤ d)

/-- Invariant of the two nearest-hit loops of `cast_ray` once the spheres `ss` and the
triangles `ts` have been scanned: either nothing was hit and the flag is still -1,
or the flag names the kind of a scanned primitive hit at `distance`; and no hit
distance among the scanned primitives is smaller than `distance`. -/
def NearestInv (sqrt : K → K) (ray : Ray K) (ss : List (Sphere K)) (ts : List (Triangle K))
    (st : Nearest K) : Prop :=
  ((st.flag = -1 ∧ (∀ s ∈ ss, hit_sphere sqrt ray s = none)
      ∧ (∀ t ∈ ts, hit_triangle ray t = none)) ∨
   (st.flag = 1 ∧ ∃ s ∈ ss, st.sphere = some s ∧ hit_sphere sqrt ray s = some st.distance) ∨
   (st.flag = 2 ∧ ∃ t ∈ ts, st.triangle = some t
      ∧ hit_triangle ray t = some st.distance)) ∧
  (∀ s ∈ ss, ∀ d, hit_sphere sqrt ray s = some d → ¬ d < st.distance) ∧
  (∀ t ∈ ts, ∀ d, hit_triangle ray t = some d → ¬ d < st.distance)

end Arithmetic

variable {K : Type} [LinearOrderedField K]

/-! ## main.c : the frame scheduler -/

/-- Modelled from the spec: the struct `Image` is declared in `k_image.h`, which is not
part of the sources; the spec (section 3) gives the framebuffer as a
`width x height` grid of colours, row-major.  The array `data` is a list, and a
write `data[i] = v` is `List.set`. -/
structure Image (K : Type) where
  width : Nat
  height : Nat
  data : List (Color K)

/-- The camera ray `render_routine` builds for the pixel in column `column` of row `row`
(lines 379-386). -/
def pixel_ray (sqrt : K → K) (image : Image K) (row column : Nat) (aspectRatio tanFOV : K) :
    Ray K :=
  let y := -(2 * ((row : K) + 1 / 2) / (image.height : K) - 1) * tanFOV
  let x := (2 * ((column : K) + 1 / 2) / (image.width : K) - 1) * tanFOV * aspectRatio
  let dir := vec3f_normalise sqrt ⟨x, y, -1⟩
  ⟨⟨0, 0, 0⟩, dir⟩

/-- The function `render_routine` of `main.c`, the worker of one row, as a function on
the image: the loop over the columns writes the cell `column + row * width`. -/
def render_routine (sqrt : K → K) (powf : K → K → K) (scene : Scene K) (image : Image K)
    (row : Nat) (aspectRatio tanFOV : K) : Image K :=
  { image with
    data := (List.range image.width).foldl
      (fun data column =>
        data.set (column + row * image.width)
          (cast_ray sqrt powf scene (pixel_ray sqrt image row column aspectRatio tanFOV) 0))
      image.data }

/-- The constant `PI` of `main.c`. -/
def PI : K := 314159265358979323846 / 100000000000000000000

/-- The function `render` of `main.c`, with the workers run one after the other in the
order `order` (the source starts one thread per row and joins them all); `tan` is
the libm tangent and `FOV / 2` expands to `PI / 3 / 2`. -/
def render (tan sqrt : K → K) (powf : K → K → K) (scene : Scene K) (image : Image K)
    (order : List Nat) : Image K :=
  let aspectRatio := (image.width : K) / (image.height : K)
  let tanFOV := tan (PI / 3 / 2)
  order.foldl (fun img i => render_routine sqrt powf scene img i aspectRatio tanFOV) image

/-! ## Specification predicates -/

/-- The point `O + t * D` of a ray. -/
def ray_at (ray : Ray K) (t : K) : Vec3f K :=
  vec3f_add ray.origin (vec3f_mul_scalar ray.direction t)

/-- The sphere equation `|O + t D - C|^2 = r^2` at the ray parameter `t`. -/
def sphere_root (ray : Ray K) (sphere : Sphere K) (t : K) : Prop :=
  vec3f_dot (vec3f_sub (ray_at ray t) sphere.center) (vec3f_sub (ray_at ray t) sphere.center)
    = sphere.radius * sphere.radius

/-- The direction of the ray is not the zero vector. -/
def nonzero_dir (ray : Ray K) : Prop :=
  ray.direction.x ≠ 0 ∨ ray.direction.y ≠ 0 ∨ ray.direction.z ≠ 0

/-- The determinant `det = dot(b - a, cross(c - a, D))` of `hit_triangle`. -/
def triangle_det (ray : Ray K) (triangle : Triangle K) : K :=
  vec3f_dot (vec3f_sub triangle.b triangle.a)
    (vec3f_cross (vec3f_sub triangle.c triangle.a) ray.direction)

/-- The point `a + u (b - a) + v (c - a)` of the plane of a triangle. -/
def triangle_at (triangle : Triangle K) (u v : K) : Vec3f K :=
  vec3f_add triangle.a
    (vec3f_add (vec3f_mul_scalar (vec3f_sub triangle.b triangle.a) u)
      (vec3f_mul_scalar (vec3f_sub triangle.c triangle.a) v))

/-- The triple `(t, u, v)` solves `O + t D = a + u (b - a) + v (c - a)`. -/
def triangle_solves (ray : Ray K) (triangle : Triangle K) (t u v : K) : Prop :=
  ray_at ray t = triangle_at triangle u v

/-- Some sphere or triangle of the scene is reported by `hit_sphere` or `hit_triangle` as
hit by the ray at a strictly positive distance: the test of the occlusion loops. -/
def Blocked (sqrt : K → K) (scene : Scene K) (lightRay : Ray K) : Prop :=
  (∃ s ∈ scene.spheres, ∃ d, hit_sphere sqrt lightRay s = some d ∧ 0 < d) ∨
  (∃ t ∈ scene.triangles, ∃ d, hit_triangle lightRay t = some d ∧ 0 < d)

/-- The point `p` lies in the closed triangle: `p = a + u (b - a) + v (c - a)` with
`u, v >= 0` and `u + v <= 1`. -/
def InTriangle (triangle : Triangle K) (p : Vec3f K) : Prop :=
  ∃ u v, 0 ≤ u ∧ 0 ≤ v ∧ u + v ≤ 1 ∧ p = triangle_at triangle u v

/-- The point `p` lies on the open segment from `x` to `y`: `p = x + s (y - x)` with
`0 < s < 1`. -/
def OnOpenSegment (x y p : Vec3f K) : Prop :=
  ∃ s, 0 < s ∧ s < 1 ∧ p = vec3f_add x (vec3f_mul_scalar (vec3f_sub y x) s)

/-- The value `diffuseDot` of the light loop: `dot(normal, lightDirection)`. -/
def diffuse_dot (sqrt : K → K) (sf : Surface K) (light : Light K) : K :=
  vec3f_dot sf.normal (vec3f_normalise sqrt (vec3f_sub light.pos sf.hitPoint))

/-- The specular term of one light:
`strength * powf(dot(reflection_dir(lightDirection, normal), ray.direction), specularExp)`. -/
def specular_term (sqrt : K → K) (powf : K → K → K) (ray : Ray K) (sf : Surface K)
    (light : Light K) : K :=
  light.strength *
    powf (vec3f_dot
        (reflection_dir sqrt (vec3f_normalise sqrt (vec3f_sub light.pos sf.hitPoint)) sf.normal)
        ray.direction)
      sf.material.specularExp

/-- The shadow ray of the light is not occluded: `intersect` stays 0. -/
def unoccluded (sqrt : K → K) (scene : Scene K) (sf : Surface K) (light : Light K) : Bool :=
  !occluded sqrt scene (light_ray sqrt sf.hitPoint sf.normal light)

/-- The light is not occluded and `diffuseDot > 0`: both sums are updated for it. -/
def lit (sqrt : K → K) (scene : Scene K) (sf : Surface K) (light : Light K) : Bool :=
  unoccluded sqrt scene sf light && decide (diffuse_dot sqrt sf light > 0)

/-! ## The arithmetic of the program: IEEE 754 binary32

The type `float` of the C program is the binary32 format of IEEE 754.  `F32` is a
model of its values and of the operations the program applies to them: `+`, `-`,
`*`, `/`, unary minus, the comparison `<`, and the libm `sqrt` narrowed to
`float`.  Every operation returns the exact result rounded to nearest, ties to
even, with gradual underflow, overflow to infinity, signed zeros and one NaN.

The definitions of `k_vector.h` and `main.c` above only use these operations, so
each of them can be read at `F32`, which is what the program computes, and at an
ordered field, which is the exact reading of the arithmetic.  Each operation of the
C code is taken to be rounded to binary32 on its own: no extended precision and no
fused multiply-add.  Three expressions of `main.c` go through `double`
(`2.0 * x`, `sqrt(x)` and `fabs(det) < EPSILON`); their results narrowed to
`float` are those of the binary32 operations, so they are read as such, and the
constant `EPSILON` passed as a `float` is the binary32 number nearest to `0.001`,
the quotient `1 / 1000` of `F32`.
-/

/-- A value of the binary32 format: NaN, an infinity with its sign, or the finite
number `(-1)^neg * m * 2^e`.  The operations below return finite numbers in the
canonical form with `m` odd, and zero as `m = 0`, `e = 0`; `fin true 0 0` is the
negative zero. -/
inductive F32 where
  | nan : F32
  | inf (neg : Bool) : F32
  | fin (neg : Bool) (m : Nat) (e : Int) : F32
  deriving DecidableEq

namespace F32

/-- The number `p * 2 ^ k` as a fraction `(numerator, denominator)`. -/
def scale (p : Nat) (k : Int) : Nat × Nat :=
  if 0 ≤ k then (p * 2 ^ k.toNat, 1) else (p, 2 ^ (-k).toNat)

/-- The number of binary digits of `n`, by halving at most `fuel` times. -/
def bitsAux : Nat → Nat → Nat
  | 0, _ => 0
  | fuel + 1, n => if n = 0 then 0 else bitsAux fuel (n / 2) + 1

/-- The number of binary digits of `n`: `bits 0 = 0`, `bits 1 = 1`, `bits 8 = 4`. -/
def bits (n : Nat) : Nat := bitsAux n n

/-- The integer `d` with `2^d <= p / q < 2^(d+1)`, for `p, q > 0`. -/
def ilog2 (p q : Nat) : Int :=
  let d : Int := (bits p : Int) - (bits q : Int)
  let ge : Bool :=
    if 0 ≤ d then decide (q * 2 ^ d.toNat ≤ p) else decide (q ≤ p * 2 ^ (-d).toNat)
  if ge then d else d - 1

/-- The binary32 number nearest to `(-1)^neg * p / q` (`q > 0`), ties to even.  The
unit of the last place is `2^u` with `u = max (d - 23) (-149)`, where `d` is the
binary exponent of `p / q`: 24 significant bits, and the subnormal spacing
`2^-149` below `2^-126`.  A result of `2^128` or more is an infinity. -/
def round (neg : Bool) (p q : Nat) : F32 :=
  if p = 0 then fin neg 0 0
  else
    let d := ilog2 p q
    let u : Int := if d - 23 < -149 then -149 else d - 23
    let num := if 0 ≤ u then p else p * 2 ^ (-u).toNat
    let den := if 0 ≤ u then q * 2 ^ u.toNat else q
    let m0 := num / den
    let r := num % den
    let m :=
      if den < 2 * r then m0 + 1
      else if 2 * r = den then (if m0 % 2 = 0 then m0 else m0 + 1)
      else m0
    if m = 0 then fin neg 0 0
    else if 104 < u ∨ (u = 104 ∧ 2 ^ 24 ≤ m) then inf neg
    else
      let g := Nat.gcd m (2 ^ 24)
      fin neg (m / g) (u + ((bits g - 1 : Nat) : Int))

/-- The integer `(-1)^s * m * 2^(e - lo)`, for an exponent `lo <= e`. -/
def scaled (s : Bool) (m : Nat) (e lo : Int) : Int :=
  (if s then -1 else 1) * ((m * 2 ^ (e - lo).toNat : Nat) : Int)

/-- The smaller of two exponents. -/
def minExp (e f : Int) : Int := if e ≤ f then e else f

/-- Unary minus: the sign bit is flipped. -/
def neg : F32 → F32
  | nan => nan
  | inf s => inf (!s)
  | fin s m e => fin (!s) m e

/-- Addition.  Infinities of opposite sign give NaN; an exact sum of zero is `+0`
unless both operands are negative zeros. -/
def add : F32 → F32 → F32
  | nan, _ => nan
  | _, nan => nan
  | inf s, inf t => if s = t then inf s else nan
  | inf s, fin _ _ _ => inf s
  | fin _ _ _, inf t => inf t
  | fin s m e, fin t n f =>
    let lo := minExp e f
    let z := scaled s m e lo + scaled t n f lo
    if z = 0 then fin (s && t) 0 0
    else
      let pq := scale z.natAbs lo
      round (decide (z < 0)) pq.1 pq.2

/-- Subtraction: `a - b = a + (-b)`. -/
def sub (a b : F32) : F32 := add a (neg b)

/-- Multiplication.  Zero times an infinity is NaN. -/
def mul : F32 → F32 → F32
  | nan, _ => nan
  | _, nan => nan
  | inf s, inf t => inf (xor s t)
  | inf s, fin t n _ => if n = 0 then nan else inf (xor s t)
  | fin s m _, inf t => if m = 0 then nan else inf (xor s t)
  | fin s m e, fin t n f =>
    let pq := scale (m * n) (e + f)
    round (xor s t) pq.1 pq.2

/-- Division.  `0 / 0` and `inf / inf` are NaN; a non-zero number over zero is an
infinity. -/
def div : F32 → F32 → F32
  | nan, _ => nan
  | _, nan => nan
  | inf _, inf _ => nan
  | inf s, fin t _ _ => inf (xor s t)
  | fin s _ _, inf t => fin (xor s t) 0 0
  | fin s m e, fin t n f =>
    if n = 0 then (if m = 0 then nan else inf (xor s t))
    else
      let pq := scale m (e - f)
      round (xor s t) pq.1 (pq.2 * n)

/-- The loop of the integer square root: the bits of the root from bit `i` down. -/
def isqrtLoop (N : Nat) : Nat → Nat → Nat
  | 0, r => if (r + 1) * (r + 1) ≤ N then r + 1 else r
  | i + 1, r =>
    isqrtLoop N i (if (r + 2 ^ (i + 1)) * (r + 2 ^ (i + 1)) ≤ N then r + 2 ^ (i + 1) else r)

/-- The integer square root: the largest `r` with `r * r <= N`. -/
def isqrt (N : Nat) : Nat := isqrtLoop N (bits N / 2 + 1) 0

/-- The square root, correctly rounded.  The argument is scaled to an integer `N`
of at least 60 bits by an even power of two; the root of `N` is taken to 30 bits
or more, and a sticky bit records whether it is exact, which is enough to round
to 24 bits.  The root of a negative number is NaN, the root of `-0` is `-0`. -/
def sqrt : F32 → F32
  | nan => nan
  | inf s => if s then nan else inf false
  | fin s m e =>
    if m = 0 then fin s 0 0
    else if s then nan
    else
      let k : Int := if 60 ≤ e then 0 else (61 - e) / 2
      let N := m * 2 ^ (e + 2 * k).toNat
      let r := isqrt N
      let sticky := if r * r = N then 0 else 1
      let pq := scale (2 * r + sticky) (-(k + 1))
      round false pq.1 pq.2

/-- The comparison `a < b` of the program: false when an operand is NaN; the two
zeros are equal. -/
def blt : F32 → F32 → Bool
  | nan, _ => false
  | _, nan => false
  | inf s, inf t => s && !t
  | inf s, fin _ _ _ => s
  | fin _ _ _, inf t => !t
  | fin s m e, fin t n f => decide (scaled s m e (minExp e f) < scaled t n f (minExp e f))

/-- The comparison `a <= b` of the program: false when an operand is NaN. -/
def ble : F32 → F32 → Bool
  | nan, _ => false
  | _, nan => false
  | inf s, inf t => s || !t
  | inf s, fin _ _ _ => s
  | fin _ _ _, inf t => !t
  | fin s m e, fin t n f => decide (scaled s m e (minExp e f) ≤ scaled t n f (minExp e f))

instance : Zero F32 := ⟨fin false 0 0⟩

instance : One F32 := ⟨fin false 1 0⟩

instance : NatCast F32 := ⟨fun n => round false n 1⟩

instance : Add F32 := ⟨add⟩

instance : Sub F32 := ⟨sub⟩

instance : Mul F32 := ⟨mul⟩

instance : Div F32 := ⟨div⟩

instance : Neg F32 := ⟨neg⟩

instance : LT F32 := ⟨fun a b => blt a b = true⟩

instance : LE F32 := ⟨fun a b => ble a b = true⟩

instance : DecidableRel (fun (a b : F32) => a < b) :=
  fun a b => inferInstanceAs (Decidable (blt a b = true))

instance : DecidableRel (fun (a b : F32) => a ≤ b) :=
  fun a b => inferInstanceAs (Decidable (ble a b = true))

/-- The rational number a finite value denotes, `(-1)^neg * m * 2^e`; NaN and the
infinities denote no number and are sent to 0. -/
def toRat : F32 → ℚ
  | fin s m e => (if s then -1 else 1) * (m : ℚ) * (2 : ℚ) ^ e
  | _ => 0

end F32

/-! ## Concrete scenes

Small scenes on which the theorems below are evaluated.  The floor is the
triangle `(0,0,0), (1,0,0), (0,1,0)` in the plane `z = 0`.
-/

/-- A material with diffuse colour red, `ambient = 0`, `specular = 1`,
`specularExp = 1` and `reflective = 0`. -/
def demo_material : Material K := ⟨⟨1, 0, 0⟩, 0, 1, 1, 0⟩

/-- The floor triangle, in the plane `z = 0`. -/
def floor_triangle : Triangle K := ⟨⟨0, 0, 0⟩, ⟨1, 0, 0⟩, ⟨0, 1, 0⟩, demo_material⟩

/-- A triangle of side 0.03 in the plane `z = 1/2`, around the point `(1/4, 1/4, 1/2)`. -/
def small_triangle : Triangle K :=
  ⟨⟨24/100, 24/100, 1/2⟩, ⟨27/100, 24/100, 1/2⟩, ⟨24/100, 27/100, 1/2⟩, demo_material⟩

/-- A copy of the floor triangle lifted to the plane `z = 1/2`. -/
def blocker_triangle : Triangle K := ⟨⟨0, 0, 1/2⟩, ⟨1, 0, 1/2⟩, ⟨0, 1, 1/2⟩, demo_material⟩

/-- A light of strength 1 at `(1/4, 1/4, 1)`, straight above the floor point
`(1/4, 1/4, 0)`. -/
def overhead_light : Light K := ⟨⟨1/4, 1/4, 1⟩, 1⟩

/-- A light of strength 1 below the plane of the floor, at distance 1 from the floor
point `(1/4, 1/4000, 0)` in the direction `(0, -3/5, -4/5)`. -/
def low_light : Light K := ⟨⟨1/4, -2399/4000, -4/5⟩, 1⟩

/-- The floor, the small triangle above it and the overhead light. -/
def small_occluder_scene : Scene K :=
  ⟨⟨0, 0, 0⟩, [overhead_light], [], [floor_triangle, small_triangle]⟩

/-- The floor, the blocker triangle above it and the overhead light. -/
def blocker_scene : Scene K :=
  ⟨⟨0, 0, 0⟩, [overhead_light], [], [floor_triangle, blocker_triangle]⟩

/-- The floor and the light below its plane. -/
def low_light_scene : Scene K := ⟨⟨0, 0, 0⟩, [low_light], [], [floor_triangle]⟩

/-- The ray from `(1/4, 1/4, 1/4)` straight down; it meets the floor at `(1/4, 1/4, 0)`. -/
def down_ray : Ray K := ⟨⟨1/4, 1/4, 1/4⟩, ⟨0, 0, -1⟩⟩

/-- The ray from `(1/4, 8001/4000, 1)` along `(0, -2, -1)`; it meets the floor at
`(1/4, 1/4000, 0)`. -/
def slant_ray : Ray K := ⟨⟨1/4, 8001/4000, 1⟩, ⟨0, -2, -1⟩⟩

/-- The surface `cast_ray` computes where `down_ray` meets the floor. -/
def floor_surface : Surface K := ⟨⟨1/4, 1/4, 0⟩, ⟨0, 0, 1⟩, demo_material⟩

/-- The surface `cast_ray` computes where `slant_ray` meets the floor. -/
def edge_surface : Surface K := ⟨⟨1/4, 1/4000, 0⟩, ⟨0, 0, 1⟩, demo_material⟩

/-- The ray from `(0, 0, 2)` towards the origin. -/
def axis_ray : Ray K := ⟨⟨0, 0, 2⟩, ⟨0, 0, -1⟩⟩

/-- The unit sphere at the origin. -/
def unit_sphere : Sphere K := ⟨⟨0, 0, 0⟩, 1, demo_material⟩

/-- The triangle with the vertices `b` and `c` exchanged. -/
def swap_bc (triangle : Triangle K) : Triangle K :=
  ⟨triangle.a, triangle.c, triangle.b, triangle.material⟩

/-- The normal vector `cross(b - a, c - a)` of the plane of a triangle. -/
def triangle_normal (triangle : Triangle K) : Vec3f K :=
  vec3f_cross (vec3f_sub triangle.b triangle.a) (vec3f_sub triangle.c triangle.a)

/-- The centroid `(a + b + c) / 3` of a triangle. -/
def centroid (triangle : Triangle K) : Vec3f K :=
  ⟨(triangle.a.x + triangle.b.x + triangle.c.x) / 3,
   (triangle.a.y + triangle.b.y + triangle.c.y) / 3,
   (triangle.a.z + triangle.b.z + triangle.c.z) / 3⟩

/-- The ray from `(1/4, 1/4, 1/1000)` straight up: the shadow ray of the overhead light at
the floor point `(1/4, 1/4, 0)`. -/
def up_ray : Ray K := ⟨⟨1/4, 1/4, 1/1000⟩, ⟨0, 0, 1⟩⟩

/-- The sphere of radius 1 around `(1/4, 1/4, 3)`, above the overhead light. -/
def far_sphere : Sphere K := ⟨⟨1/4, 1/4, 3⟩, 1, demo_material⟩

/-- The floor, the overhead light and the sphere above the light. -/
def far_sphere_scene : Scene K := ⟨⟨0, 0, 0⟩, [overhead_light], [far_sphere], [floor_triangle]⟩

/-- The floor and the overhead light, with no other primitive. -/
def open_scene : Scene K := ⟨⟨0, 0, 0⟩, [overhead_light], [], [floor_triangle]⟩

/-- The colour `render_routine` writes for the pixel in column `column` of row `row`:
`cast_ray` at depth 0 on the camera ray of the pixel. -/
def pixel_color (sqrt : K → K) (powf : K → K → K) (scene : Scene K) (image : Image K)
    (row column : Nat) (aspectRatio tanFOV : K) : Color K :=
  cast_ray sqrt powf scene (pixel_ray sqrt image row column aspectRatio tanFOV) 0

/-- The workers of the rows in `order`, run one after the other. -/
def run_rows (sqrt : K → K) (powf : K → K → K) (scene : Scene K) (aspectRatio tanFOV : K)
    (image : Image K) (order : List Nat) : Image K :=
  order.foldl (fun img i => render_routine sqrt powf scene img i aspectRatio tanFOV) image

/-- An image of 2 columns and 2 rows, all cells black. -/
def demo_image : Image K := ⟨2, 2, [⟨0, 0, 0⟩, ⟨0, 0, 0⟩, ⟨0, 0, 0⟩, ⟨0, 0, 0⟩]⟩

/-! ## Inputs on which binary32 and the exact reading differ

Every coordinate below is an integer of absolute value below `2^24`, a multiple of
`1/4` of absolute value below `2^22`, or a power of two below `2^128`.  Each is a
binary32 number, so an input denotes the same real numbers when it is read in
`F32` and when it is read in an ordered field.
-/

section Inputs

variable {F : Type} [Zero F] [One F] [NatCast F] [Div F] [Neg F]

/-- A material with diffuse colour red, `ambient = 0`, `specular = 1`,
`specularExp = 1` and `reflective = 0`. -/
def matt_material : Material F := ⟨⟨1, 0, 0⟩, 0, 1, 1, 0⟩

/-- The same material with `reflective = 1/2`. -/
def half_mirror_material : Material F := ⟨⟨1, 0, 0⟩, 0, 1, 1, 1 / 2⟩

/-- A thin triangle in the plane `z = 0`, with `a` at the origin, `b = (4097, 4098, 0)`
and `c = (4098, 4099, 0)`. -/
def sliver_triangle : Triangle F :=
  ⟨⟨0, 0, 0⟩, ⟨4097, 4098, 0⟩, ⟨4098, 4099, 0⟩, matt_material⟩

/-- The ray from `(2048.75, 2049.25, 1)` straight down; it meets the plane `z = 0` at
the point `a + (b - a) / 4 + (c - a) / 4` of `sliver_triangle`. -/
def sliver_ray : Ray F := ⟨⟨8195 / 4, 8197 / 4, 1⟩, ⟨0, 0, -1⟩⟩

/-- The triangle in the plane `z = 0` with `a` at the origin and legs of length `2^64`
along the `x` and the `y` axis. -/
def wide_triangle : Triangle F :=
  ⟨⟨0, 0, 0⟩, ⟨18446744073709551616, 0, 0⟩, ⟨0, 18446744073709551616, 0⟩, matt_material⟩

/-- The ray from `(-1, 0, 1)` straight down; it meets the plane `z = 0` at `(-1, 0, 0)`,
outside `wide_triangle`. -/
def wide_ray : Ray F := ⟨⟨-1, 0, 1⟩, ⟨0, 0, -1⟩⟩

/-- A triangle with `a` at the origin, `b = (-3088, 12600, -16801)` and
`c = (8826, -11107, 17860)`. -/
def skew_triangle : Triangle F :=
  ⟨⟨0, 0, 0⟩, ⟨-3088, 12600, -16801⟩, ⟨8826, -11107, 17860⟩, matt_material⟩

/-- The ray from `(2, 0, 1)` whose direction is the edge `b - a` of `skew_triangle`. -/
def skew_ray : Ray F := ⟨⟨2, 0, 1⟩, ⟨-3088, 12600, -16801⟩⟩

/-- A thin triangle in the plane `z = 0`, with `a` at the origin, `b = (10786, 10795, 0)`
and `c = (10787, 10796, 0)`; its centroid is `(7191, 7197, 0)`. -/
def thin_triangle : Triangle F :=
  ⟨⟨0, 0, 0⟩, ⟨10786, 10795, 0⟩, ⟨10787, 10796, 0⟩, matt_material⟩

/-- The ray from `(7191, 7197, 1)` straight down, at the centroid of `thin_triangle`. -/
def thin_ray : Ray F := ⟨⟨7191, 7197, 1⟩, ⟨0, 0, -1⟩⟩

/-- A triangle with `a` at the origin, `b = (981, -2237, 1927)` and
`c = (-2359, 235, -404)`. -/
def edge_triangle : Triangle F :=
  ⟨⟨0, 0, 0⟩, ⟨981, -2237, 1927⟩, ⟨-2359, 235, -404⟩, matt_material⟩

/-- The ray from `(739.75, -1677.75, 1429.25)` along `(-1, 0, 4)`; at the distance 4 it
meets the edge from `a` to `b` of `edge_triangle`, at `a + 3/4 (b - a)`. -/
def edge_ray : Ray F := ⟨⟨2959 / 4, -6711 / 4, 5717 / 4⟩, ⟨-1, 0, 4⟩⟩

/-- The sphere of radius `65536 = 2^16` around the origin. -/
def big_sphere : Sphere F := ⟨⟨0, 0, 0⟩, 65536, matt_material⟩

/-- The ray from `(0, 0, 131072)` towards the origin; it meets `big_sphere` at
`(0, 0, 65536)`, at the distance 65536. -/
def big_sphere_ray : Ray F := ⟨⟨0, 0, 131072⟩, ⟨0, 0, -1⟩⟩

/-- The unit sphere around `(2^100, 0, -2^100)`, half mirror. -/
def remote_sphere : Sphere F :=
  ⟨⟨1267650600228229401496703205376, 0, -1267650600228229401496703205376⟩, 1,
    half_mirror_material⟩

/-- The unit sphere around `(0, 0, -5)`, not reflective. -/
def near_sphere : Sphere F := ⟨⟨0, 0, -5⟩, 1, matt_material⟩

/-- The two spheres `remote_sphere` and `near_sphere`, in this order, no triangle and no
light, on a white background. -/
def remote_scene : Scene F := ⟨⟨1, 1, 1⟩, [], [remote_sphere, near_sphere], []⟩

/-- The ray from the origin along `(0, 0, -1)`; it meets `near_sphere` at the distance 4. -/
def probe_ray : Ray F := ⟨⟨0, 0, 0⟩, ⟨0, 0, -1⟩⟩

end Inputs

/-! ## Ray-sphere intersection -/

/-- Over an ordered field `fabs` is the absolute value. -/
theorem fabs_eq_abs (x : K) : fabs x = |x| := by
  unfold fabs
  split_ifs with h
  · exact (abs_of_neg h).symm
  · exact (abs_of_nonneg (not_lt.mp h)).symm

theorem dot_self_pos_of_nonzero (ray : Ray K) (h : nonzero_dir ray) :
    0 < vec3f_dot ray.direction ray.direction := by
  unfold vec3f_dot
  rcases h with h | h | h
  · have := mul_self_pos.mpr h
    nlinarith [mul_self_nonneg ray.direction.y, mul_self_nonneg ray.direction.z]
  · have := mul_self_pos.mpr h
    nlinarith [mul_self_nonneg ray.direction.x, mul_self_nonneg ray.direction.z]
  · have := mul_self_pos.mpr h
    nlinarith [mul_self_nonneg ray.direction.x, mul_self_nonneg ray.direction.y]

/-- The sphere equation along the ray is the quadratic `a t^2 + b t + c = 0` with the
coefficients `hit_sphere` computes. -/
theorem sphere_root_iff_quadratic (ray : Ray K) (sphere : Sphere K) (t : K) :
    sphere_root ray sphere t ↔
      vec3f_dot ray.direction ray.direction * t * t
        + 2 * vec3f_dot (vec3f_sub ray.origin sphere.center) ray.direction * t
        + (vec3f_dot (vec3f_sub ray.origin sphere.center) (vec3f_sub ray.origin sphere.center)
            - sphere.radius * sphere.radius) = 0 := by
  simp only [sphere_root, ray_at, vec3f_dot, vec3f_sub, vec3f_add, vec3f_mul_scalar]
  constructor <;> intro h <;> linear_combination h

/-- With `a > 0` and a non-negative discriminant the quadratic factors over the two
values `hit_sphere` computes. -/
theorem quadratic_factor (a b c t : ℝ) (ha : 0 < a) (hd : ¬ b * b - 4 * a * c < 0) :
    a * t * t + b * t + c
      = a * (t - (-b - Real.sqrt (b * b - 4 * a * c)) / (2 * a))
          * (t - (-b + Real.sqrt (b * b - 4 * a * c)) / (2 * a)) := by
  have hs := Real.mul_self_sqrt (not_lt.mp hd)
  have ha0 : a ≠ 0 := ha.ne.symm
  field_simp
  linear_combination a * hs

/-- With a negative discriminant the quadratic has no root. -/
theorem quadratic_no_root (a b c t : ℝ) (ha : 0 < a) (hd : b * b - 4 * a * c < 0) :
    a * t * t + b * t + c ≠ 0 := by
  intro h
  nlinarith [mul_self_nonneg (2 * a * t + b)]

/-- C1: for a ray with non-zero direction, `hit_sphere` reports a hit exactly when the
sphere equation `|O + t D - C|^2 = r^2` has a root `t >= 0`, and the distance it
reports is the least non-negative root. -/
theorem hit_sphere_least_nonneg_root (ray : Ray ℝ) (sphere : Sphere ℝ)
    (hD : nonzero_dir ray) :
    ((hit_sphere Real.sqrt ray sphere).isSome ↔ ∃ t, 0 ≤ t ∧ sphere_root ray sphere t) ∧
    ∀ d, hit_sphere Real.sqrt ray sphere = some d ↔
      IsLeast {t | 0 ≤ t ∧ sphere_root ray sphere t} d := by
  have ha := dot_self_pos_of_nonzero ray hD
  have hroot := sphere_root_iff_quadratic ray sphere
  simp only [IsLeast, lowerBounds, Set.mem_setOf_eq, hroot]
  unfold hit_sphere
  simp only []
  generalize vec3f_dot ray.direction ray.direction = a at *
  generalize 2 * vec3f_dot (vec3f_sub ray.origin sphere.center) ray.direction = b at *
  generalize vec3f_dot (vec3f_sub ray.origin sphere.center)
    (vec3f_sub ray.origin sphere.center) - sphere.radius * sphere.radius = c at *
  by_cases hd : b * b - 4 * a * c < 0
  · have hno := fun t => quadratic_no_root a b c t ha hd
    simp only [hd, if_true, Option.isSome_none, Bool.false_eq_true, false_iff, not_exists,
      not_and]
    exact ⟨fun t _ => hno t, fun d => ⟨fun h => Option.noConfusion h, fun h => absurd h.1.2 (hno d)⟩⟩
  · have hfac := fun t => quadratic_factor a b c t ha hd
    have hs : 0 ≤ Real.sqrt (b * b - 4 * a * c) := Real.sqrt_nonneg _
    simp only [hd, if_false]
    generalize Real.sqrt (b * b - 4 * a * c) = s at *
    have h2a : 0 < 2 * a := by linarith
    have h12 : (-b - s) / (2 * a) ≤ (-b + s) / (2 * a) :=
      div_le_div_of_nonneg_right (by linarith) h2a.le
    generalize (-b - s) / (2 * a) = t1 at *
    generalize (-b + s) / (2 * a) = t2 at *
    have hr : ∀ t, a * t * t + b * t + c = 0 ↔ t = t1 ∨ t = t2 := by
      intro t
      rw [hfac t, mul_assoc, mul_eq_zero, mul_eq_zero, sub_eq_zero, sub_eq_zero]
      constructor
      · rintro (h | h)
        · exact absurd h ha.ne.symm
        · exact h
      · exact fun h => Or.inr h
    simp only [hr, gt_iff_lt, not_lt.mpr h12, if_false]
    by_cases h2 : t2 < 0
    · have h1 : t1 < 0 := lt_of_le_of_lt h12 h2
      simp only [h1, h2, and_self, if_true, Option.isSome_none, Bool.false_eq_true, false_iff,
        not_exists, not_and]
      refine ⟨?_, ?_⟩
      · rintro t ht (rfl | rfl) <;> linarith
      · intro d
        refine ⟨fun h => Option.noConfusion h, ?_⟩
        rintro ⟨⟨hd0, hd1⟩, _⟩
        rcases hd1 with rfl | rfl <;> linarith
    · have h2' : 0 ≤ t2 := not_lt.mp h2
      simp only [h2, and_false, if_false]
      by_cases h1 : t1 < 0
      · simp only [h1, if_true, Option.isSome_some, true_iff, Option.some.injEq]
        refine ⟨⟨t2, h2', Or.inr rfl⟩, fun d => ⟨?_, ?_⟩⟩
        · rintro rfl
          refine ⟨⟨h2', Or.inr rfl⟩, ?_⟩
          rintro t ⟨ht, rfl | rfl⟩
          · linarith
          · exact le_refl _
        · rintro ⟨⟨hd0, rfl | rfl⟩, _⟩
          · linarith
          · rfl
      · have h1' : 0 ≤ t1 := not_lt.mp h1
        simp only [h1, if_false, Option.isSome_some, true_iff, Option.some.injEq]
        refine ⟨⟨t1, h1', Or.inl rfl⟩, fun d => ⟨?_, ?_⟩⟩
        · rintro rfl
          refine ⟨⟨h1', Or.inl rfl⟩, ?_⟩
          rintro t ⟨ht, rfl | rfl⟩
          · exact le_refl _
          · exact h12
        · rintro ⟨⟨hd0, rfl | rfl⟩, hlow⟩
          · rfl
          · exact le_antisymm h12 (hlow ⟨h1', Or.inl rfl⟩)

/-! ## Ray-triangle intersection -/

/-- Cramer's rule for the system `O + t D = a + u (b - a) + v (c - a)`: when the
determinant is not zero, its solutions are exactly the three quotients that
`hit_triangle` computes. -/
theorem triangle_solves_iff (ray : Ray K) (triangle : Triangle K) (t u v : K)
    (hdet : triangle_det ray triangle ≠ 0) :
    triangle_solves ray triangle t u v ↔
      u = vec3f_dot (vec3f_sub ray.origin triangle.a)
            (vec3f_cross (vec3f_sub triangle.c triangle.a) ray.direction)
            / triangle_det ray triangle ∧
      v = vec3f_dot ray.direction
            (vec3f_cross (vec3f_sub triangle.b triangle.a) (vec3f_sub ray.origin triangle.a))
            / triangle_det ray triangle ∧
      t = vec3f_dot (vec3f_sub triangle.c triangle.a)
            (vec3f_cross (vec3f_sub triangle.b triangle.a) (vec3f_sub ray.origin triangle.a))
            / triangle_det ray triangle := by
  rw [eq_div_iff hdet, eq_div_iff hdet, eq_div_iff hdet]
  obtain ⟨⟨o1, o2, o3⟩, ⟨d1, d2, d3⟩⟩ := ray
  obtain ⟨⟨a1, a2, a3⟩, ⟨b1, b2, b3⟩, ⟨c1, c2, c3⟩, m⟩ := triangle
  simp only [triangle_solves, ray_at, triangle_at, triangle_det, vec3f_dot, vec3f_sub,
    vec3f_add, vec3f_mul_scalar, vec3f_cross, Vec3f.mk.injEq] at hdet ⊢
  constructor
  · rintro ⟨h1, h2, h3⟩
    refine ⟨?_, ?_, ?_⟩
    · linear_combination
        (-((c2 - a2) * d3 - (c3 - a3) * d2)) * h1
        + (-((c3 - a3) * d1 - (c1 - a1) * d3)) * h2
        + (-((c1 - a1) * d2 - (c2 - a2) * d1)) * h3
    · linear_combination
        (-(d2 * (b3 - a3) - d3 * (b2 - a2))) * h1
        + (-(d3 * (b1 - a1) - d1 * (b3 - a3))) * h2
        + (-(d1 * (b2 - a2) - d2 * (b1 - a1))) * h3
    · linear_combination
        (-((c2 - a2) * (b3 - a3) - (c3 - a3) * (b2 - a2))) * h1
        + (-((c3 - a3) * (b1 - a1) - (c1 - a1) * (b3 - a3))) * h2
        + (-((c1 - a1) * (b2 - a2) - (c2 - a2) * (b1 - a1))) * h3
  · rintro ⟨h1, h2, h3⟩
    refine ⟨?_, ?_, ?_⟩
    · apply mul_right_cancel₀ hdet
      linear_combination d1 * h3 - (b1 - a1) * h1 - (c1 - a1) * h2
    · apply mul_right_cancel₀ hdet
      linear_combination d2 * h3 - (b2 - a2) * h1 - (c2 - a2) * h2
    · apply mul_right_cancel₀ hdet
      linear_combination d3 * h3 - (b3 - a3) * h1 - (c3 - a3) * h2

theorem EPSILON_pos : (0 : K) < EPSILON := by
  unfold EPSILON
  positivity

/-- C2 (as amended): with the arithmetic read as exact, in every ordered field,
`hit_triangle` reports a hit with distance `t` exactly when `|det| >= 0.001` and the
solution `(t, u, v)` of `O + t D = a + u (b - a) + v (c - a)` has `u >= 0`,
`v >= 0`, `u + v <= 1` and `t >= 0`; and for `|det| >= 0.001` that system has exactly
one solution.  So a reported hit point `O + t D` lies in the closed triangle, in
front of the ray origin. -/
theorem hit_triangle_iff_barycentric (ray : Ray K) (triangle : Triangle K) :
    (∀ t, hit_triangle ray triangle = some t ↔
      EPSILON ≤ |triangle_det ray triangle| ∧
      ∃ u v, triangle_solves ray triangle t u v ∧ 0 ≤ u ∧ 0 ≤ v ∧ u + v ≤ 1 ∧ 0 ≤ t) ∧
    (EPSILON ≤ |triangle_det ray triangle| →
      ∃! s : K × K × K, triangle_solves ray triangle s.1 s.2.1 s.2.2) := by
  have hfold : vec3f_dot (vec3f_sub triangle.b triangle.a)
      (vec3f_cross (vec3f_sub triangle.c triangle.a) ray.direction)
      = triangle_det ray triangle := rfl
  by_cases hsmall : |triangle_det ray triangle| < EPSILON
  · refine ⟨fun t => ?_, fun h => absurd hsmall (not_lt.mpr h)⟩
    have hnone : hit_triangle ray triangle = none := by
      unfold hit_triangle
      simp only [fabs_eq_abs, hfold]
      rw [if_pos hsmall]
    rw [hnone]
    exact ⟨fun h => Option.noConfusion h, fun h => absurd hsmall (not_lt.mpr h.1)⟩
  · have hbig : EPSILON ≤ |triangle_det ray triangle| := not_lt.mp hsmall
    have hdet : triangle_det ray triangle ≠ 0 := by
      intro h0
      rw [h0, abs_zero] at hbig
      exact absurd EPSILON_pos (not_lt.mpr hbig)
    have hsol := fun t u v => triangle_solves_iff ray triangle t u v hdet
    refine ⟨fun t => ?_, fun _ => ?_⟩
    · simp only [hsol, hbig, true_and]
      unfold hit_triangle
      simp only [fabs_eq_abs, hfold]
      rw [if_neg hsmall]
      generalize vec3f_dot (vec3f_sub ray.origin triangle.a)
        (vec3f_cross (vec3f_sub triangle.c triangle.a) ray.direction)
        / triangle_det ray triangle = u0
      generalize vec3f_dot ray.direction
        (vec3f_cross (vec3f_sub triangle.b triangle.a) (vec3f_sub ray.origin triangle.a))
        / triangle_det ray triangle = v0
      generalize vec3f_dot (vec3f_sub triangle.c triangle.a)
        (vec3f_cross (vec3f_sub triangle.b triangle.a) (vec3f_sub ray.origin triangle.a))
        / triangle_det ray triangle = t0
      constructor
      · intro h
        split_ifs at h with hu hv ht
        rw [not_or, not_lt, not_lt] at hu hv
        rw [not_lt] at ht
        cases h
        exact ⟨u0, v0, ⟨rfl, rfl, rfl⟩, hu.1, hv.1, hv.2, ht⟩
      · rintro ⟨u, v, ⟨rfl, rfl, rfl⟩, hu, hv, huv, ht⟩
        have hu1 : ¬ (u < 0 ∨ u > 1) := by
          rw [not_or, not_lt, not_lt]
          exact ⟨hu, by linarith⟩
        have hv1 : ¬ (v < 0 ∨ u + v > 1) := by
          rw [not_or, not_lt, not_lt]
          exact ⟨hv, huv⟩
        rw [if_neg hu1, if_neg hv1, if_neg (not_lt.mpr ht)]
    · refine ⟨(_, _, _), (hsol _ _ _).mpr ⟨rfl, rfl, rfl⟩, ?_⟩
      rintro ⟨t, u, v⟩ h
      obtain ⟨h1, h2, h3⟩ := (hsol _ _ _).mp h
      simp only at h1 h2 h3
      rw [h1, h2, h3]

/-! ## The nearest-hit scan of `cast_ray`

The scan only compares reported distances with `<`.  The lemmas of this section
hold for every arithmetic whose `<` is irreflexive and transitive, as the
comparison of binary32 is (`f32_lt_irrefl`, `f32_lt_trans`) and the order of a
field is.
-/

section Scan

variable {F : Type} [Zero F] [One F] [NatCast F] [Add F] [Sub F] [Mul F] [Div F] [Neg F]
  [LT F] [DecidableRel (fun (a b : F) => a < b)]

theorem nearest_sphere_step_inv (hirr : ∀ a : F, ¬ a < a)
    (htrans : ∀ a b c : F, a < b → b < c → a < c) (sqrt : F → F) (ray : Ray F)
    (ss : List (Sphere F)) (st : Nearest F) (s : Sphere F)
    (h : NearestInv sqrt ray ss [] st) :
    NearestInv sqrt ray (ss ++ [s]) [] (nearest_sphere_step sqrt ray st s) := by
  obtain ⟨hcase, hlow, _⟩ := h
  unfold nearest_sphere_step
  cases hs : hit_sphere sqrt ray s with
  | none =>
    refine ⟨?_, ?_, by simp⟩
    · rcases hcase with ⟨hf, hno, _⟩ | ⟨hf, s', hs', h1, h2⟩ | ⟨hf, t, ht, _⟩
      · refine Or.inl ⟨hf, ?_, by simp⟩
        intro x hx
        rcases List.mem_append.mp hx with hx | hx
        · exact hno x hx
        · rw [List.mem_singleton.mp hx]; exact hs
      · exact Or.inr (Or.inl ⟨hf, s', List.mem_append_left _ hs', h1, h2⟩)
      · simp at ht
    · intro x hx d hd
      rcases List.mem_append.mp hx with hx | hx
      · exact hlow x hx d hd
      · rw [List.mem_singleton.mp hx, hs] at hd; cases hd
  | some cd =>
    simp only []
    by_cases hc : st.flag = -1 ∨ cd < st.distance
    · rw [if_pos hc]
      refine ⟨Or.inr (Or.inl ⟨rfl, s, by simp, rfl, hs⟩), ?_, by simp⟩
      intro x hx d hd
      rcases List.mem_append.mp hx with hx | hx
      · rcases hc with hc | hc
        · rcases hcase with ⟨_, hno, _⟩ | ⟨hf, _⟩ | ⟨hf, _⟩
          · rw [hno x hx] at hd; cases hd
          · rw [hf] at hc; cases hc
          · rw [hf] at hc; cases hc
        · exact fun hlt => hlow x hx d hd (htrans _ _ _ hlt hc)
      · rw [List.mem_singleton.mp hx, hs] at hd
        cases hd
        exact hirr _
    · rw [if_neg hc]
      rw [not_or] at hc
      refine ⟨?_, ?_, by simp⟩
      · rcases hcase with ⟨hf, _⟩ | ⟨hf, s', hs', h1, h2⟩ | ⟨hf, t, ht, _⟩
        · exact absurd hf hc.1
        · exact Or.inr (Or.inl ⟨hf, s', List.mem_append_left _ hs', h1, h2⟩)
        · simp at ht
      · intro x hx d hd
        rcases List.mem_append.mp hx with hx | hx
        · exact hlow x hx d hd
        · rw [List.mem_singleton.mp hx, hs] at hd
          cases hd
          exact hc.2

theorem nearest_sphere_loop_inv (hirr : ∀ a : F, ¬ a < a)
    (htrans : ∀ a b c : F, a < b → b < c → a < c) (sqrt : F → F) (ray : Ray F)
    (l : List (Sphere F)) :
    ∀ (ss : List (Sphere F)) (st : Nearest F), NearestInv sqrt ray ss [] st →
      NearestInv sqrt ray (ss ++ l) [] (l.foldl (nearest_sphere_step sqrt ray) st) := by
  induction l with
  | nil => intro ss st h; simpa using h
  | cons s l ih =>
    intro ss st h
    have h' := ih (ss ++ [s]) _ (nearest_sphere_step_inv hirr htrans sqrt ray ss st s h)
    simpa using h'

theorem nearest_triangle_step_inv (hirr : ∀ a : F, ¬ a < a)
    (htrans : ∀ a b c : F, a < b → b < c → a < c) (sqrt : F → F) (ray : Ray F)
    (ss : List (Sphere F)) (ts : List (Triangle F)) (st : Nearest F) (t : Triangle F)
    (h : NearestInv sqrt ray ss ts st) :
    NearestInv sqrt ray ss (ts ++ [t]) (nearest_triangle_step ray st t) := by
  obtain ⟨hcase, hlowS, hlowT⟩ := h
  unfold nearest_triangle_step
  cases ht : hit_triangle ray t with
  | none =>
    refine ⟨?_, hlowS, ?_⟩
    · rcases hcase with ⟨hf, hnoS, hnoT⟩ | ⟨hf, hsph⟩ | ⟨hf, t', ht', h1, h2⟩
      · refine Or.inl ⟨hf, hnoS, ?_⟩
        intro x hx
        rcases List.mem_append.mp hx with hx | hx
        · exact hnoT x hx
        · rw [List.mem_singleton.mp hx]; exact ht
      · exact Or.inr (Or.inl ⟨hf, hsph⟩)
      · exact Or.inr (Or.inr ⟨hf, t', List.mem_append_left _ ht', h1, h2⟩)
    · intro x hx d hd
      rcases List.mem_append.mp hx with hx | hx
      · exact hlowT x hx d hd
      · rw [List.mem_singleton.mp hx, ht] at hd; cases hd
  | some cd =>
    simp only []
    by_cases hc : st.flag = -1 ∨ cd < st.distance
    · rw [if_pos hc]
      refine ⟨Or.inr (Or.inr ⟨rfl, t, by simp, rfl, ht⟩), ?_, ?_⟩
      · intro x hx d hd
        rcases hc with hc | hc
        · rcases hcase with ⟨_, hnoS, _⟩ | ⟨hf, _⟩ | ⟨hf, _⟩
          · rw [hnoS x hx] at hd; cases hd
          · rw [hf] at hc; cases hc
          · rw [hf] at hc; cases hc
        · exact fun hlt => hlowS x hx d hd (htrans _ _ _ hlt hc)
      · intro x hx d hd
        rcases List.mem_append.mp hx with hx | hx
        · rcases hc with hc | hc
          · rcases hcase with ⟨_, _, hnoT⟩ | ⟨hf, _⟩ | ⟨hf, _⟩
            · rw [hnoT x hx] at hd; cases hd
            · rw [hf] at hc; cases hc
            · rw [hf] at hc; cases hc
          · exact fun hlt => hlowT x hx d hd (htrans _ _ _ hlt hc)
        · rw [List.mem_singleton.mp hx, ht] at hd
          cases hd
          exact hirr _
    · rw [if_neg hc]
      rw [not_or] at hc
      refine ⟨?_, hlowS, ?_⟩
      · rcases hcase with ⟨hf, _⟩ | ⟨hf, hsph⟩ | ⟨hf, t', ht', h1, h2⟩
        · exact absurd hf hc.1
        · exact Or.inr (Or.inl ⟨hf, hsph⟩)
        · exact Or.inr (Or.inr ⟨hf, t', List.mem_append_left _ ht', h1, h2⟩)
      · intro x hx d hd
        rcases List.mem_append.mp hx with hx | hx
        · exact hlowT x hx d hd
        · rw [List.mem_singleton.mp hx, ht] at hd
          cases hd
          exact hc.2

theorem nearest_triangle_loop_inv (hirr : ∀ a : F, ¬ a < a)
    (htrans : ∀ a b c : F, a < b → b < c → a < c) (sqrt : F → F) (ray : Ray F)
    (ss : List (Sphere F)) (l : List (Triangle F)) :
    ∀ (ts : List (Triangle F)) (st : Nearest F), NearestInv sqrt ray ss ts st →
      NearestInv sqrt ray ss (ts ++ l) (l.foldl (nearest_triangle_step ray) st) := by
  induction l with
  | nil => intro ts st h; simpa using h
  | cons t l ih =>
    intro ts st h
    have h' := ih (ts ++ [t]) _ (nearest_triangle_step_inv hirr htrans sqrt ray ss ts st t h)
    simpa using h'

/-- The invariant holds for the whole scene at the end of the two loops. -/
theorem nearest_hit_inv (hirr : ∀ a : F, ¬ a < a)
    (htrans : ∀ a b c : F, a < b → b < c → a < c) (sqrt : F → F) (scene : Scene F)
    (ray : Ray F) :
    NearestInv sqrt ray scene.spheres scene.triangles (nearest_hit sqrt scene ray) := by
  have h0 : NearestInv sqrt ray [] [] (⟨-1, -1, none, none⟩ : Nearest F) :=
    ⟨Or.inl ⟨rfl, by simp, by simp⟩, by simp, by simp⟩
  have h1 := nearest_sphere_loop_inv hirr htrans sqrt ray scene.spheres [] _ h0
  have h2 := nearest_triangle_loop_inv hirr htrans sqrt ray ([] ++ scene.spheres)
    scene.triangles [] _ h1
  simpa [nearest_hit] using h2

/-- Unfolding of `cast_ray_traced` below the depth limit. -/
theorem cast_ray_traced_lt (sqrt : F → F) (powf : F → F → F) (scene : Scene F) (ray : Ray F)
    (depth : Int) (h : depth < MAX_DEPTH) :
    cast_ray_traced sqrt powf scene ray depth =
      if (nearest_hit sqrt scene ray).flag ≠ -1 then
        match surface_of sqrt ray (nearest_hit sqrt scene ray) with
        | some sf =>
          let sub := cast_ray_traced sqrt powf scene (reflection_ray sqrt ray sf) (depth + 1)
          let sums := light_sums sqrt powf scene ray sf
          (final_color sf.material sums.1 sums.2 sub.1, (depth + 1) :: sub.2)
        | none => (scene.bgColor, [])
      else (scene.bgColor, []) := by
  rw [cast_ray_traced]
  simp only [h, dite_true]

/-- Unfolding of `cast_ray_traced` at or above the depth limit. -/
theorem cast_ray_traced_ge (sqrt : F → F) (powf : F → F → F) (scene : Scene F) (ray : Ray F)
    (depth : Int) (h : MAX_DEPTH ≤ depth) :
    cast_ray_traced sqrt powf scene ray depth = (scene.bgColor, []) := by
  rw [cast_ray_traced]
  simp only [not_lt.mpr h, dite_false]

/-- After the two loops either nothing is hit and the flag is -1, or the flag is 1 or 2
and `surface_of` is the surface of a hit primitive of the scene than which no hit
primitive is nearer. -/
theorem nearest_hit_cases (hirr : ∀ a : F, ¬ a < a)
    (htrans : ∀ a b c : F, a < b → b < c → a < c) (sqrt : F → F) (scene : Scene F)
    (ray : Ray F) :
    ((nearest_hit sqrt scene ray).flag = -1 ∧ ¬ SomeHit sqrt scene ray) ∨
    ((nearest_hit sqrt scene ray).flag ≠ -1 ∧ SomeHit sqrt scene ray ∧
      ∃ sf, surface_of sqrt ray (nearest_hit sqrt scene ray) = some sf ∧
        SurfaceOfHit sqrt scene ray sf (nearest_hit sqrt scene ray).distance ∧
        NoNearerHit sqrt scene ray (nearest_hit sqrt scene ray).distance) := by
  obtain ⟨hcase, hlowS, hlowT⟩ := nearest_hit_inv hirr htrans sqrt scene ray
  rcases hcase with ⟨hf, hnoS, hnoT⟩ | ⟨hf, s, hs, h1, h2⟩ | ⟨hf, t, ht, h1, h2⟩
  · refine Or.inl ⟨hf, ?_⟩
    rintro (⟨s, hs, h⟩ | ⟨t, ht, h⟩)
    · rw [hnoS s hs] at h; cases h
    · rw [hnoT t ht] at h; cases h
  · refine Or.inr ⟨by rw [hf]; decide, Or.inl ⟨s, hs, by rw [h2]; rfl⟩,
      sphere_surface sqrt ray s _, ?_, Or.inl ⟨s, hs, h2, rfl⟩, hlowS, hlowT⟩
    unfold surface_of
    rw [if_pos hf, h1]
  · refine Or.inr ⟨by rw [hf]; decide, Or.inr ⟨t, ht, by rw [h2]; rfl⟩,
      triangle_surface sqrt ray t _, ?_, Or.inr ⟨t, ht, h2, rfl⟩, hlowS, hlowT⟩
    unfold surface_of
    rw [if_neg (by rw [hf]; decide), if_pos hf, h1]

/-- The value of `cast_ray` below the depth limit when the scan found a primitive. -/
theorem cast_ray_of_surface (sqrt : F → F) (powf : F → F → F) (scene : Scene F) (ray : Ray F)
    (depth : Int) (h : depth < MAX_DEPTH) (sf : Surface F)
    (hflag : (nearest_hit sqrt scene ray).flag ≠ -1)
    (hsf : surface_of sqrt ray (nearest_hit sqrt scene ray) = some sf) :
    cast_ray sqrt powf scene ray depth =
      final_color sf.material (light_sums sqrt powf scene ray sf).1
        (light_sums sqrt powf scene ray sf).2
        (cast_ray sqrt powf scene (reflection_ray sqrt ray sf) (depth + 1)) := by
  unfold cast_ray
  rw [cast_ray_traced_lt sqrt powf scene ray depth h, if_pos hflag, hsf]

/-- Where both distances are numbers the scan's "not smaller" is "at most". -/
theorem nearest_dist_of_no_nearer [LE F]
    (htot : ∀ a b : F, a ≤ a → b ≤ b → ¬ a < b → b ≤ a) (sqrt : F → F) (scene : Scene F)
    (ray : Ray F) (dist : F) (h : NoNearerHit sqrt scene ray dist) (hnum : dist ≤ dist) :
    NearestDist sqrt scene ray dist :=
  ⟨fun s hs d hd hdd => htot d dist hdd hnum (h.1 s hs d hd),
   fun t ht d hd hdd => htot d dist hdd hnum (h.2 t ht d hd)⟩

/-- C3 (as amended): below the depth limit, when some sphere or triangle is reported hit,
`cast_ray` shades the surface of a hit primitive of the scene such that no reported
hit distance is smaller, in the comparison `<` of the program, than its own; so
its reported distance is at most every reported hit distance whenever the
distances compared are numbers (`d <= d`, which only NaN fails).  When nothing is
hit `cast_ray` returns the background colour.  The arithmetic is any whose `<` is
irreflexive and transitive and decides two numbers; binary32 and every ordered
field are such. -/
theorem cast_ray_shades_nearest [LE F] (hirr : ∀ a : F, ¬ a < a)
    (htrans : ∀ a b c : F, a < b → b < c → a < c)
    (htot : ∀ a b : F, a ≤ a → b ≤ b → ¬ a < b → b ≤ a)
    (sqrt : F → F) (powf : F → F → F) (scene : Scene F)
    (ray : Ray F) (depth : Int) (hdepth : depth < MAX_DEPTH) :
    (SomeHit sqrt scene ray →
      ∃ sf dist, SurfaceOfHit sqrt scene ray sf dist ∧ NoNearerHit sqrt scene ray dist ∧
        (dist ≤ dist → NearestDist sqrt scene ray dist) ∧
        cast_ray sqrt powf scene ray depth =
          final_color sf.material (light_sums sqrt powf scene ray sf).1
            (light_sums sqrt powf scene ray sf).2
            (cast_ray sqrt powf scene (reflection_ray sqrt ray sf) (depth + 1))) ∧
    (¬ SomeHit sqrt scene ray → cast_ray sqrt powf scene ray depth = scene.bgColor) := by
  rcases nearest_hit_cases hirr htrans sqrt scene ray with
    ⟨hf, hno⟩ | ⟨hf, hsome, sf, hsf, hsurf, hnear⟩
  · refine ⟨fun h => absurd h hno, fun _ => ?_⟩
    unfold cast_ray
    rw [cast_ray_traced_lt sqrt powf scene ray depth hdepth, if_neg (not_not.mpr hf)]
  · exact ⟨fun _ => ⟨sf, _, hsurf, hnear,
      nearest_dist_of_no_nearer htot sqrt scene ray _ hnear,
      cast_ray_of_surface sqrt powf scene ray depth hdepth sf hf hsf⟩,
      fun h => absurd hsome h⟩

end Scan

/-! ## The depth limit and termination of `cast_ray` -/

/-- C4: called with `depth >= MAX_DEPTH` (10), `cast_ray` returns exactly the background
colour of the scene and makes no recursive call, whatever the scene and the ray. -/
theorem cast_ray_at_depth_limit (sqrt : K → K) (powf : K → K → K) (scene : Scene K)
    (ray : Ray K) (depth : Int) (h : 10 ≤ depth) :
    cast_ray sqrt powf scene ray depth = scene.bgColor ∧
    cast_ray_calls sqrt powf scene ray depth = [] := by
  have h' : MAX_DEPTH ≤ depth := h
  unfold cast_ray cast_ray_calls
  rw [cast_ray_traced_ge sqrt powf scene ray depth h']
  exact ⟨rfl, rfl⟩

/-- One invocation of `cast_ray` makes no recursive call, or exactly one, at `depth + 1`
and only when `depth < MAX_DEPTH`. -/
theorem cast_ray_calls_cases (sqrt : K → K) (powf : K → K → K) (scene : Scene K)
    (ray : Ray K) (depth : Int) :
    cast_ray_calls sqrt powf scene ray depth = [] ∨
    (depth < MAX_DEPTH ∧ ∃ ray',
      cast_ray_calls sqrt powf scene ray depth
        = (depth + 1) :: cast_ray_calls sqrt powf scene ray' (depth + 1)) := by
  unfold cast_ray_calls
  by_cases h : depth < MAX_DEPTH
  · rw [cast_ray_traced_lt sqrt powf scene ray depth h]
    by_cases hf : (nearest_hit sqrt scene ray).flag ≠ -1
    · rw [if_pos hf]
      cases hsf : surface_of sqrt ray (nearest_hit sqrt scene ray) with
      | none => exact Or.inl rfl
      | some sf => exact Or.inr ⟨h, reflection_ray sqrt ray sf, rfl⟩
    · rw [if_neg hf]
      exact Or.inl rfl
  · rw [cast_ray_traced_ge sqrt powf scene ray depth (not_lt.mp h)]
    exact Or.inl rfl

/-- The nested calls of `cast_ray` are at the consecutive depths `depth + 1`,
`depth + 2`, ... and there are at most `MAX_DEPTH - depth` of them. -/
theorem cast_ray_calls_chain (sqrt : K → K) (powf : K → K → K) (scene : Scene K) (n : Nat) :
    ∀ (ray : Ray K) (depth : Int), (MAX_DEPTH - depth).toNat = n →
      (cast_ray_calls sqrt powf scene ray depth).length ≤ n ∧
      cast_ray_calls sqrt powf scene ray depth
        = (List.range (cast_ray_calls sqrt powf scene ray depth).length).map
            (fun (i : Nat) => depth + 1 + (i : Int)) := by
  induction n with
  | zero =>
    intro ray depth hn
    rcases cast_ray_calls_cases sqrt powf scene ray depth with h | ⟨hlt, _⟩
    · rw [h]; exact ⟨le_refl _, rfl⟩
    · omega
  | succ n ih =>
    intro ray depth hn
    rcases cast_ray_calls_cases sqrt powf scene ray depth with h | ⟨hlt, ray', h⟩
    · rw [h]; exact ⟨Nat.zero_le _, rfl⟩
    · obtain ⟨ih1, ih2⟩ := ih ray' (depth + 1) (by omega)
      rw [h]
      refine ⟨by simpa using ih1, ?_⟩
      rw [List.length_cons, List.range_succ_eq_map, List.map_cons, List.map_map]
      congr 1
      · simp
      · conv_lhs => rw [ih2]
        apply List.map_congr_left
        intro i _
        simp only [Function.comp, Nat.cast_succ]
        ring

/-- C5: `cast_ray` terminates for every scene, ray and integer depth.  The function is
defined by the recursion of the source, well-founded on `MAX_DEPTH - depth`; each
invocation makes at most one recursive call, at `depth + 1` and only when
`depth < MAX_DEPTH`; the nested calls are at the depths `depth + 1, depth + 2, ...`,
none above `MAX_DEPTH`, at most `MAX_DEPTH - depth` of them, and at most 10 from
depth 0. -/
theorem cast_ray_terminates (sqrt : K → K) (powf : K → K → K) (scene : Scene K)
    (ray : Ray K) (depth : Int) :
    (∃ color calls, cast_ray_traced sqrt powf scene ray depth = (color, calls)) ∧
    (cast_ray_calls sqrt powf scene ray depth = [] ∨
      (depth < MAX_DEPTH ∧ ∃ ray',
        cast_ray_calls sqrt powf scene ray depth
          = (depth + 1) :: cast_ray_calls sqrt powf scene ray' (depth + 1))) ∧
    (cast_ray_calls sqrt powf scene ray depth).length ≤ (MAX_DEPTH - depth).toNat ∧
    cast_ray_calls sqrt powf scene ray depth
      = (List.range (cast_ray_calls sqrt powf scene ray depth).length).map
          (fun (i : Nat) => depth + 1 + (i : Int)) ∧
    (∀ d ∈ cast_ray_calls sqrt powf scene ray depth, depth < d ∧ d ≤ MAX_DEPTH) ∧
    (cast_ray_calls sqrt powf scene ray 0).length ≤ 10 := by
  obtain ⟨hlen, hchain⟩ := cast_ray_calls_chain sqrt powf scene _ ray depth rfl
  refine ⟨⟨_, _, rfl⟩, cast_ray_calls_cases sqrt powf scene ray depth, hlen, hchain, ?_, ?_⟩
  · intro d hd
    rw [hchain, List.mem_map] at hd
    obtain ⟨i, hi, rfl⟩ := hd
    rw [List.mem_range] at hi
    simp only [MAX_DEPTH] at hlen ⊢
    omega
  · exact (cast_ray_calls_chain sqrt powf scene _ ray 0 rfl).1

/-! ## The colour `cast_ray` returns for a hit -/

/-- C6 (as amended): below the depth limit, when some primitive is reported hit,
`cast_ray` returns, in each channel and with no clamping, `diffuse * (1 - ambient)
* diffuseSum + specular * specularSum + reflective * reflectionColor`, for the
material of the primitive it shades, the two sums of the light loop and the
colour `cast_ray` returns for the reflection ray at `depth + 1`, which is the
background colour when `depth = MAX_DEPTH - 1`.  The primitive shaded is a hit
primitive such that no reported hit distance is smaller than its own, and it is a
nearest one whenever the distances compared are numbers.  The arithmetic is any
whose `<` is irreflexive and transitive and decides two numbers and whose product
commutes; binary32 and every ordered field are such. -/
theorem cast_ray_hit_color {F : Type} [Zero F] [One F] [NatCast F] [Add F] [Sub F] [Mul F]
    [Div F] [Neg F] [LT F] [DecidableRel (fun (a b : F) => a < b)] [LE F]
    (hirr : ∀ a : F, ¬ a < a) (htrans : ∀ a b c : F, a < b → b < c → a < c)
    (htot : ∀ a b : F, a ≤ a → b ≤ b → ¬ a < b → b ≤ a)
    (hcomm : ∀ a b : F, a * b = b * a)
    (sqrt : F → F) (powf : F → F → F) (scene : Scene F)
    (ray : Ray F) (depth : Int) (hdepth : depth < MAX_DEPTH)
    (hhit : SomeHit sqrt scene ray) :
    ∃ sf dist, SurfaceOfHit sqrt scene ray sf dist ∧ NoNearerHit sqrt scene ray dist ∧
      (dist ≤ dist → NearestDist sqrt scene ray dist) ∧
      (cast_ray sqrt powf scene ray depth).r =
        sf.material.diffuse.r * (1 - sf.material.ambient)
            * (light_sums sqrt powf scene ray sf).1
          + sf.material.specular * (light_sums sqrt powf scene ray sf).2
          + sf.material.reflective
            * (cast_ray sqrt powf scene (reflection_ray sqrt ray sf) (depth + 1)).r ∧
      (cast_ray sqrt powf scene ray depth).g =
        sf.material.diffuse.g * (1 - sf.material.ambient)
            * (light_sums sqrt powf scene ray sf).1
          + sf.material.specular * (light_sums sqrt powf scene ray sf).2
          + sf.material.reflective
            * (cast_ray sqrt powf scene (reflection_ray sqrt ray sf) (depth + 1)).g ∧
      (cast_ray sqrt powf scene ray depth).b =
        sf.material.diffuse.b * (1 - sf.material.ambient)
            * (light_sums sqrt powf scene ray sf).1
          + sf.material.specular * (light_sums sqrt powf scene ray sf).2
          + sf.material.reflective
            * (cast_ray sqrt powf scene (reflection_ray sqrt ray sf) (depth + 1)).b ∧
      (depth = MAX_DEPTH - 1 →
        cast_ray sqrt powf scene (reflection_ray sqrt ray sf) (depth + 1) = scene.bgColor) := by
  rcases nearest_hit_cases hirr htrans sqrt scene ray with
    ⟨_, hno⟩ | ⟨hf, _, sf, hsf, hsurf, hnear⟩
  · exact absurd hhit hno
  · have hval := cast_ray_of_surface sqrt powf scene ray depth hdepth sf hf hsf
    refine ⟨sf, _, hsurf, hnear, nearest_dist_of_no_nearer htot sqrt scene ray _ hnear,
      ?_, ?_, ?_, ?_⟩
    · rw [hval, hcomm sf.material.reflective]
      rfl
    · rw [hval, hcomm sf.material.reflective]
      rfl
    · rw [hval, hcomm sf.material.reflective]
      rfl
    · intro hd
      unfold cast_ray
      rw [cast_ray_traced_ge sqrt powf scene _ (depth + 1) (by rw [hd]; simp)]

/-! ## The light loop of `cast_ray` -/

theorem shadow_spheres_iff (sqrt : K → K) (lightRay : Ray K) (l : List (Sphere K)) :
    shadow_spheres sqrt lightRay l = true ↔
      ∃ s ∈ l, ∃ d, hit_sphere sqrt lightRay s = some d ∧ 0 < d := by
  induction l with
  | nil => simp [shadow_spheres]
  | cons s l ih =>
    unfold shadow_spheres
    cases hs : hit_sphere sqrt lightRay s with
    | none => simp [ih, hs]
    | some d =>
      by_cases hd : d > 0
      · simp only [hd, if_true, true_iff]
        exact ⟨s, List.mem_cons_self _ _, d, hs, hd⟩
      · simp only [hd, if_false, ih, List.mem_cons, exists_eq_or_imp, hs, Option.some.injEq,
          exists_eq_left', false_or]

theorem shadow_triangles_iff (lightRay : Ray K) (l : List (Triangle K)) :
    shadow_triangles lightRay l = true ↔
      ∃ t ∈ l, ∃ d, hit_triangle lightRay t = some d ∧ 0 < d := by
  induction l with
  | nil => simp [shadow_triangles]
  | cons t l ih =>
    unfold shadow_triangles
    cases ht : hit_triangle lightRay t with
    | none => simp [ih, ht]
    | some d =>
      by_cases hd : d > 0
      · simp only [hd, if_true, true_iff]
        exact ⟨t, List.mem_cons_self _ _, d, ht, hd⟩
      · simp only [hd, if_false, ih, List.mem_cons, exists_eq_or_imp, ht, Option.some.injEq,
          exists_eq_left', false_or]

/-- The flag `intersect` is set exactly when the shadow ray is reported to hit some
sphere or triangle of the scene at a positive distance. -/
theorem occluded_iff (sqrt : K → K) (scene : Scene K) (lightRay : Ray K) :
    occluded sqrt scene lightRay = true ↔ Blocked sqrt scene lightRay := by
  unfold occluded Blocked
  rw [← shadow_spheres_iff, ← shadow_triangles_iff]
  cases shadow_spheres sqrt lightRay scene.spheres <;> simp

/-- One iteration of the light loop, by cases on the two guards. -/
theorem light_step_eq (sqrt : K → K) (powf : K → K → K) (scene : Scene K) (ray : Ray K)
    (sf : Surface K) (acc : K × K) (light : Light K) :
    light_step sqrt powf scene ray sf acc light =
      if lit sqrt scene sf light = true then
        (acc.1 + light.strength * diffuse_dot sqrt sf light,
         acc.2 + specular_term sqrt powf ray sf light)
      else acc := by
  unfold light_step lit unoccluded diffuse_dot specular_term
  simp only []
  cases occluded sqrt scene (light_ray sqrt sf.hitPoint sf.normal light) with
  | true => simp
  | false =>
    by_cases hd : vec3f_dot sf.normal
        (vec3f_normalise sqrt (vec3f_sub light.pos sf.hitPoint)) > 0
    · simp [hd]
    · simp [hd]

/-- The two sums after the light loop, started from `acc`. -/
theorem light_loop_eq (sqrt : K → K) (powf : K → K → K) (scene : Scene K) (ray : Ray K)
    (sf : Surface K) (l : List (Light K)) :
    ∀ acc : K × K, l.foldl (light_step sqrt powf scene ray sf) acc =
      (acc.1 + ((l.filter (lit sqrt scene sf)).map
          (fun light => light.strength * diffuse_dot sqrt sf light)).sum,
       acc.2 + ((l.filter (lit sqrt scene sf)).map
          (specular_term sqrt powf ray sf)).sum) := by
  induction l with
  | nil => intro acc; simp
  | cons light l ih =>
    intro acc
    rw [List.foldl_cons, ih, light_step_eq]
    by_cases hl : lit sqrt scene sf light = true
    · simp only [hl, if_true, List.filter_cons_of_pos, List.map_cons, List.sum_cons]
      ext <;> simp only [add_assoc]
    · rw [List.filter_cons_of_neg hl, if_neg hl]

/-- C7 (as amended): when the shadow ray of a light, from `hitPoint + EPSILON * normal`
along `normalise(light.pos - hitPoint)`, is reported by `hit_sphere` or
`hit_triangle` to hit some sphere or triangle of the scene at a distance `> 0`,
the iteration of the light loop for that light leaves both sums unchanged. -/
theorem light_step_blocked (sqrt : K → K) (powf : K → K → K) (scene : Scene K) (ray : Ray K)
    (sf : Surface K) (acc : K × K) (light : Light K)
    (h : Blocked sqrt scene (light_ray sqrt sf.hitPoint sf.normal light)) :
    (light_step sqrt powf scene ray sf acc light).1 = acc.1 ∧
    (light_step sqrt powf scene ray sf acc light).2 = acc.2 := by
  have hocc := (occluded_iff sqrt scene _).mpr h
  rw [light_step_eq]
  simp [lit, unoccluded, hocc]

/-- C9 (as amended): the specular sum `cast_ray` computes for a hit is the sum, over the
lights of the scene whose shadow ray is not occluded and for which
`dot(normal, lightDir) > 0`, of
`light.strength * powf(dot(reflection_dir(lightDir, normal), ray.direction), specularExp)`;
the diffuse sum is the sum of `light.strength * dot(normal, lightDir)` over the same
lights. -/
theorem specular_sum_eq (sqrt : K → K) (powf : K → K → K) (scene : Scene K) (ray : Ray K)
    (sf : Surface K) :
    (light_sums sqrt powf scene ray sf).2 =
      ((scene.lights.filter
          (fun light => unoccluded sqrt scene sf light
            && decide (diffuse_dot sqrt sf light > 0))).map
        (specular_term sqrt powf ray sf)).sum ∧
    (light_sums sqrt powf scene ray sf).1 =
      ((scene.lights.filter
          (fun light => unoccluded sqrt scene sf light
            && decide (diffuse_dot sqrt sf light > 0))).map
        (fun light => light.strength * diffuse_dot sqrt sf light)).sum := by
  unfold light_sums
  rw [light_loop_eq]
  simp only [zero_add]
  exact ⟨rfl, rfl⟩


/-! ## Ray-sphere intersection on the axis -/

/-- C10: for `r > 0` and `d > r`, `hit_sphere` on the sphere of radius `r` at the origin and
the ray from `(0, 0, d)` with direction `(0, 0, -1)` reports a hit at distance
`d - r`. -/
theorem hit_sphere_on_axis (r d : ℝ) (m : Material ℝ) (hr : 0 < r) (hd : r < d) :
    hit_sphere Real.sqrt ⟨⟨0, 0, d⟩, ⟨0, 0, -1⟩⟩ ⟨⟨0, 0, 0⟩, r, m⟩ = some (d - r) := by
  have hdisc : (2 * (d * -1)) * (2 * (d * -1)) - 4 * ((-1 : ℝ) * -1) * (d * d - r * r)
      = (2 * r) ^ 2 := by ring
  simp only [hit_sphere, vec3f_sub, vec3f_dot, sub_zero, mul_zero, zero_mul, zero_add, add_zero]
  rw [hdisc, Real.sqrt_sq (by linarith)]
  have h1 : (-(2 * (d * -1)) - 2 * r) / (2 * ((-1 : ℝ) * -1)) = d - r := by ring
  have h2 : (-(2 * (d * -1)) + 2 * r) / (2 * ((-1 : ℝ) * -1)) = d + r := by ring
  rw [h1, h2]
  have hpos : ¬ (2 * r) ^ 2 < 0 := not_lt.mpr (sq_nonneg _)
  have hboth : ¬ (d - r < 0 ∧ d + r < 0) := fun h => by linarith [h.1]
  have hord : ¬ d - r > d + r := by
    intro h
    linarith
  have hfirst : ¬ d - r < 0 := by
    intro h
    linarith
  rw [if_neg hpos, if_neg hboth]
  simp only [if_neg hord, if_neg hfirst]

/-- Witness of C10 at `r = 1`, `d = 2`: the hit distance is `2 - 1`. -/
theorem hit_sphere_on_axis_witness :
    (0 : ℝ) < 1 ∧ (1 : ℝ) < 2 ∧
    hit_sphere Real.sqrt (⟨⟨0, 0, 2⟩, ⟨0, 0, -1⟩⟩ : Ray ℝ) ⟨⟨0, 0, 0⟩, 1, demo_material⟩
      = some (2 - 1) :=
  ⟨by norm_num, by norm_num, hit_sphere_on_axis 1 2 demo_material (by norm_num) (by norm_num)⟩

/-- Witness of C1 on the unit sphere and the ray from `(0, 0, 2)` towards the origin. -/
theorem hit_sphere_least_nonneg_root_witness :
    nonzero_dir (axis_ray : Ray ℝ) ∧
    (((hit_sphere Real.sqrt (axis_ray : Ray ℝ) unit_sphere).isSome ↔
        ∃ t, 0 ≤ t ∧ sphere_root (axis_ray : Ray ℝ) unit_sphere t) ∧
      ∀ d, hit_sphere Real.sqrt (axis_ray : Ray ℝ) unit_sphere = some d ↔
        IsLeast {t | 0 ≤ t ∧ sphere_root (axis_ray : Ray ℝ) unit_sphere t} d) :=
  ⟨Or.inr (Or.inr (by norm_num [axis_ray])),
   hit_sphere_least_nonneg_root axis_ray unit_sphere
     (Or.inr (Or.inr (by norm_num [axis_ray])))⟩

/-! ## Evaluation on the concrete scenes -/

theorem down_ray_hits_floor :
    hit_triangle (down_ray : Ray ℝ) floor_triangle = some (1 / 4) := by
  norm_num [hit_triangle, fabs_eq_abs, down_ray, floor_triangle, vec3f_sub, vec3f_cross, vec3f_dot, EPSILON]

theorem down_ray_misses_small :
    hit_triangle (down_ray : Ray ℝ) small_triangle = none := by
  norm_num [hit_triangle, fabs_eq_abs, down_ray, small_triangle, vec3f_sub, vec3f_cross, vec3f_dot, EPSILON,
    abs_div, Nat.abs_ofNat]

theorem floor_surface_eq :
    triangle_surface Real.sqrt (down_ray : Ray ℝ) floor_triangle (1 / 4) = floor_surface := by
  norm_num [triangle_surface, floor_surface, floor_triangle, down_ray, vec3f_sub,
    vec3f_cross, vec3f_dot, vec3f_normalise, vec3f_size, vec3f_add, vec3f_mul_scalar]

/-- The shadow ray of the overhead light at the floor point `(1/4, 1/4, 0)`. -/
theorem overhead_light_ray :
    light_ray Real.sqrt (floor_surface : Surface ℝ).hitPoint floor_surface.normal
      overhead_light = ⟨⟨1/4, 1/4, 1/1000⟩, ⟨0, 0, 1⟩⟩ := by
  norm_num [light_ray, floor_surface, overhead_light, vec3f_add, vec3f_mul_scalar, vec3f_sub,
    vec3f_normalise, vec3f_size, EPSILON]

theorem up_ray_misses_floor :
    hit_triangle (⟨⟨1/4, 1/4, 1/1000⟩, ⟨0, 0, 1⟩⟩ : Ray ℝ) floor_triangle = none := by
  norm_num [hit_triangle, fabs_eq_abs, floor_triangle, vec3f_sub, vec3f_cross, vec3f_dot, EPSILON]

theorem up_ray_misses_small :
    hit_triangle (⟨⟨1/4, 1/4, 1/1000⟩, ⟨0, 0, 1⟩⟩ : Ray ℝ) small_triangle = none := by
  norm_num [hit_triangle, fabs_eq_abs, small_triangle, vec3f_sub, vec3f_cross, vec3f_dot, EPSILON,
    abs_div, Nat.abs_ofNat]

theorem up_ray_hits_blocker :
    hit_triangle (⟨⟨1/4, 1/4, 1/1000⟩, ⟨0, 0, 1⟩⟩ : Ray ℝ) blocker_triangle
      = some (499 / 1000) := by
  norm_num [hit_triangle, fabs_eq_abs, blocker_triangle, vec3f_sub, vec3f_cross, vec3f_dot, EPSILON]

theorem small_occluder_surface :
    surface_of Real.sqrt down_ray (nearest_hit Real.sqrt (small_occluder_scene : Scene ℝ) down_ray)
      = some floor_surface := by
  simp only [nearest_hit, small_occluder_scene, List.foldl_cons, List.foldl_nil,
    nearest_triangle_step, down_ray_hits_floor, down_ray_misses_small]
  simp only [surface_of, true_or, if_true]
  norm_num [floor_surface_eq]

theorem small_occluder_unblocked :
    ¬ Blocked Real.sqrt (small_occluder_scene : Scene ℝ)
      (light_ray Real.sqrt (floor_surface : Surface ℝ).hitPoint floor_surface.normal
        overhead_light) := by
  rw [← occluded_iff, overhead_light_ray]
  simp only [occluded, small_occluder_scene, shadow_spheres, shadow_triangles,
    up_ray_misses_floor, up_ray_misses_small]
  decide


/-- Counterexample to C7 as stated: in `small_occluder_scene` the ray `down_ray` is shaded at
the floor point `(1/4, 1/4, 0)`; the small triangle of the scene contains the point
`(1/4, 1/4, 1/2)` of the open segment from that point to the overhead light; yet
the iteration of the light loop adds 1 to the diffuse sum and 1 to the specular
sum (`hit_triangle` rejects the small triangle, whose `|det|` is `0.0009`). -/
theorem small_occluder_not_blocking :
    surface_of Real.sqrt down_ray (nearest_hit Real.sqrt (small_occluder_scene : Scene ℝ) down_ray)
      = some floor_surface ∧
    (small_triangle : Triangle ℝ) ∈ (small_occluder_scene : Scene ℝ).triangles ∧
    (overhead_light : Light ℝ) ∈ (small_occluder_scene : Scene ℝ).lights ∧
    (∃ p, InTriangle (small_triangle : Triangle ℝ) p ∧
      OnOpenSegment (floor_surface : Surface ℝ).hitPoint (overhead_light : Light ℝ).pos p) ∧
    light_step Real.sqrt (fun x y => x ^ y) small_occluder_scene down_ray floor_surface (0, 0)
      overhead_light = (1, 1) := by
  refine ⟨small_occluder_surface, by simp [small_occluder_scene],
    by simp [small_occluder_scene], ?_, ?_⟩
  · refine ⟨⟨1/4, 1/4, 1/2⟩, ⟨1/3, 1/3, by norm_num, by norm_num, by norm_num, ?_⟩,
      ⟨1/2, by norm_num, by norm_num, ?_⟩⟩
    · norm_num [triangle_at, small_triangle, vec3f_add, vec3f_mul_scalar, vec3f_sub]
    · norm_num [floor_surface, overhead_light, vec3f_add, vec3f_mul_scalar, vec3f_sub]
  · have hocc := small_occluder_unblocked
    rw [← occluded_iff, Bool.not_eq_true] at hocc
    rw [light_step_eq]
    simp only [lit, unoccluded, hocc]
    norm_num [diffuse_dot, specular_term, reflection_dir, floor_surface, overhead_light, down_ray,
      demo_material, vec3f_add, vec3f_mul_scalar, vec3f_sub, vec3f_dot,
      vec3f_normalise, vec3f_size]

/-- Witness of C7 (as amended) on `blocker_scene`: the shadow ray of the overhead light from
the floor point is reported to hit the blocker triangle at distance `0.499`, and
the iteration of the light loop leaves both sums at 0. -/
theorem light_step_blocked_witness :
    Blocked Real.sqrt (blocker_scene : Scene ℝ)
      (light_ray Real.sqrt (floor_surface : Surface ℝ).hitPoint floor_surface.normal
        overhead_light) ∧
    (light_step Real.sqrt (fun x y => x ^ y) (blocker_scene : Scene ℝ) down_ray floor_surface
      (0, 0) overhead_light).1 = 0 ∧
    (light_step Real.sqrt (fun x y => x ^ y) (blocker_scene : Scene ℝ) down_ray floor_surface
      (0, 0) overhead_light).2 = 0 :=
  have hb : Blocked Real.sqrt (blocker_scene : Scene ℝ)
      (light_ray Real.sqrt (floor_surface : Surface ℝ).hitPoint floor_surface.normal
        overhead_light) := by
    rw [overhead_light_ray]
    exact Or.inr ⟨blocker_triangle, by simp [blocker_scene], 499 / 1000, up_ray_hits_blocker,
      by norm_num⟩
  ⟨hb, light_step_blocked Real.sqrt (fun x y => x ^ y) blocker_scene down_ray floor_surface
    (0, 0) overhead_light hb⟩

theorem slant_ray_hits_floor :
    hit_triangle (slant_ray : Ray ℝ) floor_triangle = some 1 := by
  norm_num [hit_triangle, fabs_eq_abs, slant_ray, floor_triangle, vec3f_sub, vec3f_cross, vec3f_dot, EPSILON,
    abs_div, Nat.abs_ofNat]

theorem low_light_surface :
    surface_of Real.sqrt slant_ray (nearest_hit Real.sqrt (low_light_scene : Scene ℝ) slant_ray)
      = some edge_surface := by
  simp only [nearest_hit, low_light_scene, List.foldl_cons, List.foldl_nil,
    nearest_triangle_step, slant_ray_hits_floor]
  norm_num [surface_of, triangle_surface, edge_surface, floor_triangle, slant_ray, vec3f_sub,
    vec3f_cross, vec3f_dot, vec3f_normalise, vec3f_size, vec3f_add, vec3f_mul_scalar]

theorem low_light_unoccluded :
    unoccluded Real.sqrt (low_light_scene : Scene ℝ) edge_surface low_light = true := by
  have hray : light_ray Real.sqrt (edge_surface : Surface ℝ).hitPoint edge_surface.normal
      low_light = ⟨⟨1/4, 1/4000, 1/1000⟩, ⟨0, -3/5, -4/5⟩⟩ := by
    norm_num [light_ray, edge_surface, low_light, vec3f_add, vec3f_mul_scalar, vec3f_sub,
      vec3f_normalise, vec3f_size, EPSILON]
  have h1 : hit_triangle (⟨⟨1/4, 1/4000, 1/1000⟩, ⟨0, -3/5, -4/5⟩⟩ : Ray ℝ) floor_triangle
      = none := by
    norm_num [hit_triangle, fabs_eq_abs, floor_triangle, vec3f_sub, vec3f_cross, vec3f_dot, EPSILON,
      abs_div, Nat.abs_ofNat]
  simp only [unoccluded, hray, occluded, low_light_scene, shadow_spheres, shadow_triangles, h1]
  rfl

/-- Counterexample to C9 as stated: in `low_light_scene` the ray `slant_ray` is shaded at the
floor point `(1/4, 1/4000, 0)`; the only light is not occluded there, and its
specular term is `2/5`, so the sum of the term over the unoccluded lights is
`2/5`; but `dot(normal, lightDir) = -4/5`, and the specular sum `cast_ray`
computes is 0. -/
theorem unoccluded_light_without_specular :
    surface_of Real.sqrt slant_ray (nearest_hit Real.sqrt (low_light_scene : Scene ℝ) slant_ray)
      = some edge_surface ∧
    (light_sums Real.sqrt (fun x y => x ^ y) (low_light_scene : Scene ℝ) slant_ray
      edge_surface).2 = 0 ∧
    (((low_light_scene : Scene ℝ).lights.filter
        (unoccluded Real.sqrt low_light_scene edge_surface)).map
      (specular_term Real.sqrt (fun x y => x ^ y) slant_ray edge_surface)).sum = 2 / 5 := by
  have hdd : diffuse_dot Real.sqrt (edge_surface : Surface ℝ) low_light = -4 / 5 := by
    norm_num [diffuse_dot, edge_surface, low_light, vec3f_sub, vec3f_dot, vec3f_normalise,
      vec3f_size]
  refine ⟨low_light_surface, ?_, ?_⟩
  · simp only [light_sums, low_light_scene, List.foldl_cons, List.foldl_nil]
    rw [light_step_eq]
    simp only [lit, hdd]
    norm_num
  · have hfilter : (low_light_scene : Scene ℝ).lights.filter
        (unoccluded Real.sqrt low_light_scene edge_surface) = [low_light] := by
      show List.filter _ [low_light] = _
      rw [List.filter_cons_of_pos low_light_unoccluded, List.filter_nil]
    rw [hfilter]
    norm_num [specular_term, reflection_dir, edge_surface, low_light, slant_ray,
      demo_material, vec3f_add, vec3f_mul_scalar, vec3f_sub, vec3f_dot,
      vec3f_normalise, vec3f_size]

theorem small_occluder_some_hit :
    SomeHit Real.sqrt (small_occluder_scene : Scene ℝ) down_ray :=
  Or.inr ⟨floor_triangle, by simp [small_occluder_scene], by rw [down_ray_hits_floor]; rfl⟩

/-- Witness of C4 on `small_occluder_scene` and `down_ray` at depth 10: the ray meets the
floor, and `cast_ray` returns the background colour. -/
theorem cast_ray_at_depth_limit_witness :
    (10 : Int) ≤ 10 ∧
    cast_ray Real.sqrt (fun x y => x ^ y) (small_occluder_scene : Scene ℝ) down_ray 10
      = (small_occluder_scene : Scene ℝ).bgColor ∧
    cast_ray_calls Real.sqrt (fun x y => x ^ y) (small_occluder_scene : Scene ℝ) down_ray 10
      = [] :=
  ⟨by decide,
   cast_ray_at_depth_limit Real.sqrt (fun x y => x ^ y) small_occluder_scene down_ray 10
     (by decide)⟩

/-- The determinant of `hit_triangle` is `dot(D, cross(b - a, c - a))`. -/
theorem triangle_det_eq_dot_normal (ray : Ray K) (triangle : Triangle K) :
    triangle_det ray triangle = vec3f_dot ray.direction (triangle_normal triangle) := by
  simp only [triangle_det, triangle_normal, vec3f_dot, vec3f_cross, vec3f_sub]
  ring

/-- The value of `hit_triangle` when the determinant passes the `EPSILON` test. -/
theorem hit_triangle_of_det (ray : Ray K) (triangle : Triangle K)
    (hdet : EPSILON ≤ |triangle_det ray triangle|) :
    hit_triangle ray triangle =
      if hit_triangle_u ray triangle < 0 ∨ hit_triangle_u ray triangle > 1 then none
      else if hit_triangle_v ray triangle < 0
          ∨ hit_triangle_u ray triangle + hit_triangle_v ray triangle > 1 then none
      else if vec3f_dot (vec3f_sub triangle.c triangle.a)
            (vec3f_cross (vec3f_sub triangle.b triangle.a) (vec3f_sub ray.origin triangle.a))
          / triangle_det ray triangle < 0 then none
      else some (vec3f_dot (vec3f_sub triangle.c triangle.a)
            (vec3f_cross (vec3f_sub triangle.b triangle.a) (vec3f_sub ray.origin triangle.a))
          / triangle_det ray triangle) := by
  have hfold : vec3f_dot (vec3f_sub triangle.b triangle.a)
      (vec3f_cross (vec3f_sub triangle.c triangle.a) ray.direction)
      = triangle_det ray triangle := rfl
  unfold hit_triangle hit_triangle_u hit_triangle_v
  simp only [fabs_eq_abs, hfold]
  rw [if_neg (not_lt.mpr hdet)]

theorem triangle_det_ne_zero (ray : Ray K) (triangle : Triangle K)
    (hdet : EPSILON ≤ |triangle_det ray triangle|) : triangle_det ray triangle ≠ 0 := by
  intro h0
  rw [h0, abs_zero] at hdet
  exact absurd EPSILON_pos (not_lt.mpr hdet)

/-- A solution of the ray-triangle system inside the triangle and in front of the origin
is what `hit_triangle` reports. -/
theorem hit_triangle_of_solution (ray : Ray K) (triangle : Triangle K) (t u v : K)
    (hdet : EPSILON ≤ |triangle_det ray triangle|)
    (hs : triangle_solves ray triangle t u v)
    (hu : 0 ≤ u) (hv : 0 ≤ v) (huv : u + v ≤ 1) (ht : 0 ≤ t) :
    hit_triangle ray triangle = some t ∧ hit_triangle_u ray triangle = u ∧
      hit_triangle_v ray triangle = v := by
  obtain ⟨h1, h2, h3⟩ :=
    (triangle_solves_iff ray triangle t u v (triangle_det_ne_zero ray triangle hdet)).mp hs
  have hU : hit_triangle_u ray triangle = u := h1.symm
  have hV : hit_triangle_v ray triangle = v := h2.symm
  refine ⟨?_, hU, hV⟩
  rw [hit_triangle_of_det ray triangle hdet, hU, hV, ← h3]
  have hu1 : ¬ (u < 0 ∨ u > 1) := by
    rw [not_or, not_lt, not_lt]
    exact ⟨hu, by linarith⟩
  have hv1 : ¬ (v < 0 ∨ u + v > 1) := by
    rw [not_or, not_lt, not_lt]
    exact ⟨hv, huv⟩
  rw [if_neg hu1, if_neg hv1, if_neg (not_lt.mpr ht)]

/-- A hit reported by `hit_triangle` is a solution of the ray-triangle system inside the
triangle and in front of the origin. -/
theorem solution_of_hit_triangle (ray : Ray K) (triangle : Triangle K) (t : K)
    (h : hit_triangle ray triangle = some t) :
    EPSILON ≤ |triangle_det ray triangle| ∧
    triangle_solves ray triangle t (hit_triangle_u ray triangle) (hit_triangle_v ray triangle) ∧
    0 ≤ hit_triangle_u ray triangle ∧ 0 ≤ hit_triangle_v ray triangle ∧
    hit_triangle_u ray triangle + hit_triangle_v ray triangle ≤ 1 ∧ 0 ≤ t := by
  have hdet : EPSILON ≤ |triangle_det ray triangle| := by
    by_contra hsmall
    have hfold : vec3f_dot (vec3f_sub triangle.b triangle.a)
        (vec3f_cross (vec3f_sub triangle.c triangle.a) ray.direction)
        = triangle_det ray triangle := rfl
    unfold hit_triangle at h
    simp only [fabs_eq_abs, hfold] at h
    rw [if_pos (not_le.mp hsmall)] at h
    cases h
  rw [hit_triangle_of_det ray triangle hdet] at h
  split_ifs at h with hu hv ht
  rw [not_or, not_lt, not_lt] at hu hv
  rw [not_lt] at ht
  cases h
  refine ⟨hdet, ?_, hu.1, hv.1, hv.2, ht⟩
  exact (triangle_solves_iff ray triangle _ _ _ (triangle_det_ne_zero ray triangle hdet)).mpr
    ⟨rfl, rfl, rfl⟩

/-- C11 (as amended): with the arithmetic read as exact, in every ordered field, a ray
whose direction is parallel to the plane of the triangle,
`dot(D, cross(b - a, c - a)) = 0`, is reported by `hit_triangle` as no hit, from
any origin. -/
theorem hit_triangle_parallel (ray : Ray K) (triangle : Triangle K)
    (h : vec3f_dot ray.direction (triangle_normal triangle) = 0) :
    hit_triangle ray triangle = none := by
  have hdet : triangle_det ray triangle = 0 := by
    rw [triangle_det_eq_dot_normal, h]
  have hfold : vec3f_dot (vec3f_sub triangle.b triangle.a)
      (vec3f_cross (vec3f_sub triangle.c triangle.a) ray.direction)
      = triangle_det ray triangle := rfl
  unfold hit_triangle
  simp only [fabs_eq_abs, hfold, hdet, abs_zero]
  rw [if_pos EPSILON_pos]

/-- Witness of C11 (as amended): the ray from `(1/4, 1/4, 1/1000)` along `(1, 0, 0)` is parallel to the
floor triangle. -/
theorem hit_triangle_parallel_witness :
    vec3f_dot (⟨1, 0, 0⟩ : Vec3f ℝ) (triangle_normal (floor_triangle : Triangle ℝ)) = 0 ∧
    hit_triangle (⟨⟨1/4, 1/4, 1/1000⟩, ⟨1, 0, 0⟩⟩ : Ray ℝ) floor_triangle = none :=
  ⟨by norm_num [vec3f_dot, triangle_normal, floor_triangle, vec3f_cross, vec3f_sub],
   hit_triangle_parallel ⟨⟨1/4, 1/4, 1/1000⟩, ⟨1, 0, 0⟩⟩ floor_triangle
     (by norm_num [vec3f_dot, triangle_normal, floor_triangle, vec3f_cross, vec3f_sub])⟩

theorem centroid_eq_triangle_at (triangle : Triangle K) :
    centroid triangle = triangle_at triangle (1 / 3) (1 / 3) := by
  simp only [centroid, triangle_at, vec3f_add, vec3f_mul_scalar, vec3f_sub, Vec3f.mk.injEq]
  refine ⟨?_, ?_, ?_⟩ <;> ring

/-- C12 (as amended): with the arithmetic read as exact, in every ordered field, when
`|det| >= 0.001` and the ray points from its origin at the centroid of the
triangle (`O + t D = (a + b + c) / 3` with `t > 0`), as a ray perpendicular to the
plane from an origin off the plane does, `hit_triangle` reports a hit at the
distance `t`, and the barycentric coordinates it computes are `u = v = 1/3`, so
`u >= 0`, `v >= 0` and `u + v <= 1`. -/
theorem hit_triangle_centroid (ray : Ray K) (triangle : Triangle K) (t : K)
    (hdet : EPSILON ≤ |triangle_det ray triangle|) (ht : 0 < t)
    (hpoint : ray_at ray t = centroid triangle) :
    hit_triangle ray triangle = some t ∧
    hit_triangle_u ray triangle = 1 / 3 ∧ hit_triangle_v ray triangle = 1 / 3 ∧
    0 ≤ hit_triangle_u ray triangle ∧ 0 ≤ hit_triangle_v ray triangle ∧
    hit_triangle_u ray triangle + hit_triangle_v ray triangle ≤ 1 := by
  have hs : triangle_solves ray triangle t (1 / 3) (1 / 3) := by
    unfold triangle_solves
    rw [hpoint, centroid_eq_triangle_at]
  obtain ⟨h1, h2, h3⟩ := hit_triangle_of_solution ray triangle t (1 / 3) (1 / 3) hdet hs
    (by norm_num) (by norm_num) (by norm_num) ht.le
  rw [h2, h3]
  exact ⟨h1, rfl, rfl, by norm_num, by norm_num, by norm_num⟩

/-- Witness of C12 (as amended): the ray from `(1/3, 1/3, 1)` straight down meets the floor
triangle at its centroid `(1/3, 1/3, 0)`, at distance 1. -/
theorem hit_triangle_centroid_witness :
    EPSILON ≤ |triangle_det (⟨⟨1/3, 1/3, 1⟩, ⟨0, 0, -1⟩⟩ : Ray ℝ) floor_triangle| ∧
    ray_at (⟨⟨1/3, 1/3, 1⟩, ⟨0, 0, -1⟩⟩ : Ray ℝ) 1 = centroid floor_triangle ∧
    hit_triangle (⟨⟨1/3, 1/3, 1⟩, ⟨0, 0, -1⟩⟩ : Ray ℝ) floor_triangle = some 1 ∧
    hit_triangle_u (⟨⟨1/3, 1/3, 1⟩, ⟨0, 0, -1⟩⟩ : Ray ℝ) floor_triangle = 1 / 3 ∧
    hit_triangle_v (⟨⟨1/3, 1/3, 1⟩, ⟨0, 0, -1⟩⟩ : Ray ℝ) floor_triangle = 1 / 3 :=
  have hdet : EPSILON ≤ |triangle_det (⟨⟨1/3, 1/3, 1⟩, ⟨0, 0, -1⟩⟩ : Ray ℝ) floor_triangle| := by
    norm_num [triangle_det, floor_triangle, vec3f_dot, vec3f_cross, vec3f_sub, EPSILON]
  have hpoint :
      ray_at (⟨⟨1/3, 1/3, 1⟩, ⟨0, 0, -1⟩⟩ : Ray ℝ) 1 = centroid floor_triangle := by
    norm_num [ray_at, centroid, floor_triangle, vec3f_add, vec3f_mul_scalar]
  have h := hit_triangle_centroid (⟨⟨1/3, 1/3, 1⟩, ⟨0, 0, -1⟩⟩ : Ray ℝ) floor_triangle 1 hdet
    (by norm_num) hpoint
  ⟨hdet, hpoint, h.1, h.2.1, h.2.2.1⟩

/-! ## The scene store -/

/-- C13: `add_square` appends exactly the two triangles `(a, b, c)` and `(a, c, d)`, in this
order and with the material of the square, at the end of the triangle sequence:
the count grows by 2, every triangle stored before keeps its index and value, the
spheres, the lights and the background colour are unchanged, and the result is
that of two successive `add_triangle` calls. -/
theorem add_square_appends {F : Type} (scene : Scene F) (square : Square F) :
    (add_square scene square).triangles =
      scene.triangles ++ [⟨square.a, square.b, square.c, square.material⟩,
        ⟨square.a, square.c, square.d, square.material⟩] ∧
    (add_square scene square).triangles.length = scene.triangles.length + 2 ∧
    (∀ i, i < scene.triangles.length →
      (add_square scene square).triangles[i]? = scene.triangles[i]?) ∧
    (add_square scene square).triangles[scene.triangles.length]?
      = some ⟨square.a, square.b, square.c, square.material⟩ ∧
    (add_square scene square).triangles[scene.triangles.length + 1]?
      = some ⟨square.a, square.c, square.d, square.material⟩ ∧
    (add_square scene square).spheres = scene.spheres ∧
    (add_square scene square).lights = scene.lights ∧
    (add_square scene square).bgColor = scene.bgColor ∧
    add_square scene square =
      add_triangle (add_triangle scene ⟨square.a, square.b, square.c, square.material⟩)
        ⟨square.a, square.c, square.d, square.material⟩ := by
  have htri : (add_square scene square).triangles =
      scene.triangles ++ [⟨square.a, square.b, square.c, square.material⟩,
        ⟨square.a, square.c, square.d, square.material⟩] := by
    simp [add_square, add_triangle]
  refine ⟨htri, ?_, ?_, ?_, ?_, rfl, rfl, rfl, rfl⟩
  · rw [htri]
    simp
  · intro i hi
    rw [htri, List.getElem?_append_left hi]
  · rw [htri, List.getElem?_append_right (le_refl _)]
    simp
  · rw [htri, List.getElem?_append_right (Nat.le_add_right _ _)]
    simp

/-! ## The shading normal of a triangle -/

theorem triangle_det_swap (ray : Ray K) (triangle : Triangle K) :
    triangle_det ray (swap_bc triangle) = -triangle_det ray triangle := by
  simp only [triangle_det, swap_bc, vec3f_dot, vec3f_cross, vec3f_sub]
  ring

theorem triangle_solves_swap (ray : Ray K) (triangle : Triangle K) (t u v : K)
    (h : triangle_solves ray triangle t u v) :
    triangle_solves ray (swap_bc triangle) t v u := by
  simp only [triangle_solves, ray_at, triangle_at, swap_bc, vec3f_add, vec3f_mul_scalar,
    vec3f_sub, Vec3f.mk.injEq] at h ⊢
  obtain ⟨h1, h2, h3⟩ := h
  exact ⟨by linear_combination h1, by linear_combination h2, by linear_combination h3⟩

/-- The hit result does not depend on the order of `b` and `c`. -/
theorem hit_triangle_swap (ray : Ray K) (triangle : Triangle K) (t : K)
    (h : hit_triangle ray triangle = some t) :
    hit_triangle ray (swap_bc triangle) = some t := by
  obtain ⟨hdet, hs, hu, hv, huv, ht⟩ := solution_of_hit_triangle ray triangle t h
  have hdet' : EPSILON ≤ |triangle_det ray (swap_bc triangle)| := by
    rw [triangle_det_swap, abs_neg]
    exact hdet
  exact (hit_triangle_of_solution ray (swap_bc triangle) t _ _ hdet'
    (triangle_solves_swap ray triangle t _ _ hs) hv hu (by linarith) ht).1

theorem triangle_normal_swap (triangle : Triangle K) :
    triangle_normal (swap_bc triangle)
      = vec3f_mul_scalar (triangle_normal triangle) (-1) := by
  simp only [triangle_normal, swap_bc, vec3f_cross, vec3f_sub, vec3f_mul_scalar,
    Vec3f.mk.injEq]
  refine ⟨?_, ?_, ?_⟩ <;> ring

theorem vec3f_size_neg (sqrt : K → K) (a : Vec3f K) :
    vec3f_size sqrt (vec3f_mul_scalar a (-1)) = vec3f_size sqrt a := by
  simp only [vec3f_size, vec3f_mul_scalar]
  congr 1
  ring

/-- The normal `cast_ray` computes for a triangle, in terms of `cross(b - a, c - a)`. -/
theorem triangle_surface_normal (sqrt : K → K) (ray : Ray K) (triangle : Triangle K) (t : K) :
    (triangle_surface sqrt ray triangle t).normal =
      if vec3f_dot (vec3f_normalise sqrt (triangle_normal triangle)) ray.direction > 0 then
        vec3f_mul_scalar (vec3f_normalise sqrt (triangle_normal triangle)) (-1)
      else vec3f_normalise sqrt (triangle_normal triangle) := rfl

theorem vec3f_normalise_neg (sqrt : K → K) (a : Vec3f K) :
    vec3f_normalise sqrt (vec3f_mul_scalar a (-1))
      = vec3f_mul_scalar (vec3f_normalise sqrt a) (-1) := by
  have hs := vec3f_size_neg sqrt a
  simp only [vec3f_normalise, hs]
  simp only [vec3f_mul_scalar, Vec3f.mk.injEq]
  refine ⟨?_, ?_, ?_⟩ <;> ring

theorem dot_normalise (sqrt : K → K) (a b : Vec3f K) :
    vec3f_dot (vec3f_normalise sqrt a) b = (1 / vec3f_size sqrt a) * vec3f_dot a b := by
  simp only [vec3f_normalise, vec3f_dot]
  ring

/-- C15 (as amended): with the arithmetic read as exact, in every ordered field, for a
triangle that `hit_triangle` reports as hit, the shading normal `n` of `cast_ray`
has `dot(n, ray.direction) <= 0`, and the hit result and `n` are the same for the
triangle with `b` and `c` exchanged. -/
theorem triangle_normal_faces_ray (sqrt : K → K) (ray : Ray K) (triangle : Triangle K)
    (t : K) (h : hit_triangle ray triangle = some t) :
    vec3f_dot (triangle_surface sqrt ray triangle t).normal ray.direction ≤ 0 ∧
    hit_triangle ray (swap_bc triangle) = hit_triangle ray triangle ∧
    (triangle_surface sqrt ray (swap_bc triangle) t).normal
      = (triangle_surface sqrt ray triangle t).normal := by
  refine ⟨?_, ?_, ?_⟩
  · rw [triangle_surface_normal]
    by_cases hd : vec3f_dot (vec3f_normalise sqrt (triangle_normal triangle)) ray.direction > 0
    · rw [if_pos hd]
      have : vec3f_dot (vec3f_mul_scalar (vec3f_normalise sqrt (triangle_normal triangle)) (-1))
          ray.direction
          = -vec3f_dot (vec3f_normalise sqrt (triangle_normal triangle)) ray.direction := by
        simp only [vec3f_dot, vec3f_mul_scalar]
        ring
      rw [this]
      linarith
    · rw [if_neg hd]
      exact not_lt.mp hd
  · rw [h]
    exact hit_triangle_swap ray triangle t h
  · have hdet := triangle_det_ne_zero ray triangle (solution_of_hit_triangle ray triangle t h).1
    rw [triangle_det_eq_dot_normal] at hdet
    rw [triangle_surface_normal, triangle_surface_normal, triangle_normal_swap,
      vec3f_normalise_neg]
    have hneg : vec3f_dot
        (vec3f_mul_scalar (vec3f_normalise sqrt (triangle_normal triangle)) (-1)) ray.direction
        = -vec3f_dot (vec3f_normalise sqrt (triangle_normal triangle)) ray.direction := by
      simp only [vec3f_dot, vec3f_mul_scalar]
      ring
    have hnegneg : vec3f_mul_scalar
        (vec3f_mul_scalar (vec3f_normalise sqrt (triangle_normal triangle)) (-1)) (-1)
        = vec3f_normalise sqrt (triangle_normal triangle) := by
      simp only [vec3f_mul_scalar, mul_neg, mul_one, neg_neg]
    rw [hneg, hnegneg]
    rcases lt_trichotomy
      (vec3f_dot (vec3f_normalise sqrt (triangle_normal triangle)) ray.direction) 0
      with hlt | heq | hgt
    · rw [if_pos (by linarith), if_neg (by linarith)]
    · -- the dot product vanishes only when the normalised vector is zero
      have hinv : 1 / vec3f_size sqrt (triangle_normal triangle) = 0 := by
        rw [dot_normalise] at heq
        rcases mul_eq_zero.mp heq with h0 | h0
        · exact h0
        · have hcomm : vec3f_dot (triangle_normal triangle) ray.direction
              = vec3f_dot ray.direction (triangle_normal triangle) := by
            simp only [vec3f_dot]
            ring
          exact absurd (hcomm ▸ h0) hdet
      have hzero : vec3f_normalise sqrt (triangle_normal triangle) = ⟨0, 0, 0⟩ := by
        simp only [vec3f_normalise, hinv, mul_zero]
      rw [heq, hzero]
      simp [vec3f_mul_scalar]
    · rw [if_neg (by linarith), if_pos hgt]

/-- Witness of C15 (as amended) on the floor triangle and `down_ray`, which hits it at distance `1/4`. -/
theorem triangle_normal_faces_ray_witness :
    hit_triangle (down_ray : Ray ℝ) floor_triangle = some (1 / 4) ∧
    vec3f_dot (triangle_surface Real.sqrt (down_ray : Ray ℝ) floor_triangle (1 / 4)).normal
      (down_ray : Ray ℝ).direction ≤ 0 ∧
    hit_triangle (down_ray : Ray ℝ) (swap_bc floor_triangle)
      = hit_triangle (down_ray : Ray ℝ) floor_triangle ∧
    (triangle_surface Real.sqrt (down_ray : Ray ℝ) (swap_bc floor_triangle) (1 / 4)).normal
      = (triangle_surface Real.sqrt (down_ray : Ray ℝ) floor_triangle (1 / 4)).normal :=
  ⟨down_ray_hits_floor,
   triangle_normal_faces_ray Real.sqrt down_ray floor_triangle (1 / 4) down_ray_hits_floor⟩


/-! ## Reflection and shadow rays over the reals -/

/-- Normalising a vector of squared length 1 leaves it unchanged. -/
theorem vec3f_normalise_unit (a : Vec3f ℝ) (h : vec3f_dot a a = 1) :
    vec3f_normalise Real.sqrt a = a := by
  have hs : vec3f_size Real.sqrt a = 1 := by
    have : a.x * a.x + a.y * a.y + a.z * a.z = 1 := h
    simp only [vec3f_size, this, Real.sqrt_one]
  simp only [vec3f_normalise, hs, div_one, mul_one]

/-- A vector that is not zero has positive length, and normalising it gives a vector of
squared length 1. -/
theorem vec3f_normalise_dot_self (a : Vec3f ℝ) (h : 0 < vec3f_dot a a) :
    0 < vec3f_size Real.sqrt a ∧
    vec3f_size Real.sqrt a * vec3f_size Real.sqrt a = vec3f_dot a a ∧
    vec3f_dot (vec3f_normalise Real.sqrt a) (vec3f_normalise Real.sqrt a) = 1 := by
  have hpos : 0 < vec3f_size Real.sqrt a := Real.sqrt_pos.mpr h
  have hsq : vec3f_size Real.sqrt a * vec3f_size Real.sqrt a = vec3f_dot a a :=
    Real.mul_self_sqrt h.le
  refine ⟨hpos, hsq, ?_⟩
  simp only [vec3f_normalise, vec3f_dot] at hsq ⊢
  field_simp
  linear_combination -hsq

/-- C16: for unit vectors `n` and `d`, `reflection_dir(d, n)` is the mirror reflection
`d - 2 dot(d, n) n`: it has unit length, its component along `n` is negated and
its component perpendicular to `n` is unchanged. -/
theorem reflection_dir_mirror (d n : Vec3f ℝ) (hn : vec3f_dot n n = 1)
    (hd : vec3f_dot d d = 1) :
    reflection_dir Real.sqrt d n = vec3f_sub d (vec3f_mul_scalar n (2 * vec3f_dot d n)) ∧
    vec3f_dot (reflection_dir Real.sqrt d n) (reflection_dir Real.sqrt d n) = 1 ∧
    vec3f_dot (reflection_dir Real.sqrt d n) n = -vec3f_dot d n ∧
    vec3f_sub (reflection_dir Real.sqrt d n)
        (vec3f_mul_scalar n (vec3f_dot (reflection_dir Real.sqrt d n) n))
      = vec3f_sub d (vec3f_mul_scalar n (vec3f_dot d n)) := by
  have hw : vec3f_dot (vec3f_sub (vec3f_mul_scalar n (2 * vec3f_dot d n)) d)
      (vec3f_sub (vec3f_mul_scalar n (2 * vec3f_dot d n)) d) = 1 := by
    simp only [vec3f_dot, vec3f_sub, vec3f_mul_scalar] at hn hd ⊢
    linear_combination (4 * (d.x * n.x + d.y * n.y + d.z * n.z) ^ 2) * hn + hd
  have hr : reflection_dir Real.sqrt d n
      = vec3f_sub d (vec3f_mul_scalar n (2 * vec3f_dot d n)) := by
    unfold reflection_dir
    rw [vec3f_normalise_unit _ hw]
    simp only [vec3f_sub, vec3f_mul_scalar, Vec3f.mk.injEq]
    refine ⟨?_, ?_, ?_⟩ <;> ring
  rw [hr]
  refine ⟨rfl, ?_, ?_, ?_⟩
  · simp only [vec3f_dot, vec3f_sub, vec3f_mul_scalar] at hn hd ⊢
    linear_combination (4 * (d.x * n.x + d.y * n.y + d.z * n.z) ^ 2) * hn + hd
  · simp only [vec3f_dot, vec3f_sub, vec3f_mul_scalar] at hn ⊢
    linear_combination (-2 * (d.x * n.x + d.y * n.y + d.z * n.z)) * hn
  · simp only [vec3f_dot, vec3f_sub, vec3f_mul_scalar, Vec3f.mk.injEq] at hn ⊢
    refine ⟨?_, ?_, ?_⟩
    · linear_combination (2 * n.x * (d.x * n.x + d.y * n.y + d.z * n.z)) * hn
    · linear_combination (2 * n.y * (d.x * n.x + d.y * n.y + d.z * n.z)) * hn
    · linear_combination (2 * n.z * (d.x * n.x + d.y * n.y + d.z * n.z)) * hn

/-- Witness of C16: the direction `(0, 0, -1)` reflected about the normal `(0, 0, 1)`. -/
theorem reflection_dir_mirror_witness :
    vec3f_dot (⟨0, 0, 1⟩ : Vec3f ℝ) ⟨0, 0, 1⟩ = 1 ∧
    vec3f_dot (⟨0, 0, -1⟩ : Vec3f ℝ) ⟨0, 0, -1⟩ = 1 ∧
    reflection_dir Real.sqrt (⟨0, 0, -1⟩ : Vec3f ℝ) ⟨0, 0, 1⟩
      = vec3f_sub ⟨0, 0, -1⟩
          (vec3f_mul_scalar ⟨0, 0, 1⟩ (2 * vec3f_dot (⟨0, 0, -1⟩ : Vec3f ℝ) ⟨0, 0, 1⟩)) :=
  ⟨by norm_num [vec3f_dot], by norm_num [vec3f_dot],
   (reflection_dir_mirror ⟨0, 0, -1⟩ ⟨0, 0, 1⟩ (by norm_num [vec3f_dot])
     (by norm_num [vec3f_dot])).1⟩


/-- A ray that starts outside a sphere and does not move towards its centre is reported
as not hitting it. -/
theorem hit_sphere_none_of_receding (ray : Ray ℝ) (sphere : Sphere ℝ)
    (ha : 0 < vec3f_dot ray.direction ray.direction)
    (hb : 0 ≤ vec3f_dot (vec3f_sub ray.origin sphere.center) ray.direction)
    (hc : sphere.radius * sphere.radius
      < vec3f_dot (vec3f_sub ray.origin sphere.center) (vec3f_sub ray.origin sphere.center)) :
    hit_sphere Real.sqrt ray sphere = none := by
  unfold hit_sphere
  simp only []
  generalize vec3f_dot ray.direction ray.direction = a at *
  generalize vec3f_dot (vec3f_sub ray.origin sphere.center) ray.direction = b at *
  generalize vec3f_dot (vec3f_sub ray.origin sphere.center)
    (vec3f_sub ray.origin sphere.center) = c at *
  by_cases hd : 2 * b * (2 * b) - 4 * a * (c - sphere.radius * sphere.radius) < 0
  · rw [if_pos hd]
  · rw [if_neg hd]
    have hs0 := Real.sqrt_nonneg (2 * b * (2 * b) - 4 * a * (c - sphere.radius * sphere.radius))
    have hss := Real.mul_self_sqrt (not_lt.mp hd)
    generalize Real.sqrt (2 * b * (2 * b) - 4 * a * (c - sphere.radius * sphere.radius)) = s at *
    have hlt : s < 2 * b := by
      by_contra hge
      rw [not_lt] at hge
      have h1 : 2 * b * (2 * b) ≤ s * s := mul_self_le_mul_self (by linarith) hge
      nlinarith [mul_pos ha (sub_pos.mpr hc)]
    have h2a : 0 < 2 * a := by linarith
    have ht2 : (-(2 * b) + s) / (2 * a) < 0 := div_neg_of_neg_of_pos (by linarith) h2a
    have ht1 : (-(2 * b) - s) / (2 * a) < 0 := div_neg_of_neg_of_pos (by linarith) h2a
    rw [if_pos ⟨ht1, ht2⟩]

/-- A hit reported for a ray that starts outside the sphere is at the first root of the
quadratic: the point lies on the sphere and the ray does not leave the sphere
there, `dot(D, hitPoint - C) <= 0`. -/
theorem hit_sphere_entry (ray : Ray ℝ) (sphere : Sphere ℝ) (d : ℝ)
    (hD : nonzero_dir ray)
    (hout : sphere.radius * sphere.radius
      < vec3f_dot (vec3f_sub ray.origin sphere.center) (vec3f_sub ray.origin sphere.center))
    (hhit : hit_sphere Real.sqrt ray sphere = some d) :
    sphere_root ray sphere d ∧
    vec3f_dot ray.direction (vec3f_sub (ray_at ray d) sphere.center) ≤ 0 := by
  have ha := dot_self_pos_of_nonzero ray hD
  have hroot := sphere_root_iff_quadratic ray sphere d
  have hdot : vec3f_dot ray.direction (vec3f_sub (ray_at ray d) sphere.center)
      = vec3f_dot ray.direction ray.direction * d
        + (2 * vec3f_dot (vec3f_sub ray.origin sphere.center) ray.direction) / 2 := by
    simp only [vec3f_dot, vec3f_sub, ray_at, vec3f_add, vec3f_mul_scalar]
    ring
  rw [hroot, hdot]
  unfold hit_sphere at hhit
  simp only [] at hhit
  generalize vec3f_dot ray.direction ray.direction = a at *
  generalize 2 * vec3f_dot (vec3f_sub ray.origin sphere.center) ray.direction = b at *
  have hc : 0 < vec3f_dot (vec3f_sub ray.origin sphere.center)
      (vec3f_sub ray.origin sphere.center) - sphere.radius * sphere.radius := sub_pos.mpr hout
  generalize vec3f_dot (vec3f_sub ray.origin sphere.center)
    (vec3f_sub ray.origin sphere.center) - sphere.radius * sphere.radius = c at *
  by_cases hd : b * b - 4 * a * c < 0
  · rw [if_pos hd] at hhit
    cases hhit
  · rw [if_neg hd] at hhit
    have hfac := fun t => quadratic_factor a b c t ha hd
    have hs0 := Real.sqrt_nonneg (b * b - 4 * a * c)
    have hss := Real.mul_self_sqrt (not_lt.mp hd)
    generalize Real.sqrt (b * b - 4 * a * c) = s at *
    have h2a : 0 < 2 * a := by linarith
    have h12 : (-b - s) / (2 * a) ≤ (-b + s) / (2 * a) :=
      div_le_div_of_nonneg_right (by linarith) h2a.le
    have hprod : (-b - s) / (2 * a) * ((-b + s) / (2 * a)) = c / a := by
      field_simp
      linear_combination (-a) * hss
    have hprodpos : 0 < (-b - s) / (2 * a) * ((-b + s) / (2 * a)) := by
      rw [hprod]
      exact div_pos hc ha
    have hd1 : a * ((-b - s) / (2 * a)) + b / 2 = -s / 2 := by
      field_simp
      ring
    generalize (-b - s) / (2 * a) = t1 at *
    generalize (-b + s) / (2 * a) = t2 at *
    simp only [gt_iff_lt, not_lt.mpr h12, if_false] at hhit
    by_cases hboth : t1 < 0 ∧ t2 < 0
    · rw [if_pos hboth] at hhit
      cases hhit
    · rw [if_neg hboth] at hhit
      have h1 : ¬ t1 < 0 := by
        intro hneg
        have h2 : 0 ≤ t2 := by
          by_contra h2
          exact hboth ⟨hneg, not_le.mp h2⟩
        nlinarith [mul_nonpos_of_nonpos_of_nonneg hneg.le h2]
      rw [if_neg h1] at hhit
      cases hhit
      refine ⟨?_, ?_⟩
      · rw [hfac]
        simp
      · rw [hd1]
        linarith

/-- The reflection ray at a point of the sphere with outward unit normal `n`, for an
incoming direction with `dot(D, n) <= 0`: it starts outside the sphere and does
not move towards the centre. -/
theorem reflection_receding (D n P C : Vec3f ℝ) (r : ℝ) (hr : 0 < r)
    (hn : vec3f_dot n n = 1) (hv : vec3f_sub P C = vec3f_mul_scalar n r)
    (hDn : vec3f_dot D n ≤ 0) (ha : 0 < vec3f_dot D D) :
    0 < vec3f_dot (reflection_dir Real.sqrt D n) (reflection_dir Real.sqrt D n) ∧
    0 ≤ vec3f_dot (vec3f_sub (vec3f_add P (vec3f_mul_scalar n EPSILON)) C)
      (reflection_dir Real.sqrt D n) ∧
    r * r < vec3f_dot (vec3f_sub (vec3f_add P (vec3f_mul_scalar n EPSILON)) C)
      (vec3f_sub (vec3f_add P (vec3f_mul_scalar n EPSILON)) C) := by
  have heps : (0 : ℝ) < EPSILON := EPSILON_pos
  have hw : vec3f_dot (vec3f_sub (vec3f_mul_scalar n (2 * vec3f_dot D n)) D)
      (vec3f_sub (vec3f_mul_scalar n (2 * vec3f_dot D n)) D) = vec3f_dot D D := by
    simp only [vec3f_dot, vec3f_sub, vec3f_mul_scalar] at hn ⊢
    linear_combination (4 * (D.x * n.x + D.y * n.y + D.z * n.z) ^ 2) * hn
  obtain ⟨hsize, _, hunit⟩ :=
    vec3f_normalise_dot_self (vec3f_sub (vec3f_mul_scalar n (2 * vec3f_dot D n)) D)
      (by rw [hw]; exact ha)
  have hwoc : vec3f_dot (vec3f_sub (vec3f_mul_scalar n (2 * vec3f_dot D n)) D)
      (vec3f_sub (vec3f_add P (vec3f_mul_scalar n EPSILON)) C)
      = (r + EPSILON) * vec3f_dot D n := by
    simp only [vec3f_sub, vec3f_mul_scalar, Vec3f.mk.injEq] at hv
    obtain ⟨h1, h2, h3⟩ := hv
    simp only [vec3f_dot, vec3f_sub, vec3f_mul_scalar, vec3f_add] at hn ⊢
    linear_combination
      (n.x * (2 * (D.x * n.x + D.y * n.y + D.z * n.z)) - D.x) * h1
      + (n.y * (2 * (D.x * n.x + D.y * n.y + D.z * n.z)) - D.y) * h2
      + (n.z * (2 * (D.x * n.x + D.y * n.y + D.z * n.z)) - D.z) * h3
      + (2 * (D.x * n.x + D.y * n.y + D.z * n.z) * (r + EPSILON)) * hn
  have hocR : vec3f_dot (vec3f_sub (vec3f_add P (vec3f_mul_scalar n EPSILON)) C)
      (reflection_dir Real.sqrt D n)
      = -((1 / vec3f_size Real.sqrt (vec3f_sub (vec3f_mul_scalar n (2 * vec3f_dot D n)) D))
          * ((r + EPSILON) * vec3f_dot D n)) := by
    rw [← hwoc, ← dot_normalise]
    simp only [reflection_dir, vec3f_dot, vec3f_mul_scalar]
    ring
  have hRR : vec3f_dot (reflection_dir Real.sqrt D n) (reflection_dir Real.sqrt D n) = 1 := by
    rw [← hunit]
    simp only [reflection_dir, vec3f_dot, vec3f_mul_scalar]
    ring
  refine ⟨by rw [hRR]; exact one_pos, ?_, ?_⟩
  · rw [hocR, neg_nonneg]
    exact mul_nonpos_of_nonneg_of_nonpos (div_pos one_pos hsize).le
      (mul_nonpos_of_nonneg_of_nonpos (by linarith) hDn)
  · have hoc : vec3f_dot (vec3f_sub (vec3f_add P (vec3f_mul_scalar n EPSILON)) C)
        (vec3f_sub (vec3f_add P (vec3f_mul_scalar n EPSILON)) C)
        = (r + EPSILON) * (r + EPSILON) := by
      simp only [vec3f_sub, vec3f_mul_scalar, Vec3f.mk.injEq] at hv
      obtain ⟨h1, h2, h3⟩ := hv
      simp only [vec3f_dot, vec3f_sub, vec3f_mul_scalar, vec3f_add] at hn ⊢
      linear_combination
        (P.x - C.x + n.x * r + 2 * n.x * EPSILON) * h1
        + (P.y - C.y + n.y * r + 2 * n.y * EPSILON) * h2
        + (P.z - C.z + n.z * r + 2 * n.z * EPSILON) * h3
        + ((r + EPSILON) * (r + EPSILON)) * hn
    rw [hoc]
    nlinarith

/-- C17 (as amended): with the arithmetic read as exact reals, for a sphere of radius
`r > 0` and a ray with non-zero direction that starts outside the sphere and is
reported by `hit_sphere` as hitting it at distance `d`, the reflection ray
`cast_ray` builds at that hit (origin `hitPoint + EPSILON * normal`, direction
`reflection_dir(ray.direction, normal)`) is reported by `hit_sphere` as not
hitting the same sphere. -/
theorem reflection_misses_sphere (ray : Ray ℝ) (sphere : Sphere ℝ) (d : ℝ)
    (hr : 0 < sphere.radius) (hD : nonzero_dir ray)
    (hout : sphere.radius * sphere.radius
      < vec3f_dot (vec3f_sub ray.origin sphere.center) (vec3f_sub ray.origin sphere.center))
    (hhit : hit_sphere Real.sqrt ray sphere = some d) :
    hit_sphere Real.sqrt
      (reflection_ray Real.sqrt ray (sphere_surface Real.sqrt ray sphere d)) sphere = none := by
  obtain ⟨hroot, hentry⟩ := hit_sphere_entry ray sphere d hD hout hhit
  have hvv : vec3f_dot (vec3f_sub (ray_at ray d) sphere.center)
      (vec3f_sub (ray_at ray d) sphere.center) = sphere.radius * sphere.radius := hroot
  have hvpos : 0 < vec3f_dot (vec3f_sub (ray_at ray d) sphere.center)
      (vec3f_sub (ray_at ray d) sphere.center) := by
    rw [hvv]
    exact mul_pos hr hr
  obtain ⟨hsize, _, hunit⟩ :=
    vec3f_normalise_dot_self (vec3f_sub (ray_at ray d) sphere.center) hvpos
  have hsz : vec3f_size Real.sqrt (vec3f_sub (ray_at ray d) sphere.center) = sphere.radius := by
    have : vec3f_size Real.sqrt (vec3f_sub (ray_at ray d) sphere.center)
        = Real.sqrt (vec3f_dot (vec3f_sub (ray_at ray d) sphere.center)
            (vec3f_sub (ray_at ray d) sphere.center)) := rfl
    rw [this, hvv, Real.sqrt_mul_self hr.le]
  have hv : vec3f_sub (ray_at ray d) sphere.center
      = vec3f_mul_scalar
          (vec3f_normalise Real.sqrt (vec3f_sub (ray_at ray d) sphere.center)) sphere.radius := by
    simp only [vec3f_normalise, hsz, vec3f_mul_scalar]
    have hr0 : sphere.radius ≠ 0 := hr.ne.symm
    field_simp
  have hDn : vec3f_dot ray.direction
      (vec3f_normalise Real.sqrt (vec3f_sub (ray_at ray d) sphere.center)) ≤ 0 := by
    have hcomm : vec3f_dot ray.direction
        (vec3f_normalise Real.sqrt (vec3f_sub (ray_at ray d) sphere.center))
        = (1 / vec3f_size Real.sqrt (vec3f_sub (ray_at ray d) sphere.center))
          * vec3f_dot ray.direction (vec3f_sub (ray_at ray d) sphere.center) := by
      simp only [vec3f_normalise, vec3f_dot]
      ring
    rw [hcomm]
    exact mul_nonpos_of_nonneg_of_nonpos (div_pos one_pos hsize).le hentry
  obtain ⟨h1, h2, h3⟩ := reflection_receding ray.direction
    (vec3f_normalise Real.sqrt (vec3f_sub (ray_at ray d) sphere.center))
    (ray_at ray d) sphere.center sphere.radius hr hunit hv hDn
    (dot_self_pos_of_nonzero ray hD)
  exact hit_sphere_none_of_receding _ sphere h1 h2 h3

theorem sqrt_four : Real.sqrt 4 = 2 := by
  rw [show (4 : ℝ) = 2 * 2 by norm_num, Real.sqrt_mul_self (by norm_num)]

theorem axis_ray_hits_unit_sphere :
    hit_sphere Real.sqrt (axis_ray : Ray ℝ) unit_sphere = some 1 := by
  norm_num [hit_sphere, axis_ray, unit_sphere, vec3f_sub, vec3f_dot, sqrt_four]

/-- Witness of C17 (as amended): the ray from `(0, 0, 2)` towards the origin hits the unit sphere at
distance 1, and the reflection ray built there does not hit the sphere. -/
theorem reflection_misses_sphere_witness :
    (0 : ℝ) < (unit_sphere : Sphere ℝ).radius ∧ nonzero_dir (axis_ray : Ray ℝ) ∧
    hit_sphere Real.sqrt (axis_ray : Ray ℝ) unit_sphere = some 1 ∧
    hit_sphere Real.sqrt
      (reflection_ray Real.sqrt axis_ray (sphere_surface Real.sqrt axis_ray unit_sphere 1))
      unit_sphere = none :=
  ⟨by norm_num [unit_sphere], Or.inr (Or.inr (by norm_num [axis_ray])),
   axis_ray_hits_unit_sphere,
   reflection_misses_sphere axis_ray unit_sphere 1 (by norm_num [unit_sphere])
     (Or.inr (Or.inr (by norm_num [axis_ray])))
     (by norm_num [axis_ray, unit_sphere, vec3f_sub, vec3f_dot])
     axis_ray_hits_unit_sphere⟩


/-! ## A blocker beyond the light -/

theorem down_ray_misses_far_sphere :
    hit_sphere Real.sqrt (down_ray : Ray ℝ) far_sphere = none := by
  norm_num [hit_sphere, down_ray, far_sphere, vec3f_sub, vec3f_dot, sqrt_four]

theorem up_ray_hits_far_sphere :
    hit_sphere Real.sqrt (⟨⟨1/4, 1/4, 1/1000⟩, ⟨0, 0, 1⟩⟩ : Ray ℝ) far_sphere
      = some (1999 / 1000) := by
  norm_num [hit_sphere, far_sphere, vec3f_sub, vec3f_dot, sqrt_four]

theorem far_sphere_surface :
    surface_of Real.sqrt down_ray (nearest_hit Real.sqrt (far_sphere_scene : Scene ℝ) down_ray)
      = some floor_surface := by
  simp only [nearest_hit, far_sphere_scene, List.foldl_cons, List.foldl_nil,
    nearest_sphere_step, nearest_triangle_step, down_ray_misses_far_sphere, down_ray_hits_floor]
  simp only [surface_of, true_or, if_true]
  norm_num [floor_surface_eq]

/-- C19: in `far_sphere_scene` the ray `down_ray` is shaded at the floor point
`(1/4, 1/4, 0)`; the overhead light is at distance 1 from that point; the sphere
of the scene does not meet the segment from the point to the light, and the
shadow ray hits it at distance `1.999 > 1`, beyond the light; yet the iteration of
the light loop for that light leaves both sums at 0, while in the same scene
without the sphere it adds 1 to each. -/
theorem far_sphere_blocks_light :
    surface_of Real.sqrt down_ray (nearest_hit Real.sqrt (far_sphere_scene : Scene ℝ) down_ray)
      = some floor_surface ∧
    (far_sphere : Sphere ℝ) ∈ (far_sphere_scene : Scene ℝ).spheres ∧
    (overhead_light : Light ℝ) ∈ (far_sphere_scene : Scene ℝ).lights ∧
    vec3f_size Real.sqrt
      (vec3f_sub (overhead_light : Light ℝ).pos (floor_surface : Surface ℝ).hitPoint) = 1 ∧
    hit_sphere Real.sqrt
      (light_ray Real.sqrt (floor_surface : Surface ℝ).hitPoint floor_surface.normal
        overhead_light) far_sphere = some (1999 / 1000) ∧
    (∀ s : ℝ, 0 ≤ s → s ≤ 1 →
      (far_sphere : Sphere ℝ).radius * (far_sphere : Sphere ℝ).radius <
        vec3f_dot
          (vec3f_sub
            (vec3f_add (floor_surface : Surface ℝ).hitPoint
              (vec3f_mul_scalar
                (vec3f_sub (overhead_light : Light ℝ).pos (floor_surface : Surface ℝ).hitPoint)
                s))
            (far_sphere : Sphere ℝ).center)
          (vec3f_sub
            (vec3f_add (floor_surface : Surface ℝ).hitPoint
              (vec3f_mul_scalar
                (vec3f_sub (overhead_light : Light ℝ).pos (floor_surface : Surface ℝ).hitPoint)
                s))
            (far_sphere : Sphere ℝ).center)) ∧
    light_step Real.sqrt (fun x y => x ^ y) (far_sphere_scene : Scene ℝ) down_ray floor_surface
      (0, 0) overhead_light = (0, 0) ∧
    light_step Real.sqrt (fun x y => x ^ y) (open_scene : Scene ℝ) down_ray floor_surface
      (0, 0) overhead_light = (1, 1) := by
  refine ⟨far_sphere_surface, by simp [far_sphere_scene], by simp [far_sphere_scene], ?_, ?_,
    ?_, ?_, ?_⟩
  · norm_num [vec3f_size, vec3f_sub, overhead_light, floor_surface]
  · rw [overhead_light_ray]
    exact up_ray_hits_far_sphere
  · intro s hs0 hs1
    norm_num [vec3f_dot, vec3f_sub, vec3f_add, vec3f_mul_scalar, overhead_light, floor_surface,
      far_sphere]
    nlinarith
  · have hocc : occluded Real.sqrt (far_sphere_scene : Scene ℝ)
        (light_ray Real.sqrt (floor_surface : Surface ℝ).hitPoint floor_surface.normal
          overhead_light) = true := by
      rw [occluded_iff, overhead_light_ray]
      exact Or.inl ⟨far_sphere, by simp [far_sphere_scene], 1999 / 1000,
        up_ray_hits_far_sphere, by norm_num⟩
    rw [light_step_eq]
    simp [lit, unoccluded, hocc]
  · have hocc : occluded Real.sqrt (open_scene : Scene ℝ)
        (light_ray Real.sqrt (floor_surface : Surface ℝ).hitPoint floor_surface.normal
          overhead_light) = false := by
      rw [overhead_light_ray]
      simp only [occluded, open_scene, shadow_spheres, shadow_triangles, up_ray_misses_floor]
      decide
    rw [light_step_eq]
    simp only [lit, unoccluded, hocc]
    norm_num [diffuse_dot, specular_term, reflection_dir, floor_surface, overhead_light, down_ray,
      demo_material, vec3f_add, vec3f_mul_scalar, vec3f_sub, vec3f_dot,
      vec3f_normalise, vec3f_size]


/-! ## The frame scheduler -/

/-- A loop that writes `f c` into the cell `c + base` for `c = 0, ..., n - 1`: the length
is kept, the cells `base, ..., base + n - 1` inside the list hold the new values
and every other cell is unchanged. -/
theorem foldl_set_range {α : Type} (f : Nat → α) (base n : Nat) (data : List α) :
    ((List.range n).foldl (fun d c => d.set (c + base) (f c)) data).length = data.length ∧
    ∀ i, ((List.range n).foldl (fun d c => d.set (c + base) (f c)) data)[i]? =
      if base ≤ i ∧ i < n + base then
        (if i < data.length then some (f (i - base)) else none)
      else data[i]? := by
  induction n with
  | zero =>
    refine ⟨rfl, fun i => ?_⟩
    have : ¬ (base ≤ i ∧ i < 0 + base) := by omega
    rw [if_neg this]
    rfl
  | succ n ih =>
    obtain ⟨ihlen, ihget⟩ := ih
    rw [List.range_succ, List.foldl_append, List.foldl_cons, List.foldl_nil]
    refine ⟨by rw [List.length_set, ihlen], fun i => ?_⟩
    rw [List.getElem?_set, ihlen, ihget]
    by_cases hi : n + base = i
    · subst hi
      have h1 : base ≤ n + base ∧ n + base < n + 1 + base := by omega
      rw [if_pos rfl, if_pos h1, Nat.add_sub_cancel]
    · rw [if_neg hi]
      by_cases h2 : base ≤ i ∧ i < n + base
      · have h3 : base ≤ i ∧ i < n + 1 + base := by omega
        rw [if_pos h2, if_pos h3]
      · have h3 : ¬ (base ≤ i ∧ i < n + 1 + base) := by omega
        rw [if_neg h2, if_neg h3]

/-- The data of the image after the worker of one row. -/
theorem render_routine_data (sqrt : K → K) (powf : K → K → K) (scene : Scene K)
    (image : Image K) (row : Nat) (aspectRatio tanFOV : K) :
    (render_routine sqrt powf scene image row aspectRatio tanFOV).width = image.width ∧
    (render_routine sqrt powf scene image row aspectRatio tanFOV).height = image.height ∧
    (render_routine sqrt powf scene image row aspectRatio tanFOV).data.length
      = image.data.length ∧
    ∀ i, (render_routine sqrt powf scene image row aspectRatio tanFOV).data[i]? =
      if row * image.width ≤ i ∧ i < image.width + row * image.width then
        (if i < image.data.length then
          some (pixel_color sqrt powf scene image row (i - row * image.width) aspectRatio tanFOV)
        else none)
      else image.data[i]? := by
  obtain ⟨hlen, hget⟩ := foldl_set_range
    (fun c => pixel_color sqrt powf scene image row c aspectRatio tanFOV)
    (row * image.width) image.width image.data
  exact ⟨rfl, rfl, hlen, hget⟩

theorem row_ranges_disjoint (W r1 r2 i : Nat) (h : r1 ≠ r2)
    (h1 : r1 * W ≤ i ∧ i < W + r1 * W) : ¬ (r2 * W ≤ i ∧ i < W + r2 * W) := by
  rintro ⟨h2, h3⟩
  rcases Nat.lt_or_gt_of_ne h with hlt | hgt
  · have := Nat.mul_le_mul_right W (Nat.succ_le_of_lt hlt)
    rw [Nat.succ_mul] at this
    omega
  · have := Nat.mul_le_mul_right W (Nat.succ_le_of_lt hgt)
    rw [Nat.succ_mul] at this
    omega

/-- The workers of two rows commute. -/
theorem render_routine_comm (sqrt : K → K) (powf : K → K → K) (scene : Scene K)
    (image : Image K) (r1 r2 : Nat) (aspectRatio tanFOV : K) :
    render_routine sqrt powf scene
        (render_routine sqrt powf scene image r1 aspectRatio tanFOV) r2 aspectRatio tanFOV
      = render_routine sqrt powf scene
        (render_routine sqrt powf scene image r2 aspectRatio tanFOV) r1 aspectRatio tanFOV := by
  by_cases hr : r1 = r2
  · rw [hr]
  · have hdata : (render_routine sqrt powf scene
          (render_routine sqrt powf scene image r1 aspectRatio tanFOV) r2
          aspectRatio tanFOV).data
        = (render_routine sqrt powf scene
          (render_routine sqrt powf scene image r2 aspectRatio tanFOV) r1
          aspectRatio tanFOV).data := by
      apply List.ext_getElem?
      intro i
      obtain ⟨_, _, hl1, hg1⟩ := render_routine_data sqrt powf scene image r1 aspectRatio tanFOV
      obtain ⟨_, _, hl2, hg2⟩ := render_routine_data sqrt powf scene image r2 aspectRatio tanFOV
      obtain ⟨_, _, _, hg12⟩ := render_routine_data sqrt powf scene
        (render_routine sqrt powf scene image r1 aspectRatio tanFOV) r2 aspectRatio tanFOV
      obtain ⟨_, _, _, hg21⟩ := render_routine_data sqrt powf scene
        (render_routine sqrt powf scene image r2 aspectRatio tanFOV) r1 aspectRatio tanFOV
      have hw1 : (render_routine sqrt powf scene image r1 aspectRatio tanFOV).width
          = image.width := rfl
      have hw2 : (render_routine sqrt powf scene image r2 aspectRatio tanFOV).width
          = image.width := rfl
      have hp1 : ∀ c, pixel_color sqrt powf scene
          (render_routine sqrt powf scene image r1 aspectRatio tanFOV) r2 c aspectRatio tanFOV
          = pixel_color sqrt powf scene image r2 c aspectRatio tanFOV := fun _ => rfl
      have hp2 : ∀ c, pixel_color sqrt powf scene
          (render_routine sqrt powf scene image r2 aspectRatio tanFOV) r1 c aspectRatio tanFOV
          = pixel_color sqrt powf scene image r1 c aspectRatio tanFOV := fun _ => rfl
      rw [hg12, hg21]
      simp only [hw1, hw2, hl1, hl2, hg1, hg2, hp1, hp2]
      by_cases h1 : r1 * image.width ≤ i ∧ i < image.width + r1 * image.width
      · have h2 := row_ranges_disjoint image.width r1 r2 i hr h1
        simp only [if_pos h1, if_neg h2]
      · simp only [if_neg h1]
    calc render_routine sqrt powf scene
          (render_routine sqrt powf scene image r1 aspectRatio tanFOV) r2 aspectRatio tanFOV
        = ⟨image.width, image.height, (render_routine sqrt powf scene
            (render_routine sqrt powf scene image r1 aspectRatio tanFOV) r2
            aspectRatio tanFOV).data⟩ := rfl
      _ = ⟨image.width, image.height, (render_routine sqrt powf scene
            (render_routine sqrt powf scene image r2 aspectRatio tanFOV) r1
            aspectRatio tanFOV).data⟩ := by rw [hdata]
      _ = render_routine sqrt powf scene
          (render_routine sqrt powf scene image r2 aspectRatio tanFOV) r1
          aspectRatio tanFOV := rfl

/-- Running the workers of a list of rows keeps the size of the image, and a cell that
holds the colour of its pixel keeps it. -/
theorem run_rows_keeps (sqrt : K → K) (powf : K → K → K) (scene : Scene K)
    (aspectRatio tanFOV : K) (order : List Nat) :
    ∀ image : Image K,
      (run_rows sqrt powf scene aspectRatio tanFOV image order).width = image.width ∧
      (run_rows sqrt powf scene aspectRatio tanFOV image order).height = image.height ∧
      (run_rows sqrt powf scene aspectRatio tanFOV image order).data.length
        = image.data.length ∧
      ∀ r c, c < image.width →
        image.data[c + r * image.width]?
          = some (pixel_color sqrt powf scene image r c aspectRatio tanFOV) →
        (run_rows sqrt powf scene aspectRatio tanFOV image order).data[c + r * image.width]?
          = some (pixel_color sqrt powf scene image r c aspectRatio tanFOV) := by
  induction order with
  | nil => intro image; exact ⟨rfl, rfl, rfl, fun _ _ _ h => h⟩
  | cons r0 order ih =>
    intro image
    obtain ⟨hw, hh, hl, hkeep⟩ :=
      ih (render_routine sqrt powf scene image r0 aspectRatio tanFOV)
    obtain ⟨_, _, hl0, hg0⟩ := render_routine_data sqrt powf scene image r0 aspectRatio tanFOV
    refine ⟨hw, hh, hl.trans hl0, fun r c hc hcell => ?_⟩
    refine hkeep r c hc ?_
    show (render_routine sqrt powf scene image r0 aspectRatio tanFOV).data[c + r * image.width]?
      = some (pixel_color sqrt powf scene image r c aspectRatio tanFOV)
    rw [hg0]
    by_cases h0 : r0 * image.width ≤ c + r * image.width
        ∧ c + r * image.width < image.width + r0 * image.width
    · have hrr : r0 = r := by
        by_contra hne
        exact row_ranges_disjoint image.width r r0 _ (Ne.symm hne) ⟨by omega, by omega⟩ h0
      have hin : c + r * image.width < image.data.length := by
        by_contra hout
        rw [List.getElem?_eq_none (not_lt.mp hout)] at hcell
        cases hcell
      rw [if_pos h0, if_pos hin, hrr, Nat.add_sub_cancel]
    · rw [if_neg h0]
      exact hcell

/-- After the workers of a list of rows every cell of a row of the list holds the colour
of its pixel. -/
theorem run_rows_written (sqrt : K → K) (powf : K → K → K) (scene : Scene K)
    (aspectRatio tanFOV : K) (order : List Nat) :
    ∀ image : Image K, ∀ r c, r ∈ order → c < image.width →
      c + r * image.width < image.data.length →
      (run_rows sqrt powf scene aspectRatio tanFOV image order).data[c + r * image.width]?
        = some (pixel_color sqrt powf scene image r c aspectRatio tanFOV) := by
  induction order with
  | nil => intro image r c hr; simp at hr
  | cons r0 order ih =>
    intro image r c hr hc hin
    obtain ⟨_, _, hl0, hg0⟩ := render_routine_data sqrt powf scene image r0 aspectRatio tanFOV
    by_cases hmem : r ∈ order
    · exact ih (render_routine sqrt powf scene image r0 aspectRatio tanFOV) r c hmem hc
        (by rw [hl0]; exact hin)
    · have hr0 : r = r0 := by
        rcases List.mem_cons.mp hr with h | h
        · exact h
        · exact absurd h hmem
      subst hr0
      refine (run_rows_keeps sqrt powf scene aspectRatio tanFOV order
        (render_routine sqrt powf scene image r aspectRatio tanFOV)).2.2.2 r c hc ?_
      show (render_routine sqrt powf scene image r aspectRatio tanFOV).data[c + r * image.width]?
        = some (pixel_color sqrt powf scene image r c aspectRatio tanFOV)
      rw [hg0, if_pos ⟨by omega, by omega⟩, if_pos hin, Nat.add_sub_cancel]

theorem row_cell_lt (W H r c len : Nat) (hlen : len = W * H) (hr : r < H) (hc : c < W) :
    c + r * W < len := by
  have h := Nat.mul_le_mul_left W (Nat.succ_le_of_lt hr)
  rw [Nat.mul_succ, Nat.mul_comm W r] at h
  omega

/-- C14: on a framebuffer of `W * H` cells, the worker of a row `r < H` writes exactly the
cells `c + r * W` for `c < W`, each with `cast_ray` at depth 0 on the ray from
`(0, 0, 0)` with direction `normalise(x, y, -1)`, where
`x = (2 (c + 0.5) / W - 1) * tanFOV * aspectRatio` and
`y = -(2 (r + 0.5) / H - 1) * tanFOV`, and leaves every other cell unchanged; the
workers of two rows commute; and running the `H` workers in any order gives the
same framebuffer, in which every cell holds the colour of its pixel. -/
theorem render_routine_rows (sqrt : K → K) (powf : K → K → K) (scene : Scene K)
    (image : Image K) (aspectRatio tanFOV : K)
    (hlen : image.data.length = image.width * image.height) :
    (∀ r, r < image.height →
      (render_routine sqrt powf scene image r aspectRatio tanFOV).width = image.width ∧
      (render_routine sqrt powf scene image r aspectRatio tanFOV).height = image.height ∧
      (render_routine sqrt powf scene image r aspectRatio tanFOV).data.length
        = image.data.length ∧
      (∀ c, c < image.width →
        (render_routine sqrt powf scene image r aspectRatio tanFOV).data[c + r * image.width]?
          = some (cast_ray sqrt powf scene
              ⟨⟨0, 0, 0⟩, vec3f_normalise sqrt
                ⟨(2 * ((c : K) + 1 / 2) / (image.width : K) - 1) * tanFOV * aspectRatio,
                 -(2 * ((r : K) + 1 / 2) / (image.height : K) - 1) * tanFOV, -1⟩⟩ 0)) ∧
      (∀ i, (∀ c, c < image.width → i ≠ c + r * image.width) →
        (render_routine sqrt powf scene image r aspectRatio tanFOV).data[i]?
          = image.data[i]?)) ∧
    (∀ r1 r2, r1 ≠ r2 →
      render_routine sqrt powf scene
          (render_routine sqrt powf scene image r1 aspectRatio tanFOV) r2 aspectRatio tanFOV
        = render_routine sqrt powf scene
          (render_routine sqrt powf scene image r2 aspectRatio tanFOV) r1 aspectRatio tanFOV) ∧
    (∀ order : List Nat, order.Perm (List.range image.height) →
      run_rows sqrt powf scene aspectRatio tanFOV image order
        = run_rows sqrt powf scene aspectRatio tanFOV image (List.range image.height) ∧
      (run_rows sqrt powf scene aspectRatio tanFOV image order).data.length
        = image.width * image.height ∧
      ∀ r c, r < image.height → c < image.width →
        (run_rows sqrt powf scene aspectRatio tanFOV image order).data[c + r * image.width]?
          = some (pixel_color sqrt powf scene image r c aspectRatio tanFOV)) ∧
    (∀ (tan : K → K) (order : List Nat), order.Perm (List.range image.height) →
      render tan sqrt powf scene image order
        = render tan sqrt powf scene image (List.range image.height)) := by
  refine ⟨fun r hr => ?_, fun r1 r2 _ => render_routine_comm sqrt powf scene image r1 r2 _ _,
    fun order hperm => ⟨?_, ?_, fun r c hr hc => ?_⟩, fun tan order hperm => ?_⟩
  · obtain ⟨hw, hh, hl, hg⟩ := render_routine_data sqrt powf scene image r aspectRatio tanFOV
    refine ⟨hw, hh, hl, fun c hc => ?_, fun i hi => ?_⟩
    · have hin := row_cell_lt image.width image.height r c _ hlen hr hc
      rw [hg, if_pos ⟨by omega, by omega⟩, if_pos hin, Nat.add_sub_cancel]
      rfl
    · have hout : ¬ (r * image.width ≤ i ∧ i < image.width + r * image.width) := by
        rintro ⟨h1, h2⟩
        exact hi (i - r * image.width) (by omega) (by omega)
      rw [hg, if_neg hout]
  · exact hperm.foldl_eq' (fun x _ y _ z => render_routine_comm sqrt powf scene z x y _ _) image
  · rw [(run_rows_keeps sqrt powf scene aspectRatio tanFOV order image).2.2.1, hlen]
  · exact run_rows_written sqrt powf scene aspectRatio tanFOV order image r c
      (hperm.mem_iff.mpr (List.mem_range.mpr hr)) hc
      (row_cell_lt image.width image.height r c _ hlen hr hc)
  · unfold render
    exact hperm.foldl_eq' (fun x _ y _ z => render_routine_comm sqrt powf scene z x y _ _) image

/-- Witness of C14 on the 2 x 2 image `demo_image` and `small_occluder_scene`. -/
theorem render_routine_rows_witness :
    (demo_image : Image ℝ).data.length
      = (demo_image : Image ℝ).width * (demo_image : Image ℝ).height ∧
    run_rows Real.sqrt (fun x y => x ^ y) (small_occluder_scene : Scene ℝ) 1 1 demo_image [1, 0]
      = run_rows Real.sqrt (fun x y => x ^ y) (small_occluder_scene : Scene ℝ) 1 1 demo_image
          (List.range (demo_image : Image ℝ).height) :=
  ⟨rfl,
   ((render_routine_rows Real.sqrt (fun x y => x ^ y) (small_occluder_scene : Scene ℝ)
      demo_image 1 1 rfl).2.2.1 [1, 0] (by decide)).1⟩


/-! ## Properties of the binary32 comparison and product -/

theorem f32_minExp_comm (e f : Int) : F32.minExp e f = F32.minExp f e := by
  unfold F32.minExp
  split_ifs <;> omega

theorem f32_minExp_le (e f : Int) : F32.minExp e f ≤ e ∧ F32.minExp e f ≤ f := by
  unfold F32.minExp
  split_ifs <;> omega

/-- The integer `scaled s m e lo` is the value of `fin s m e` in units of `2^lo`. -/
theorem f32_scaled_toRat (s : Bool) (m : Nat) (e lo : Int) (h : lo ≤ e) :
    ((F32.scaled s m e lo : Int) : ℚ) * (2 : ℚ) ^ lo = F32.toRat (F32.fin s m e) := by
  have hpow : ((2 : ℚ) ^ (e - lo).toNat) = (2 : ℚ) ^ (e - lo) := by
    rw [← zpow_natCast, Int.toNat_of_nonneg (by omega)]
  unfold F32.scaled F32.toRat
  push_cast
  rw [hpow, zpow_sub₀ (two_ne_zero)]
  have h2 : (2 : ℚ) ^ lo ≠ 0 := zpow_ne_zero _ two_ne_zero
  cases s <;> field_simp

/-- On finite values `<` compares the numbers denoted. -/
theorem f32_scaled_lt_iff (s : Bool) (m : Nat) (e : Int) (t : Bool) (n : Nat) (f lo : Int)
    (he : lo ≤ e) (hf : lo ≤ f) :
    F32.scaled s m e lo < F32.scaled t n f lo ↔
      F32.toRat (F32.fin s m e) < F32.toRat (F32.fin t n f) := by
  rw [← f32_scaled_toRat s m e lo he, ← f32_scaled_toRat t n f lo hf]
  have h2 : (0 : ℚ) < (2 : ℚ) ^ lo := zpow_pos (by norm_num) _
  rw [mul_lt_mul_right h2, Int.cast_lt]

/-- The comparison `<` of binary32 is irreflexive. -/
theorem f32_lt_irrefl (a : F32) : ¬ a < a := by
  show ¬ (F32.blt a a = true)
  cases a with
  | nan => simp [F32.blt]
  | inf s => cases s <;> simp [F32.blt]
  | fin s m e => simp [F32.blt]

/-- The comparison `<` of binary32 is transitive. -/
theorem f32_lt_trans (a b c : F32) (hab : a < b) (hbc : b < c) : a < c := by
  change F32.blt a b = true at hab
  change F32.blt b c = true at hbc
  show F32.blt a c = true
  cases a with
  | nan => simp [F32.blt] at hab
  | inf s =>
    cases b with
    | nan => simp [F32.blt] at hab
    | inf t =>
      cases c with
      | nan => simp [F32.blt] at hbc
      | inf r => cases s <;> cases t <;> cases r <;> simp_all [F32.blt]
      | fin r k g => cases s <;> cases t <;> simp_all [F32.blt]
    | fin t n f =>
      cases c with
      | nan => simp [F32.blt] at hbc
      | inf r => cases s <;> cases r <;> simp_all [F32.blt]
      | fin r k g => simp_all [F32.blt]
  | fin s m e =>
    cases b with
    | nan => simp [F32.blt] at hab
    | inf t =>
      cases c with
      | nan => simp [F32.blt] at hbc
      | inf r => cases t <;> cases r <;> simp_all [F32.blt]
      | fin r k g => cases t <;> simp_all [F32.blt]
    | fin t n f =>
      cases c with
      | nan => simp [F32.blt] at hbc
      | inf r => simp_all [F32.blt]
      | fin r k g =>
        simp only [F32.blt, decide_eq_true_eq] at hab hbc ⊢
        rw [f32_scaled_lt_iff _ _ _ _ _ _ _ (f32_minExp_le _ _).1 (f32_minExp_le _ _).2]
          at hab hbc ⊢
        exact lt_trans hab hbc

/-- Two binary32 values that are numbers (`a <= a` fails only for NaN) are comparable. -/
theorem f32_le_of_not_lt (a b : F32) (ha : a ≤ a) (hb : b ≤ b) (h : ¬ a < b) : b ≤ a := by
  change F32.ble a a = true at ha
  change F32.ble b b = true at hb
  change ¬ (F32.blt a b = true) at h
  show F32.ble b a = true
  cases a with
  | nan => simp [F32.ble] at ha
  | inf s =>
    cases b with
    | nan => simp [F32.ble] at hb
    | inf t => cases s <;> cases t <;> simp_all [F32.blt, F32.ble]
    | fin t n f => cases s <;> simp_all [F32.blt, F32.ble]
  | fin s m e =>
    cases b with
    | nan => simp [F32.ble] at hb
    | inf t => cases t <;> simp_all [F32.blt, F32.ble]
    | fin t n f =>
      simp only [F32.blt, F32.ble, decide_eq_true_eq, not_lt] at h ⊢
      rw [f32_minExp_comm f e]
      exact h

/-- The product of binary32 is commutative. -/
theorem f32_mul_comm (a b : F32) : a * b = b * a := by
  show F32.mul a b = F32.mul b a
  cases a <;> cases b <;> simp [F32.mul, Nat.mul_comm, Int.add_comm, Bool.xor_comm]


/-! ## The scan of `cast_ray` in binary32 -/

section Binary32

set_option maxRecDepth 100000

theorem remote_scene_some_hit :
    SomeHit F32.sqrt (remote_scene : Scene F32) probe_ray :=
  Or.inl ⟨near_sphere, by simp [remote_scene], by decide⟩

/-- In binary32 the scan of `remote_scene` along `probe_ray` ends with `flag = 1`,
`distance = NaN` and `sphere` pointing at `remote_sphere`. -/
theorem remote_scene_nearest_hit :
    nearest_hit F32.sqrt (remote_scene : Scene F32) probe_ray
      = ⟨1, F32.nan, some remote_sphere, none⟩ := by
  decide

/-- In binary32 `cast_ray` at depth 9 on `remote_scene` and `probe_ray` returns the colour
`(1/2, 1/2, 1/2)`, whatever `powf` is: the scene has no light. -/
theorem remote_scene_cast_ray (powf : F32 → F32 → F32) :
    cast_ray F32.sqrt powf (remote_scene : Scene F32) probe_ray 9 = ⟨1 / 2, 1 / 2, 1 / 2⟩ := by
  have hflag : (nearest_hit F32.sqrt (remote_scene : Scene F32) probe_ray).flag ≠ -1 := by
    rw [remote_scene_nearest_hit]
    decide
  have hsf : surface_of F32.sqrt probe_ray
      (nearest_hit F32.sqrt (remote_scene : Scene F32) probe_ray)
      = some (sphere_surface F32.sqrt probe_ray remote_sphere F32.nan) := by
    rw [remote_scene_nearest_hit]
    rfl
  rw [cast_ray_of_surface F32.sqrt powf remote_scene probe_ray 9 (by decide) _ hflag hsf]
  have hbg : cast_ray F32.sqrt powf (remote_scene : Scene F32)
      (reflection_ray F32.sqrt probe_ray
        (sphere_surface F32.sqrt probe_ray remote_sphere F32.nan)) (9 + 1)
      = (remote_scene : Scene F32).bgColor := by
    unfold cast_ray
    rw [cast_ray_traced_ge F32.sqrt powf remote_scene _ (9 + 1) (by decide)]
  have hsums : light_sums F32.sqrt powf (remote_scene : Scene F32) probe_ray
      (sphere_surface F32.sqrt probe_ray remote_sphere F32.nan) = (0, 0) := rfl
  rw [hbg, hsums]
  decide


/-- No value of binary32 is at most NaN. -/
theorem f32_not_le_nan (a : F32) : ¬ a ≤ F32.nan := by
  show ¬ (F32.ble a F32.nan = true)
  cases a <;> simp [F32.ble]

/-- Witness of C3 (as amended): in binary32 on `remote_scene` and `probe_ray` at depth 9,
and over the reals on `small_occluder_scene` and `down_ray` at depth 0. -/
theorem cast_ray_shades_nearest_witness :
    ((9 : Int) < MAX_DEPTH ∧ (∀ a : F32, ¬ a < a) ∧
      (∀ a b c : F32, a < b → b < c → a < c) ∧
      (∀ a b : F32, a ≤ a → b ≤ b → ¬ a < b → b ≤ a) ∧
      SomeHit F32.sqrt (remote_scene : Scene F32) probe_ray ∧
      ∃ sf dist, SurfaceOfHit F32.sqrt (remote_scene : Scene F32) probe_ray sf dist ∧
        NoNearerHit F32.sqrt (remote_scene : Scene F32) probe_ray dist ∧
        (dist ≤ dist → NearestDist F32.sqrt (remote_scene : Scene F32) probe_ray dist) ∧
        cast_ray F32.sqrt (fun x _ => x) (remote_scene : Scene F32) probe_ray 9 =
          final_color sf.material
            (light_sums F32.sqrt (fun x _ => x) remote_scene probe_ray sf).1
            (light_sums F32.sqrt (fun x _ => x) remote_scene probe_ray sf).2
            (cast_ray F32.sqrt (fun x _ => x) remote_scene
              (reflection_ray F32.sqrt probe_ray sf) (9 + 1))) ∧
    ((0 : Int) < MAX_DEPTH ∧ SomeHit Real.sqrt (small_occluder_scene : Scene ℝ) down_ray ∧
      ∃ sf dist, SurfaceOfHit Real.sqrt (small_occluder_scene : Scene ℝ) down_ray sf dist ∧
        NearestDist Real.sqrt (small_occluder_scene : Scene ℝ) down_ray dist ∧
        cast_ray Real.sqrt (fun x y => x ^ y) (small_occluder_scene : Scene ℝ) down_ray 0 =
          final_color sf.material
            (light_sums Real.sqrt (fun x y => x ^ y) small_occluder_scene down_ray sf).1
            (light_sums Real.sqrt (fun x y => x ^ y) small_occluder_scene down_ray sf).2
            (cast_ray Real.sqrt (fun x y => x ^ y) small_occluder_scene
              (reflection_ray Real.sqrt down_ray sf) (0 + 1))) := by
  have hF := cast_ray_shades_nearest f32_lt_irrefl f32_lt_trans f32_le_of_not_lt F32.sqrt
    (fun x _ => x) remote_scene probe_ray 9 (by decide)
  have hR := cast_ray_shades_nearest (fun a : ℝ => lt_irrefl a)
    (fun _ _ _ h1 h2 => lt_trans h1 h2) (fun _ _ _ _ h => not_lt.mp h) Real.sqrt
    (fun x y => x ^ y) small_occluder_scene down_ray 0 (by decide)
  refine ⟨⟨by decide, f32_lt_irrefl, f32_lt_trans, f32_le_of_not_lt, remote_scene_some_hit,
    hF.1 remote_scene_some_hit⟩, by decide, small_occluder_some_hit, ?_⟩
  obtain ⟨sf, dist, h1, _, h3, h4⟩ := hR.1 small_occluder_some_hit
  exact ⟨sf, dist, h1, h3 (le_refl _), h4⟩

/-- Counterexample to C3 as stated, in binary32.  In `remote_scene` the ray `probe_ray` is
reported to hit `remote_sphere` with the distance NaN (the discriminant is
`inf - inf`) and `near_sphere` at the distance 4.  The scan keeps the first
sphere, since `4 < NaN` is false, and `cast_ray` shades it: the reported distance
of the shaded primitive is not at most the reported distance 4 of the other hit
sphere, and no hit primitive has a reported distance that is at most every
reported hit distance. -/
theorem remote_sphere_shaded :
    hit_sphere F32.sqrt (probe_ray : Ray F32) remote_sphere = some F32.nan ∧
    hit_sphere F32.sqrt (probe_ray : Ray F32) near_sphere = some 4 ∧
    nearest_hit F32.sqrt (remote_scene : Scene F32) probe_ray
      = ⟨1, F32.nan, some remote_sphere, none⟩ ∧
    surface_of F32.sqrt probe_ray (nearest_hit F32.sqrt (remote_scene : Scene F32) probe_ray)
      = some (sphere_surface F32.sqrt probe_ray remote_sphere F32.nan) ∧
    ¬ ((4 : F32) < F32.nan) ∧ ¬ (F32.nan ≤ (4 : F32)) ∧
    ¬ ∃ sf dist, SurfaceOfHit F32.sqrt (remote_scene : Scene F32) probe_ray sf dist ∧
        ∀ s ∈ (remote_scene : Scene F32).spheres, ∀ d,
          hit_sphere F32.sqrt probe_ray s = some d → dist ≤ d := by
  have hA : hit_sphere F32.sqrt (probe_ray : Ray F32) remote_sphere = some F32.nan := by decide
  refine ⟨hA, by decide, remote_scene_nearest_hit, ?_, by decide, by decide, ?_⟩
  · rw [remote_scene_nearest_hit]
    rfl
  · rintro ⟨_, dist, _, h⟩
    exact f32_not_le_nan dist (h remote_sphere (by simp [remote_scene]) F32.nan hA)

/-- Witness of C6 (as amended): in binary32 on `remote_scene` and `probe_ray` at depth 9,
where the reflected colour is the background colour. -/
theorem cast_ray_hit_color_witness :
    (9 : Int) < MAX_DEPTH ∧ (∀ a : F32, ¬ a < a) ∧
    (∀ a b c : F32, a < b → b < c → a < c) ∧
    (∀ a b : F32, a ≤ a → b ≤ b → ¬ a < b → b ≤ a) ∧
    (∀ a b : F32, a * b = b * a) ∧
    SomeHit F32.sqrt (remote_scene : Scene F32) probe_ray ∧
    ∃ sf dist, SurfaceOfHit F32.sqrt (remote_scene : Scene F32) probe_ray sf dist ∧
      NoNearerHit F32.sqrt (remote_scene : Scene F32) probe_ray dist ∧
      (cast_ray F32.sqrt (fun x _ => x) (remote_scene : Scene F32) probe_ray 9).r =
        sf.material.diffuse.r * (1 - sf.material.ambient)
            * (light_sums F32.sqrt (fun x _ => x) remote_scene probe_ray sf).1
          + sf.material.specular
            * (light_sums F32.sqrt (fun x _ => x) remote_scene probe_ray sf).2
          + sf.material.reflective
            * (remote_scene : Scene F32).bgColor.r := by
  refine ⟨by decide, f32_lt_irrefl, f32_lt_trans, f32_le_of_not_lt, f32_mul_comm,
    remote_scene_some_hit, ?_⟩
  obtain ⟨sf, dist, h1, h2, _, hr, _, _, hbg⟩ :=
    cast_ray_hit_color f32_lt_irrefl f32_lt_trans f32_le_of_not_lt f32_mul_comm F32.sqrt
      (fun x _ => x) remote_scene probe_ray 9 (by decide) remote_scene_some_hit
  refine ⟨sf, dist, h1, h2, ?_⟩
  rw [hr, hbg (by decide)]

/-- Counterexample to C6 as stated, in binary32.  In `remote_scene` the ray `probe_ray` is
reported to hit `remote_sphere` with the distance NaN and `near_sphere` at the
distance 4, the only reported distance that is a number.  At depth 9 the formula of
the claim gives, for the material of `near_sphere`, the two sums 0 of a scene
without light and the background as reflected colour, the colour `(0, 0, 0)`;
`cast_ray` returns `(1/2, 1/2, 1/2)`, the value of the formula for the material of
`remote_sphere`. -/
theorem remote_sphere_colour :
    hit_sphere F32.sqrt (probe_ray : Ray F32) remote_sphere = some F32.nan ∧
    hit_sphere F32.sqrt (probe_ray : Ray F32) near_sphere = some 4 ∧
    (fun powf => cast_ray F32.sqrt powf (remote_scene : Scene F32) probe_ray 9)
      = (fun _ => ⟨1 / 2, 1 / 2, 1 / 2⟩) ∧
    (fun powf => final_color (near_sphere : Sphere F32).material
        (light_sums F32.sqrt powf remote_scene probe_ray
          (sphere_surface F32.sqrt probe_ray near_sphere 4)).1
        (light_sums F32.sqrt powf remote_scene probe_ray
          (sphere_surface F32.sqrt probe_ray near_sphere 4)).2
        (cast_ray F32.sqrt powf remote_scene
          (reflection_ray F32.sqrt probe_ray
            (sphere_surface F32.sqrt probe_ray near_sphere 4)) (9 + 1)))
      = (fun _ => ⟨0, 0, 0⟩) ∧
    (⟨1 / 2, 1 / 2, 1 / 2⟩ : Color F32) ≠ ⟨0, 0, 0⟩ := by
  refine ⟨by decide, by decide, ?_, ?_, by decide⟩
  · funext powf
    exact remote_scene_cast_ray powf
  · funext powf
    have hbg : cast_ray F32.sqrt powf (remote_scene : Scene F32)
        (reflection_ray F32.sqrt probe_ray
          (sphere_surface F32.sqrt probe_ray near_sphere 4)) (9 + 1)
        = (remote_scene : Scene F32).bgColor := by
      unfold cast_ray
      rw [cast_ray_traced_ge F32.sqrt powf remote_scene _ (9 + 1) (by decide)]
    have hsums : light_sums F32.sqrt powf (remote_scene : Scene F32) probe_ray
        (sphere_surface F32.sqrt probe_ray near_sphere 4) = (0, 0) := rfl
    rw [hbg, hsums]
    decide


/-! ## `hit_triangle` and `hit_sphere` in binary32 -/

/-- Counterexample to C2 as stated, in binary32, in both directions.  For `sliver_ray` and
`sliver_triangle` the determinant is exactly 1 and the solution
`(t, u, v) = (1, 1/4, 1/4)` lies inside the triangle, in front of the origin, but
the two products of the determinant round to the same binary32 number, `det` is 0
and `hit_triangle` reports no hit.  For `wide_ray` and `wide_triangle` the
determinant is `-2^128` and the only solution has `u = -2^-64 < 0`, so the ray
misses the triangle, but `det` overflows to `-inf`, the three quotients are `-0`,
`-0` and NaN, no test rejects them, and `hit_triangle` reports a hit, with the
distance NaN. -/
theorem hit_triangle_binary32_differs :
    (EPSILON ≤ |triangle_det (sliver_ray : Ray ℝ) sliver_triangle| ∧
      triangle_solves (sliver_ray : Ray ℝ) sliver_triangle 1 (1 / 4) (1 / 4) ∧
      hit_triangle (sliver_ray : Ray ℝ) sliver_triangle = some 1 ∧
      vec3f_dot (vec3f_sub (sliver_triangle : Triangle F32).b sliver_triangle.a)
        (vec3f_cross (vec3f_sub (sliver_triangle : Triangle F32).c sliver_triangle.a)
          (sliver_ray : Ray F32).direction) = 0 ∧
      hit_triangle (sliver_ray : Ray F32) sliver_triangle = none) ∧
    (EPSILON ≤ |triangle_det (wide_ray : Ray ℝ) wide_triangle| ∧
      (∀ t u v : ℝ, triangle_solves (wide_ray : Ray ℝ) wide_triangle t u v → u < 0) ∧
      hit_triangle (wide_ray : Ray ℝ) wide_triangle = none ∧
      vec3f_dot (vec3f_sub (wide_triangle : Triangle F32).b wide_triangle.a)
        (vec3f_cross (vec3f_sub (wide_triangle : Triangle F32).c wide_triangle.a)
          (wide_ray : Ray F32).direction) = F32.inf true ∧
      hit_triangle (wide_ray : Ray F32) wide_triangle = some F32.nan) := by
  refine ⟨⟨?_, ?_, ?_, by decide, by decide⟩, ?_, ?_, ?_, by decide, by decide⟩
  · norm_num [triangle_det, sliver_ray, sliver_triangle, vec3f_sub, vec3f_cross, vec3f_dot,
      EPSILON]
  · norm_num [triangle_solves, ray_at, triangle_at, sliver_ray, sliver_triangle, vec3f_add,
      vec3f_sub, vec3f_mul_scalar]
  · norm_num [hit_triangle, fabs_eq_abs, sliver_ray, sliver_triangle, vec3f_sub, vec3f_cross,
      vec3f_dot, EPSILON]
  · norm_num [triangle_det, wide_ray, wide_triangle, vec3f_sub, vec3f_cross, vec3f_dot,
      EPSILON]
  · intro t u v h
    simp only [triangle_solves, ray_at, triangle_at, wide_ray, wide_triangle, vec3f_add,
      vec3f_sub, vec3f_mul_scalar, Vec3f.mk.injEq] at h
    norm_num at h
    linarith [h.1]
  · norm_num [hit_triangle, fabs_eq_abs, wide_ray, wide_triangle, vec3f_sub, vec3f_cross,
      vec3f_dot, EPSILON]

/-- Counterexample to C11 as stated, in binary32.  The direction of `skew_ray` is the edge
`b - a` of `skew_triangle`, so it is parallel to the plane of the triangle:
`dot(D, cross(b - a, c - a)) = 0`.  In binary32 the three products of `det` are
rounded and their sum is `131072`, not 0; `u = 853/2048`, `v = 0`, and
`hit_triangle` reports a hit at the distance `853/2048`. -/
theorem skew_ray_parallel_hit :
    vec3f_dot (skew_ray : Ray ℝ).direction (triangle_normal (skew_triangle : Triangle ℝ)) = 0 ∧
    triangle_det (skew_ray : Ray ℝ) skew_triangle = 0 ∧
    hit_triangle (skew_ray : Ray ℝ) skew_triangle = none ∧
    vec3f_dot (vec3f_sub (skew_triangle : Triangle F32).b skew_triangle.a)
      (vec3f_cross (vec3f_sub (skew_triangle : Triangle F32).c skew_triangle.a)
        (skew_ray : Ray F32).direction) = 131072 ∧
    hit_triangle (skew_ray : Ray F32) skew_triangle = some (F32.fin false 853 (-11)) := by
  refine ⟨?_, ?_, ?_, by decide, by decide⟩
  · norm_num [skew_ray, skew_triangle, triangle_normal, vec3f_sub, vec3f_cross, vec3f_dot]
  · norm_num [triangle_det, skew_ray, skew_triangle, vec3f_sub, vec3f_cross, vec3f_dot]
  · norm_num [hit_triangle, fabs_eq_abs, skew_ray, skew_triangle, vec3f_sub, vec3f_cross,
      vec3f_dot, EPSILON]

/-- Counterexample to C15 as stated, in binary32.  At the distance 4 `edge_ray` meets the
edge from `a` to `b` of `edge_triangle`; in exact arithmetic both vertex orders
report the hit at 4.  In binary32 the order `(a, b, c)` computes `u = 0.75 - 2^-24`
and `v = -0`, and reports the hit at 4; the order `(a, c, b)` computes a small
negative `u`, and reports no hit. -/
theorem edge_ray_winding :
    hit_triangle (edge_ray : Ray ℝ) edge_triangle = some 4 ∧
    hit_triangle (edge_ray : Ray ℝ) (swap_bc edge_triangle) = some 4 ∧
    hit_triangle (edge_ray : Ray F32) edge_triangle = some 4 ∧
    hit_triangle (edge_ray : Ray F32) (swap_bc edge_triangle) = none := by
  refine ⟨?_, ?_, by decide, by decide⟩
  · norm_num [hit_triangle, fabs_eq_abs, edge_ray, edge_triangle, vec3f_sub, vec3f_cross,
      vec3f_dot, EPSILON]
  · norm_num [hit_triangle, fabs_eq_abs, edge_ray, edge_triangle, swap_bc, vec3f_sub,
      vec3f_cross, vec3f_dot, EPSILON]

/-- Counterexample to C17 as stated, in binary32.  `big_sphere` has the radius 65536, the
origin of `big_sphere_ray` is outside it and `hit_sphere` reports the hit at the
distance 65536, at the point `(0, 0, 65536)` with the normal `(0, 0, 1)`.  The
origin of the reflection ray is `65536 + 0.001 * 1` in `z`, which rounds to 65536:
the bias is lost, the reflection ray starts on the sphere, and `hit_sphere` reports
that it hits the same sphere, at the distance 0. -/
theorem big_sphere_rehit :
    (0 : F32) < (big_sphere : Sphere F32).radius ∧
    (big_sphere_ray : Ray F32).direction.z ≠ 0 ∧
    (big_sphere : Sphere F32).radius * big_sphere.radius
      < vec3f_dot (vec3f_sub (big_sphere_ray : Ray F32).origin big_sphere.center)
          (vec3f_sub (big_sphere_ray : Ray F32).origin big_sphere.center) ∧
    hit_sphere F32.sqrt (big_sphere_ray : Ray F32) big_sphere = some 65536 ∧
    (65536 : F32) + 1 * EPSILON = 65536 ∧
    reflection_ray F32.sqrt (big_sphere_ray : Ray F32)
        (sphere_surface F32.sqrt big_sphere_ray big_sphere 65536)
      = ⟨⟨0, 0, 65536⟩, ⟨0, 0, 1⟩⟩ ∧
    hit_sphere F32.sqrt
        (reflection_ray F32.sqrt (big_sphere_ray : Ray F32)
          (sphere_surface F32.sqrt big_sphere_ray big_sphere 65536))
        big_sphere = some 0 := by
  decide


/-- Counterexample to C12 as stated.  In exact arithmetic: `small_triangle` is not
degenerate, the origin of `up_ray` lies off its plane, the direction of `up_ray` is
perpendicular to that plane and `up_ray` points at the centroid
`(1/4, 1/4, 1/2)`; but `|det| = 0.0009` is below `EPSILON` and `hit_triangle`
reports no hit.  In binary32, also with `|det| >= 0.001`: `thin_triangle` is not
degenerate, the origin of `thin_ray` lies off its plane, its direction is
perpendicular to the plane and it points at the centroid `(7191, 7197, 0)`; the
determinant is exactly 9 and in exact arithmetic the hit is reported at the
distance 1; in binary32 `det` is 8, `u = v = 1`, and `hit_triangle` reports no
hit. -/
theorem small_triangle_centroid_missed :
    (triangle_normal (small_triangle : Triangle ℝ) = ⟨0, 0, 9 / 10000⟩ ∧
      vec3f_dot (vec3f_sub (up_ray : Ray ℝ).origin (small_triangle : Triangle ℝ).a)
        (triangle_normal small_triangle) ≠ 0 ∧
      vec3f_dot (up_ray : Ray ℝ).direction
        (vec3f_sub (small_triangle : Triangle ℝ).b small_triangle.a) = 0 ∧
      vec3f_dot (up_ray : Ray ℝ).direction
        (vec3f_sub (small_triangle : Triangle ℝ).c small_triangle.a) = 0 ∧
      ray_at (up_ray : Ray ℝ) (499 / 1000) = centroid small_triangle ∧
      hit_triangle (up_ray : Ray ℝ) small_triangle = none) ∧
    (triangle_normal (thin_triangle : Triangle ℝ) = ⟨0, 0, -9⟩ ∧
      vec3f_dot (vec3f_sub (thin_ray : Ray ℝ).origin (thin_triangle : Triangle ℝ).a)
        (triangle_normal thin_triangle) ≠ 0 ∧
      vec3f_dot (thin_ray : Ray ℝ).direction
        (vec3f_sub (thin_triangle : Triangle ℝ).b thin_triangle.a) = 0 ∧
      vec3f_dot (thin_ray : Ray ℝ).direction
        (vec3f_sub (thin_triangle : Triangle ℝ).c thin_triangle.a) = 0 ∧
      triangle_det (thin_ray : Ray ℝ) thin_triangle = 9 ∧
      ray_at (thin_ray : Ray ℝ) 1 = centroid thin_triangle ∧
      hit_triangle (thin_ray : Ray ℝ) thin_triangle = some 1 ∧
      vec3f_dot (vec3f_sub (thin_triangle : Triangle F32).b thin_triangle.a)
        (vec3f_cross (vec3f_sub (thin_triangle : Triangle F32).c thin_triangle.a)
          (thin_ray : Ray F32).direction) = 8 ∧
      hit_triangle_u (thin_ray : Ray F32) thin_triangle = 1 ∧
      hit_triangle_v (thin_ray : Ray F32) thin_triangle = 1 ∧
      hit_triangle (thin_ray : Ray F32) thin_triangle = none) := by
  refine ⟨⟨?_, ?_, ?_, ?_, ?_, up_ray_misses_small⟩,
    ?_, ?_, ?_, ?_, ?_, ?_, ?_, by decide, by decide, by decide, by decide⟩
  · norm_num [triangle_normal, small_triangle, vec3f_cross, vec3f_sub]
  · norm_num [triangle_normal, small_triangle, up_ray, vec3f_cross, vec3f_sub, vec3f_dot]
  · norm_num [small_triangle, up_ray, vec3f_sub, vec3f_dot]
  · norm_num [small_triangle, up_ray, vec3f_sub, vec3f_dot]
  · norm_num [ray_at, centroid, small_triangle, up_ray, vec3f_add, vec3f_mul_scalar]
  · norm_num [triangle_normal, thin_triangle, vec3f_cross, vec3f_sub]
  · norm_num [triangle_normal, thin_triangle, thin_ray, vec3f_cross, vec3f_sub, vec3f_dot]
  · norm_num [thin_triangle, thin_ray, vec3f_sub, vec3f_dot]
  · norm_num [thin_triangle, thin_ray, vec3f_sub, vec3f_dot]
  · norm_num [triangle_det, thin_triangle, thin_ray, vec3f_cross, vec3f_sub, vec3f_dot]
  · norm_num [ray_at, centroid, thin_triangle, thin_ray, vec3f_add, vec3f_mul_scalar]
  · norm_num [hit_triangle, fabs_eq_abs, thin_ray, thin_triangle, vec3f_sub, vec3f_cross,
      vec3f_dot, EPSILON]

/-- Values of the model on known facts of binary32: `0.001f` is `8589935 * 2^-33`; above
`2^24` only even integers are numbers and a tie goes to the even significand;
the largest number is `(2^24 - 1) * 2^104`, half a unit above it rounds to
infinity and a quarter of a unit does not; the smallest number is `2^-149`, with
half of it rounding to 0 and three halves of it to `2^-148`; the root of 2 is
`11863283 * 2^-23`; `0 / 0` is NaN, `1 / 0` is infinity, `inf - inf` is NaN, and
the sum of a number and its opposite is `+0`. -/
theorem f32_samples :
    (EPSILON : F32) = F32.fin false 8589935 (-33) ∧
    (16777217 : F32) = 16777216 ∧ (16777219 : F32) = 16777220 ∧
    F32.fin false 16777215 104 + F32.fin false 1 103 = F32.inf false ∧
    F32.fin false 16777215 104 + F32.fin false 1 102 = F32.fin false 16777215 104 ∧
    F32.fin false 1 (-149) / 2 = 0 ∧
    F32.fin false 3 (-149) / 2 = F32.fin false 1 (-148) ∧
    F32.sqrt 2 = F32.fin false 11863283 (-23) ∧
    (0 : F32) / 0 = F32.nan ∧ (1 : F32) / 0 = F32.inf false ∧
    F32.inf false - F32.inf false = F32.nan ∧
    (3 : F32) + -3 = F32.fin false 0 0 ∧
    ¬ (F32.nan < (0 : F32)) ∧ ¬ ((0 : F32) < F32.nan) ∧ ¬ (-(0 : F32) < 0) := by
  decide

end Binary32

end Renderer
